import Mathlib

/-!
# TCFX geometry toolkit and shape conversion

A shallow embedding of the numeric routines of `CoreMath`
(src/CoreLib/math.cpp) and of the path-to-shape loops of
`FontHandle::text_to_shape` (src/YutilsCpp/fonthandle.cpp), together with the
properties stated for them.

Modelling conventions.
* A C++ `double` is read in two ways, the exact reading (theorems stated
  over `ℚ` or `ℝ`) and the binary64 reading (theorems stated over `F64`).
  In the exact reading a `double` is an exact number: this is the arithmetic
  the code writes down.  Routines that stay within field arithmetic, `floor`
  and comparisons are stated over the rationals (`ℚ`).  Routines that call
  libm (`sqrt`, `acos`, `sin`, `cos`) are written over an arbitrary linearly
  ordered field `K` with the libm functions as parameters; they run over `ℚ`
  and are instantiated with Mathlib's real functions over `ℝ` in the theorems
  about them.  The one non-finite value the code produces on purpose,
  `+infinity`, is the top element of `WithTop ℚ`.
  In the binary64 reading (`F64`) a `double` is an IEEE 754 binary64 value and
  every operation is rounded to nearest, ties to even, one operation at a
  time (no fused multiply-add, no extended precision); overflow gives an
  infinity, invalid operations a NaN.  The routines whose results depend on
  the rounding are embedded a second time in this reading, under the same
  names in the namespace `F64`.
* A function that can `throw` returns `Except Error _`.
* A division by a divisor computed from the arguments goes through `fdiv`,
  which reports a zero divisor as `Error.zero_division` (the C++ result would
  be a non-finite double).  A theorem stating that a routine returns `.ok _`
  hence also states that no such division happened.  Divisions by a literal
  or by a power of ten are written `/`.
* `std::vector::at` is `vecAt`, which reports `Error.out_of_range`.  A read
  of a plain array outside its bounds, or of a union member other than the
  one stored, is undefined behaviour in C++ and is reported as
  `Error.bad_access`.
* The shape vector of `text_to_shape` is a list of `Token`s: command markers
  and the numbers handed to `doubleToString`.
* The libm functions and the helpers `rotate2d`, `rad`, `deg`, `random` of
  `Common` (declared in YutilsCpp/common.hpp, bodies not in the sources at
  hand) are parameters of the routines that call them.
-/

namespace TCFX

/-- Outcomes other than a normal return. -/
inductive Error where
  | invalid_argument (what : String)
  | out_of_range
  | zero_division
  | bad_access
  deriving DecidableEq, Repr

/-- A `std::tuple<double, double, double>`. -/
abbrev Point3 := ℚ × ℚ × ℚ

/-- A `std::pair<double, double>`. -/
abbrev Point2 := ℚ × ℚ

/-- Bounds-checked element access, `pts.at(i)`. -/
def vecAt (pts : List Point3) (i : ℕ) : Except Error Point3 :=
  match pts[i]? with
  | some p => .ok p
  | none => .error .out_of_range

/-- Division of doubles by a computed divisor. -/
def fdiv {K : Type} [LinearOrderedField K] (a b : K) : Except Error K :=
  if b = 0 then .error .zero_division else .ok (a / b)

/-- The loop of `CoreMath::fac`: `for (double i = 2; i <= n; ++i) k *= i;`. -/
def facLoop (n : ℚ) (i k : ℚ) : ℚ :=
  if i ≤ n then facLoop n (i + 1) (k * i) else k
termination_by (⌊n - i⌋ + 1).toNat
decreasing_by
  have h0 : (0 : ℤ) ≤ ⌊n - i⌋ := Int.floor_nonneg.mpr (by linarith)
  have h1 : ⌊n - (i + 1)⌋ = ⌊n - i⌋ - 1 := by
    rw [show n - (i + 1) = (n - i) - 1 by ring]
    exact Int.floor_sub_one _
  rw [h1]
  omega

/-- `CoreMath::fac` (math.cpp 398-407), exact reading: the factorial.
`F64.fac` is the binary64 reading, where the product is rounded at every step
and is `+inf` from `fac(171)` on. -/
def fac (n : ℚ) : ℚ := facLoop n 2 1

/-- `CoreMath::bezier2` (math.cpp 305-318), exact reading; `F64.bezier2` is
the binary64 reading. -/
def bezier2 (pct : ℚ) (pts : List Point3) (is3D : Bool) : Except Error Point3 := do
  let pct_inv := 1 - pct
  let p0 ← vecAt pts 0
  let p1 ← vecAt pts 1
  let pts1 := pct_inv * p0.1 + pct * p1.1
  let pts2 := pct_inv * p0.2.1 + pct * p1.2.1
  let pts3 := if is3D then pct_inv * p0.2.2 + pct * p1.2.2 else 0
  pure (pts1, pts2, pts3)

/-- `CoreMath::bezier3` (math.cpp 320-341), exact reading; `F64.bezier3` is
the binary64 reading. -/
def bezier3 (pct : ℚ) (pts : List Point3) (is3D : Bool) : Except Error Point3 := do
  let pct_inv := 1 - pct
  let p0 ← vecAt pts 0
  let p1 ← vecAt pts 1
  let p2 ← vecAt pts 2
  let pts1 := pct_inv * pct_inv * p0.1 + 2 * pct_inv * pct * p1.1 + pct * pct * p2.1
  let pts2 := pct_inv * pct_inv * p0.2.1 + 2 * pct_inv * pct * p1.2.1 + pct * pct * p2.2.1
  let pts3 :=
    if is3D then
      pct_inv * pct_inv * p0.2.2 + 2 * pct_inv * pct * p1.2.2 + pct * pct * p2.2.2
    else 0
  pure (pts1, pts2, pts3)

/-- `CoreMath::bezier4` (math.cpp 343-367), exact reading; `F64.bezier4` is
the binary64 reading. -/
def bezier4 (pct : ℚ) (pts : List Point3) (is3D : Bool) : Except Error Point3 := do
  let pct_inv := 1 - pct
  let p0 ← vecAt pts 0
  let p1 ← vecAt pts 1
  let p2 ← vecAt pts 2
  let p3 ← vecAt pts 3
  let pts1 := pct_inv * pct_inv * pct_inv * p0.1 + 3 * pct_inv * pct_inv * pct * p1.1
    + 3 * pct_inv * pct * pct * p2.1 + pct * pct * pct * p3.1
  let pts2 := pct_inv * pct_inv * pct_inv * p0.2.1 + 3 * pct_inv * pct_inv * pct * p1.2.1
    + 3 * pct_inv * pct * pct * p2.2.1 + pct * pct * pct * p3.2.1
  let pts3 :=
    if is3D then
      pct_inv * pct_inv * pct_inv * p0.2.2 + 3 * pct_inv * pct_inv * pct * p1.2.2
        + 3 * pct_inv * pct * pct * p2.2.2 + pct * pct * pct * p3.2.2
    else 0
  pure (pts1, pts2, pts3)

/-- The weight `bern` that one iteration of `bezierN` computes for index `i`:
`fac(nd) / (fac(i) * fac(ni - i))`, then `*= pow(pct, i)`, then
`+= pow(pct_inv, ni - i)`. -/
def bernWeight (pct : ℚ) (ni i : ℕ) : Except Error ℚ := do
  let pct_inv := 1 - pct
  let nd : ℚ := (ni : ℚ)
  let b0 ← fdiv (fac nd) (fac (i : ℚ) * fac ((ni - i : ℕ) : ℚ))
  let b1 := b0 * pct ^ i
  pure (b1 + pct_inv ^ (ni - i))

/-- The body of the `for` loop of `bezierN` for index `i`. -/
def bezierNStep (pct : ℚ) (pts : List Point3) (is3D : Bool) (ni : ℕ)
    (ret : Point3) (i : ℕ) : Except Error Point3 := do
  let pt ← vecAt pts i
  let bern ← bernWeight pct ni i
  let ret_x := ret.1 + pt.1 * bern
  let ret_y := ret.2.1 + pt.2.1 * bern
  let ret_z := if is3D then ret.2.2 + pt.2.2 * bern else ret.2.2
  pure (ret_x, ret_y, ret_z)

/-- `CoreMath::bezierN` (math.cpp 369-396): `for (i = 0; i <= ni; ++i)`. -/
def bezierN (pct : ℚ) (pts : List Point3) (is3D : Bool) : Except Error Point3 :=
  let ni := pts.length - 1
  (List.range (ni + 1)).foldlM (bezierNStep pct pts is3D ni) (0, 0, 0)

/-- `CoreMath::bezier` (math.cpp 100-126). -/
def bezier (pct : ℚ) (pts : List Point3) (is3D : Bool) : Except Error Point3 :=
  if pct < 0 ∨ pct > 1 then
    .error (.invalid_argument "pct must between 0 and 1")
  else
    let ptsSize := pts.length
    if ptsSize < 2 then
      .error (.invalid_argument "at least 2 points expected")
    else
      match ptsSize with
      | 2 => bezier2 pct pts is3D
      | 3 => bezier3 pct pts is3D
      | 4 => bezier4 pct pts is3D
      | _ => bezierN pct pts is3D

/-- The standard Bernstein form of a Bezier curve in one coordinate,
`sum_{i=0..n} C(n,i) * pct^i * (1-pct)^(n-i) * P_i` with `n + 1` the number of
control points; written from the mathematical definition, to be compared
with the code. -/
def bernsteinSum (coord : Point3 → ℚ) (pct : ℚ) (pts : List Point3) : ℚ :=
  let n := pts.length - 1
  ∑ i in Finset.range (n + 1),
    (n.choose i : ℚ) * pct ^ i * (1 - pct) ^ (n - i) * coord (pts.getD i (0, 0, 0))

/-- The form the generic evaluator computes in one coordinate:
`sum_{i=0..n} P_i * (C(n,i) * pct^i + (1-pct)^(n-i))`, with `C(n,i)` the
binomial coefficient. -/
def addedBernsteinSum (coord : Point3 → ℚ) (pct : ℚ) (pts : List Point3) : ℚ :=
  let n := pts.length - 1
  ∑ i in Finset.range (n + 1),
    coord (pts.getD i (0, 0, 0)) * ((n.choose i : ℚ) * pct ^ i + (1 - pct) ^ (n - i))

/-- `CoreMath::distance` (math.cpp 145-148), exact reading; `sqrt` is the libm
square root.  `F64.distance` is the binary64 reading. -/
def distance {K : Type} [LinearOrderedField K] (sqrt : K → K) (x y z : K) : K :=
  sqrt (x * x + y * y + z * z)

/-- `CoreMath::stretch` (math.cpp 226-237), exact reading; `F64.stretch` is the
binary64 reading. -/
def stretch {K : Type} [LinearOrderedField K] (sqrt : K → K) (x y z length : K) :
    Except Error (K × K × K) :=
  let cur_length := distance sqrt x y z
  if cur_length = 0 then
    .ok (0, 0, 0)
  else do
    let factor ← fdiv length cur_length
    pure (x * factor, y * factor, z * factor)

/-- The body of the `while` loop of `arc_curve` (math.cpp 53-93): from the
current start vector `(rx0, ry0)` it yields the four control points pushed
to `curves` and the start vector `(rx3, ry3)` of the next curve. -/
def arcSegment (sqrt : ℚ → ℚ) (rotate2d : ℚ → ℚ → ℚ → Point2)
    (cx cy angle cw kappa rx0 ry0 angle_sum : ℚ) :
    Except Error (List Point2 × ℚ × ℚ) := do
  let cur_angle_pct := min (angle - angle_sum) 90 / 90
  let tmpPair := rotate2d rx0 ry0 (cw * 90 * cur_angle_pct)
  let rx3 := tmpPair.1
  let ry3 := tmpPair.2
  let rx03 := tmpPair.1 - rx0
  let ry03 := tmpPair.2 - ry0
  let tmpDouble := distance sqrt rx03 ry03 0
  let tmpDouble := tmpDouble ^ 2 / 2
  let tmpDouble := sqrt tmpDouble
  let tmpTuple ← stretch sqrt rx03 ry03 0 (tmpDouble * kappa)
  let rx03 := tmpTuple.1
  let ry03 := tmpTuple.2.1
  let tmpPair := rotate2d rx03 ry03 (cw * (-45) * cur_angle_pct)
  let rx1 := rx0 + tmpPair.1
  let ry1 := ry0 + tmpPair.2
  let tmpPair := rotate2d (rx03 * -1) (ry03 * -1) (cw * 45 * cur_angle_pct)
  let rx2 := rx3 + tmpPair.1
  let ry2 := ry3 + tmpPair.2
  pure ([(cx + rx0, cy + ry0), (cx + rx1, cy + ry1), (cx + rx2, cy + ry2),
         (cx + rx3, cy + ry3)], rx3, ry3)

/-- The loop `while (angle_sum < angle) { ...; angle_sum += 90.f; }` of
`arc_curve` (math.cpp 51-95). -/
def arcLoop (sqrt : ℚ → ℚ) (rotate2d : ℚ → ℚ → ℚ → Point2)
    (cx cy angle cw kappa : ℚ) (rx0 ry0 angle_sum : ℚ) (curves : List Point2) :
    Except Error (List Point2) :=
  if angle_sum < angle then
    match arcSegment sqrt rotate2d cx cy angle cw kappa rx0 ry0 angle_sum with
    | .error e => .error e
    | .ok (seg, rx3, ry3) =>
      arcLoop sqrt rotate2d cx cy angle cw kappa rx3 ry3 (angle_sum + 90) (curves ++ seg)
  else
    .ok curves
termination_by (⌈(angle - angle_sum) / 90⌉).toNat
decreasing_by
  have hpos : 0 < (angle - angle_sum) / 90 := by
    apply div_pos <;> linarith
  have h0 : (0 : ℤ) < ⌈(angle - angle_sum) / 90⌉ := Int.ceil_pos.mpr hpos
  have h1 : ⌈(angle - (angle_sum + 90)) / 90⌉ = ⌈(angle - angle_sum) / 90⌉ - 1 := by
    rw [show (angle - (angle_sum + 90)) / 90 = (angle - angle_sum) / 90 - 1 by ring]
    exact Int.ceil_sub_one _
  rw [h1]
  omega

/-- `CoreMath::arc_curve` (math.cpp 19-98), exact reading; `sqrt` is the libm
square root and `rotate2d` the helper of `Common`.  `F64.arc_curve` is the
binary64 reading. -/
def arc_curve (sqrt : ℚ → ℚ) (rotate2d : ℚ → ℚ → ℚ → Point2)
    (x y cx cy angle : ℚ) : Except Error (List Point2) :=
  if angle < -360 ∨ angle > 360 then
    .error (.invalid_argument "start & center point and valid angle (-360<=x<=360) expected")
  else if angle = 0 then
    .error (.invalid_argument "angle CANNOT be zero")
  else
    let kappa := 4 * (sqrt 2 - 1) / 3
    let rx0 := x - cx
    let ry0 := y - cy
    let cw : ℚ := if angle > 0 then 1 else -1
    arcLoop sqrt rotate2d cx cy angle cw kappa rx0 ry0 0 []

/-- A returned `double` that may be `+infinity`. -/
abbrev Double := WithTop ℚ

/-- `CoreMath::line_intersect` (math.cpp 150-194), exact reading.  The
default-constructed pair `pair<double, double>()` is `(0, 0)`.
`F64.line_intersect` is the binary64 reading. -/
def line_intersect (x0 y0 x1 y1 x2 y2 x3 y3 : ℚ) (strict : Bool) :
    Except Error (Double × Double) :=
  let x10 := x0 - x1
  let y10 := y0 - y1
  let x32 := x2 - x3
  let y32 := y2 - y3
  if (x10 = 0 ∧ y10 = 0) ∨ (x32 = 0 ∧ y32 = 0) then
    .error (.invalid_argument "lines mustn't have zero length")
  else
    let det := x10 * y32 - y10 * x32
    if det = 0 then
      .ok (((0 : ℚ) : Double), ((0 : ℚ) : Double))
    else do
      let pre := x0 * y1 - y0 * x1
      let post := x2 * y3 - y2 * x3
      let ix ← fdiv (pre * x32 - x10 * post) det
      let iy ← fdiv (pre * y32 - y10 * post) det
      if strict then do
        let s ← if x10 ≠ 0 then fdiv (ix - x1) x10 else fdiv (iy - y1) y10
        let t ← if x32 ≠ 0 then fdiv (ix - x3) x32 else fdiv (iy - y3) y32
        if s < 0 ∨ s > 1 ∨ t < 0 ∨ t > 1 then
          pure ((⊤ : Double), (⊤ : Double))
        else
          pure ((ix : Double), (iy : Double))
      else
        pure ((ix : Double), (iy : Double))

/-- The point `(px, py)` lies on the infinite line through `(ax, ay)` and
`(bx, bY)`: the cross product of the two difference vectors vanishes. -/
def collinear (px py ax ay bx bY : ℚ) : Prop :=
  (px - ax) * (bY - ay) - (py - ay) * (bx - ax) = 0

/-- A stand-in for the libm square root in worked examples: exact on 0, 1 and
4, the identity elsewhere. -/
def sampleSqrt (q : ℚ) : ℚ := if q = 4 then 2 else q

/-- A stand-in for `Common::rotate2d` in worked examples: exact quarter turns
(counter-clockwise for 90, clockwise for -90, half turn for 180 and -180), no
rotation for other angles. -/
def sampleRotate2d (x y a : ℚ) : Point2 :=
  if a = 90 then (-y, x)
  else if a = -90 then (y, -x)
  else if a = 180 ∨ a = -180 then (-x, -y)
  else (x, y)

/-- The value of `bern` in iteration `i` of `bezierN`, as a rational. -/
def bernValue (pct : ℚ) (ni i : ℕ) : ℚ :=
  (ni.factorial : ℚ) / ((i.factorial : ℚ) * ((ni - i).factorial : ℚ)) * pct ^ i
    + (1 - pct) ^ (ni - i)

/-- One iteration of `bezierN` on the accumulator, without the error plumbing. -/
def bezierNPure (pct : ℚ) (pts : List Point3) (is3D : Bool) (ni : ℕ)
    (ret : Point3) (i : ℕ) : Point3 :=
  (ret.1 + (pts.getD i (0, 0, 0)).1 * bernValue pct ni i,
   ret.2.1 + (pts.getD i (0, 0, 0)).2.1 * bernValue pct ni i,
   if is3D then ret.2.2 + (pts.getD i (0, 0, 0)).2.2 * bernValue pct ni i else ret.2.2)

/-- A control point with its third component replaced by 0. -/
def flatten (p : Point3) : Point3 := (p.1, p.2.1, 0)

/-- The value `ix` computed by `line_intersect` (math.cpp 179). -/
def crossX (x0 y0 x1 y1 x2 y2 x3 y3 : ℚ) : ℚ :=
  ((x0 * y1 - y0 * x1) * (x2 - x3) - (x0 - x1) * (x2 * y3 - y2 * x3))
    / ((x0 - x1) * (y2 - y3) - (y0 - y1) * (x2 - x3))

/-- The value `iy` computed by `line_intersect` (math.cpp 180). -/
def crossY (x0 y0 x1 y1 x2 y2 x3 y3 : ℚ) : ℚ :=
  ((x0 * y1 - y0 * x1) * (y2 - y3) - (y0 - y1) * (x2 * y3 - y2 * x3))
    / ((x0 - x1) * (y2 - y3) - (y0 - y1) * (x2 - x3))

/-- The value `s` (resp. `t`) computed by `line_intersect` in strict mode
(math.cpp 184-185) from the intersection point `(ix, iy)`, the second end
point `(x1, y1)` of a segment and the segment vector `(x10, y10)`. -/
def segParam (ix iy x1 y1 x10 y10 : ℚ) : ℚ :=
  if x10 ≠ 0 then (ix - x1) / x10 else (iy - y1) / y10

/-- `CoreMath::degree` (math.cpp 128-143), exact reading; `acos` is the libm
arc cosine and `deg` the radians-to-degrees helper of `Common`.  `F64.degree`
is the binary64 reading. -/
def degree {K : Type} [LinearOrderedField K] (sqrt acos deg : K → K)
    (x1 y1 z1 x2 y2 z2 : K) : Except Error K := do
  let degree := distance sqrt x1 y1 z1 * distance sqrt x2 y2 z2
  let quot ← fdiv (x1 * x2 + y1 * y2 + z1 * z2) degree
  let degree := acos quot
  let degree := deg degree
  if x1 * y2 - y1 * x2 < 0 then
    pure (degree * -1)
  else
    pure degree

/-- `CoreMath::randomsteps` (math.cpp 204-212); `random` is the random source
of `Common`, a function of its two bounds here. -/
def randomsteps (random : ℚ → ℚ → ℚ) (min max step : ℚ) : Except Error ℚ :=
  if max < min ∨ step ≤ 0 then
    .error (.invalid_argument "Invalid input!")
  else do
    let steps ← fdiv (max - min) step
    pure (Min.min (min + random 0 (⌈steps⌉ : ℚ) * step) max)

/-- `CoreMath::round` (math.cpp 214-224), exact reading; `F64.round` is the
binary64 reading. -/
def round (x dec : ℚ) : ℚ :=
  if dec ≠ 0 ∧ dec ≥ 1 then
    let dec := (10 : ℚ) ^ ⌊dec⌋
    (⌊x * dec + 1 / 2⌋ : ℚ) / dec
  else
    (⌊x + 1 / 2⌋ : ℚ)

/-- `CoreMath::trim` (math.cpp 239-247). -/
def trim (x min max : ℚ) : Except Error ℚ :=
  if max < min then
    .error (.invalid_argument "Invalid input!")
  else
    .ok (if x < min then min else if x > max then max else x)

/-- `CoreMath::rotate` (math.cpp 273-302). -/
def rotate {K : Type} [LinearOrderedField K] (sin cos rad : K → K)
    (p : K × K × K) (axis : String) (angle : K) : Except Error (K × K × K) :=
  if axis ≠ "x" ∧ axis ≠ "y" ∧ axis ≠ "z" then
    .error (.invalid_argument "invalid axis")
  else
    let ra := rad angle
    if axis = "x" then
      .ok (p.1, cos ra * p.2.1 - sin ra * p.2.2, sin ra * p.2.1 + cos ra * p.2.2)
    else if axis = "y" then
      .ok (cos ra * p.1 + sin ra * p.2.2, p.2.1, cos ra * p.2.2 - sin ra * p.1)
    else
      .ok (cos ra * p.1 - sin ra * p.2.1, sin ra * p.1 + cos ra * p.2.1, p.2.2)

/-! ## `FontHandle::text_to_shape`: path to shape (src/YutilsCpp/fonthandle.cpp) -/

/-- One entry of the `shape` vector: a command marker, or a number before its
conversion by `doubleToString`. -/
inductive Token where
  | marker (s : String)
  | number (v : ℚ)
  deriving DecidableEq, Repr

/-- `FP_PRECISION` (YutilsCpp/common.hpp 8). -/
def FP_PRECISION : ℚ := 3

/-- Read of element `i` of a plain array. -/
def arrAt {α : Type} (a : List α) (i : ℕ) : Except Error α :=
  match a[i]? with
  | some v => .ok v
  | none => .error .bad_access

/-- GDI point type `PT_CLOSEFIGURE` (wingdi.h). -/
def PT_CLOSEFIGURE : ℕ := 0x01

/-- GDI point type `PT_LINETO` (wingdi.h). -/
def PT_LINETO : ℕ := 0x02

/-- GDI point type `PT_BEZIERTO` (wingdi.h). -/
def PT_BEZIERTO : ℕ := 0x04

/-- GDI point type `PT_MOVETO` (wingdi.h). -/
def PT_MOVETO : ℕ := 0x06

/-- The two numbers pushed for a GDI `POINT` (fonthandle.cpp 468-472):
`round(x * downscale * xscale, FP_PRECISION)` and the same for `y`. -/
def gdiXY (downscale xscale yscale : ℚ) (pt : ℤ × ℤ) : List Token :=
  [.number (round ((pt.1 : ℚ) * downscale * xscale) FP_PRECISION),
   .number (round ((pt.2 : ℚ) * downscale * yscale) FP_PRECISION)]

/-- The loop `while (i < points_n)` of the GDI branch of `text_to_shape`
(fonthandle.cpp 450-527) over the arrays `points` and `types`. -/
def gdiLoop (downscale xscale yscale : ℚ) (points : List (ℤ × ℤ)) (types : List ℕ)
    (points_n : ℕ) (i : ℕ) (last_type : ℕ) (shape : List Token) :
    Except Error (List Token) :=
  if _h : i < points_n then
    match arrAt types i, arrAt points i with
    | .ok cur_type, .ok cur_point =>
      let closing : List Token := if cur_type &&& 0x1 = 1 then [.marker "c"] else []
      if cur_type = PT_MOVETO then
        let mark : List Token := if last_type ≠ PT_MOVETO then [.marker "m"] else []
        let last_type := if last_type ≠ PT_MOVETO then cur_type else last_type
        gdiLoop downscale xscale yscale points types points_n (i + 1) last_type
          (shape ++ mark ++ gdiXY downscale xscale yscale cur_point ++ closing)
      else if cur_type = PT_LINETO ∨ cur_type = PT_LINETO + PT_CLOSEFIGURE then
        let mark : List Token := if last_type ≠ PT_LINETO then [.marker "l"] else []
        let last_type := if last_type ≠ PT_LINETO then cur_type else last_type
        gdiLoop downscale xscale yscale points types points_n (i + 1) last_type
          (shape ++ mark ++ gdiXY downscale xscale yscale cur_point ++ closing)
      else if cur_type = PT_BEZIERTO ∨ cur_type = PT_BEZIERTO + PT_CLOSEFIGURE then
        let mark : List Token := if last_type ≠ PT_BEZIERTO then [.marker "b"] else []
        let last_type := if last_type ≠ PT_BEZIERTO then cur_type else last_type
        match arrAt points (i + 1), arrAt points (i + 2) with
        | .ok point1, .ok point2 =>
          gdiLoop downscale xscale yscale points types points_n (i + 3) last_type
            (shape ++ mark ++ gdiXY downscale xscale yscale cur_point
              ++ gdiXY downscale xscale yscale point1
              ++ gdiXY downscale xscale yscale point2 ++ closing)
        | _, _ => .error .bad_access
      else
        gdiLoop downscale xscale yscale points types points_n (i + 1) last_type
          (shape ++ closing)
    | _, _ => .error .bad_access
  else
    .ok shape
termination_by points_n - i
decreasing_by all_goals omega

/-- The GDI conversion as `text_to_shape` starts it: `i = 0`,
`last_type = 0xff`, empty `shape`. -/
def gdiShape (downscale xscale yscale : ℚ) (points : List (ℤ × ℤ)) (types : List ℕ)
    (points_n : ℕ) : Except Error (List Token) :=
  gdiLoop downscale xscale yscale points types points_n 0 0xff []

/-- One element of `cairo_path_t::data`, the union `cairo_path_data_t`: a
header with a type and a length, or a point. -/
inductive PathData where
  | header (type : ℤ) (length : ℤ)
  | point (x y : ℚ)
  deriving DecidableEq, Repr

/-- The cairo path data type `CAIRO_PATH_MOVE_TO` (cairo.h). -/
def CAIRO_PATH_MOVE_TO : ℤ := 0

/-- The cairo path data type `CAIRO_PATH_LINE_TO` (cairo.h). -/
def CAIRO_PATH_LINE_TO : ℤ := 1

/-- The cairo path data type `CAIRO_PATH_CURVE_TO` (cairo.h). -/
def CAIRO_PATH_CURVE_TO : ℤ := 2

/-- The cairo path data type `CAIRO_PATH_CLOSE_PATH` (cairo.h). -/
def CAIRO_PATH_CLOSE_PATH : ℤ := 3

/-- Read of `data[i].header`. -/
def readHeader (data : List PathData) (i : ℤ) : Except Error (ℤ × ℤ) :=
  if i < 0 then .error .bad_access
  else
    match data[i.toNat]? with
    | some (.header type length) => .ok (type, length)
    | _ => .error .bad_access

/-- Read of `data[i].point`, rounded: the two numbers
`round(data[i].point.x, FP_PRECISION)`, `round(data[i].point.y, FP_PRECISION)`. -/
def readXY (data : List PathData) (i : ℤ) : Except Error (List Token) :=
  if i < 0 then .error .bad_access
  else
    match data[i.toNat]? with
    | some (.point x y) => .ok [.number (round x FP_PRECISION), .number (round y FP_PRECISION)]
    | _ => .error .bad_access

/-- The `switch (cur_type)` of the cairo branch (fonthandle.cpp 569-627): the
tokens pushed for the path element at index `i`. -/
def cairoSwitch (data : List PathData) (i cur_type last_type : ℤ) :
    Except Error (List Token) :=
  if cur_type = CAIRO_PATH_MOVE_TO then do
    let mark : List Token := if cur_type ≠ last_type then [.marker "m"] else []
    let xy ← readXY data (i + 1)
    pure (mark ++ xy)
  else if cur_type = CAIRO_PATH_LINE_TO then do
    let mark : List Token := if cur_type ≠ last_type then [.marker "l"] else []
    let xy ← readXY data (i + 1)
    pure (mark ++ xy)
  else if cur_type = CAIRO_PATH_CURVE_TO then do
    let mark : List Token := if cur_type ≠ last_type then [.marker "b"] else []
    let xy1 ← readXY data (i + 1)
    let xy2 ← readXY data (i + 2)
    let xy3 ← readXY data (i + 3)
    pure (mark ++ xy1 ++ xy2 ++ xy3)
  else if cur_type = CAIRO_PATH_CLOSE_PATH then
    pure (if cur_type ≠ last_type then [.marker "c"] else [])
  else
    pure []

/-- The loop `while (i < path->num_data)` of the cairo branch of
`text_to_shape` (fonthandle.cpp 564-631).  A header may carry any length, so
the loop need not end: it runs on `fuel`, one unit per iteration, and `none`
means that the fuel ran out. -/
def cairoLoop (data : List PathData) (num_data : ℤ) :
    ℕ → ℤ → ℤ → List Token → Option (Except Error (List Token))
  | 0, i, _, shape => if i < num_data then none else some (.ok shape)
  | fuel + 1, i, last_type, shape =>
    if i < num_data then
      match readHeader data i with
      | .error e => some (.error e)
      | .ok (cur_type, length) =>
        match cairoSwitch data i cur_type last_type with
        | .error e => some (.error e)
        | .ok pushed => cairoLoop data num_data fuel (i + length) cur_type (shape ++ pushed)
    else
      some (.ok shape)

/-- The cairo conversion as `text_to_shape` starts it: `i = 0`,
`last_type = 99999`, empty `shape`. -/
def cairoShape (data : List PathData) (fuel : ℕ) : Option (Except Error (List Token)) :=
  cairoLoop data (data.length : ℤ) fuel 0 99999 []

/-- The kinds of path commands. -/
inductive Kind where
  | move
  | line
  | curve
  | close
  deriving DecidableEq, Repr

/-- The command marker of a kind. -/
def Kind.letter : Kind → String
  | .move => "m"
  | .line => "l"
  | .curve => "b"
  | .close => "c"

/-- The marker rule in words: going through the commands in order, a command
gets the marker of its kind exactly when its kind differs from the kind of
the command right before it (`prev`; `none` before the first command), and
then contributes its own tokens `payload`. -/
def markedTokens {α : Type} (kind : α → Kind) (payload : α → List Token) :
    Option Kind → List α → List Token
  | _, [] => []
  | prev, c :: cs =>
    (if prev = some (kind c) then [] else [Token.marker (kind c).letter])
      ++ payload c ++ markedTokens kind payload (some (kind c)) cs

/-- A cairo path command with its coordinates. -/
inductive CairoCmd where
  | move_to (x y : ℚ)
  | line_to (x y : ℚ)
  | curve_to (x1 y1 x2 y2 x3 y3 : ℚ)
  | close_path
  deriving DecidableEq, Repr

/-- The kind of a cairo command. -/
def CairoCmd.kind : CairoCmd → Kind
  | .move_to _ _ => .move
  | .line_to _ _ => .line
  | .curve_to _ _ _ _ _ _ => .curve
  | .close_path => .close

/-- The type code cairo stores in the header of a command. -/
def CairoCmd.code : CairoCmd → ℤ
  | .move_to _ _ => CAIRO_PATH_MOVE_TO
  | .line_to _ _ => CAIRO_PATH_LINE_TO
  | .curve_to _ _ _ _ _ _ => CAIRO_PATH_CURVE_TO
  | .close_path => CAIRO_PATH_CLOSE_PATH

/-- The elements of `cairo_path_t::data` that hold one command: a header with
the type and the number of elements, then the points. -/
def CairoCmd.elems : CairoCmd → List PathData
  | .move_to x y => [.header CAIRO_PATH_MOVE_TO 2, .point x y]
  | .line_to x y => [.header CAIRO_PATH_LINE_TO 2, .point x y]
  | .curve_to x1 y1 x2 y2 x3 y3 =>
    [.header CAIRO_PATH_CURVE_TO 4, .point x1 y1, .point x2 y2, .point x3 y3]
  | .close_path => [.header CAIRO_PATH_CLOSE_PATH 1]

/-- The rounded coordinates of a cairo command: 2 numbers for a move or a
line, 6 for a curve, none for a close. -/
def CairoCmd.payload : CairoCmd → List Token
  | .move_to x y => [.number (round x FP_PRECISION), .number (round y FP_PRECISION)]
  | .line_to x y => [.number (round x FP_PRECISION), .number (round y FP_PRECISION)]
  | .curve_to x1 y1 x2 y2 x3 y3 =>
    [.number (round x1 FP_PRECISION), .number (round y1 FP_PRECISION),
     .number (round x2 FP_PRECISION), .number (round y2 FP_PRECISION),
     .number (round x3 FP_PRECISION), .number (round y3 FP_PRECISION)]
  | .close_path => []

/-- The `data` array of a cairo path made of the given commands. -/
def cairoData : List CairoCmd → List PathData
  | [] => []
  | c :: cs => c.elems ++ cairoData cs

/-- The value of `last_type` in the cairo loop after a command of the given
kind (99999 before the first command). -/
def cairoLast : Option Kind → ℤ
  | none => 99999
  | some .move => CAIRO_PATH_MOVE_TO
  | some .line => CAIRO_PATH_LINE_TO
  | some .curve => CAIRO_PATH_CURVE_TO
  | some .close => CAIRO_PATH_CLOSE_PATH

/-- A GDI path command: what one iteration of the GDI loop consumes.  A move
or a line is one point; a curve is three points, of which the loop reads the
type of the first only (`type2`, `type3` are the types stored for the other
two).  `closed` is the close-figure bit of the type the loop reads. -/
inductive GdiCmd where
  | move (p : ℤ × ℤ)
  | line (closed : Bool) (p : ℤ × ℤ)
  | curve (closed : Bool) (p1 p2 p3 : ℤ × ℤ) (type2 type3 : ℕ)
  deriving DecidableEq, Repr

/-- The kind of a GDI command. -/
def GdiCmd.kind : GdiCmd → Kind
  | .move _ => .move
  | .line _ _ => .line
  | .curve _ _ _ _ _ _ => .curve

/-- The close-figure bit of a GDI command. -/
def GdiCmd.closed : GdiCmd → Bool
  | .move _ => false
  | .line closed _ => closed
  | .curve closed _ _ _ _ _ => closed

/-- The point type without the close-figure bit. -/
def GdiCmd.base : GdiCmd → ℕ
  | .move _ => PT_MOVETO
  | .line _ _ => PT_LINETO
  | .curve _ _ _ _ _ _ => PT_BEZIERTO

/-- The point type the loop reads for a GDI command. -/
def GdiCmd.code (c : GdiCmd) : ℕ :=
  c.base + (if c.closed then PT_CLOSEFIGURE else 0)

/-- The entries of the `types` array that hold one GDI command. -/
def GdiCmd.typeEntries : GdiCmd → List ℕ
  | .move p => [(GdiCmd.move p).code]
  | .line closed p => [(GdiCmd.line closed p).code]
  | .curve closed p1 p2 p3 type2 type3 =>
    [(GdiCmd.curve closed p1 p2 p3 type2 type3).code, type2, type3]

/-- The entries of the `points` array that hold one GDI command. -/
def GdiCmd.pointEntries : GdiCmd → List (ℤ × ℤ)
  | .move p => [p]
  | .line _ p => [p]
  | .curve _ p1 p2 p3 _ _ => [p1, p2, p3]

/-- The tokens of a GDI command after its marker: 2 numbers for a move or a
line, 6 for a curve, then "c" when the close-figure bit is set. -/
def GdiCmd.payload (downscale xscale yscale : ℚ) (c : GdiCmd) : List Token :=
  (match c with
    | .move p => gdiXY downscale xscale yscale p
    | .line _ p => gdiXY downscale xscale yscale p
    | .curve _ p1 p2 p3 _ _ =>
      gdiXY downscale xscale yscale p1 ++ gdiXY downscale xscale yscale p2
        ++ gdiXY downscale xscale yscale p3)
    ++ (if c.closed then [Token.marker "c"] else [])

/-- The `types` array of a GDI path made of the given commands. -/
def gdiTypes : List GdiCmd → List ℕ
  | [] => []
  | c :: cs => c.typeEntries ++ gdiTypes cs

/-- The `points` array of a GDI path made of the given commands. -/
def gdiPoints : List GdiCmd → List (ℤ × ℤ)
  | [] => []
  | c :: cs => c.pointEntries ++ gdiPoints cs

/-- The tokens one iteration of the GDI loop pushes for a command when
`last_type` holds `last`. -/
def gdiEmit (downscale xscale yscale : ℚ) (last : ℕ) (c : GdiCmd) : List Token :=
  (if last ≠ c.base then [Token.marker c.kind.letter] else [])
    ++ c.payload downscale xscale yscale

/-- The value of `last_type` after an iteration of the GDI loop. -/
def gdiNext (last : ℕ) (c : GdiCmd) : ℕ :=
  if last ≠ c.base then c.code else last

/-- The tokens the GDI loop pushes for a list of commands, from the value
`last` of `last_type`. -/
def gdiTrace (downscale xscale yscale : ℚ) : ℕ → List GdiCmd → List Token
  | _, [] => []
  | last, c :: cs =>
    gdiEmit downscale xscale yscale last c
      ++ gdiTrace downscale xscale yscale (gdiNext last c) cs

/-- No command with the close-figure bit is directly followed by a command
of the same kind. -/
def ClosedThenOther (cmds : List GdiCmd) : Prop :=
  List.Chain' (fun a b => a.closed = true → a.kind ≠ b.kind) cmds

/-- What `last_type` can hold after a command: its base type, or its type
with the close-figure bit when the command carries it. -/
def gdiLastOk (last : ℕ) : Option GdiCmd → Prop
  | none => last = 0xff
  | some c => last = c.base ∨ (c.closed = true ∧ last = c.base + PT_CLOSEFIGURE)

/-- The tokens of a list of commands without any marker. -/
def payloads {α : Type} (payload : α → List Token) : List α → List Token
  | [] => []
  | c :: cs => payload c ++ payloads payload cs

/-- The number of coordinates a command of a kind carries: 2 for a move or a
line point, 6 for a curve, none for a close. -/
def Kind.coords : Kind → ℕ
  | .move => 2
  | .line => 2
  | .curve => 6
  | .close => 0

/-- Every curve entry that the GDI loop processes, starting at index `i` and
for `fuel` iterations, has two more entries after it: `i + 2 < points_n`. -/
def gdiCurvesComplete (types : List ℕ) (points_n : ℕ) : ℕ → ℕ → Prop
  | 0, _ => True
  | fuel + 1, i =>
    if i < points_n then
      match types[i]? with
      | some t =>
        if t = PT_BEZIERTO ∨ t = PT_BEZIERTO + PT_CLOSEFIGURE then
          i + 2 < points_n ∧ gdiCurvesComplete types points_n fuel (i + 3)
        else
          gdiCurvesComplete types points_n fuel (i + 1)
      | none => True
    else
      True

/-! ## `FontHandle::create` and `~FontHandle` (src/YutilsCpp/fonthandle.cpp 18-216) -/

/-- The backend objects `FontHandle::create` acquires. -/
inductive Resource where
  | surface
  | context
  | layout
  | font_desc
  | attr
  | metrics
  | dc
  | font
  deriving DecidableEq, Repr

/-- A backend call that creates an object (`acquire`, recorded when the call
succeeds) or gives one back (`release`: `cairo_surface_destroy`,
`cairo_destroy`, `g_object_unref`, `pango_font_description_free`,
`pango_attr_list_unref`, `pango_font_metrics_unref`, `DeleteDC`,
`DeleteObject`). -/
inductive Event where
  | acquire (r : Resource)
  | release (r : Resource)
  deriving DecidableEq, Repr

/-- What `FontHandle::create` leaves behind: whether the returned pointer is
non-null, the content of `errMsg`, and the backend calls made, in order. -/
structure CreateResult where
  handle : Bool
  errMsg : String
  events : List Event
  deriving DecidableEq, Repr

/-- Which calls of the cairo/pango branch succeed: `new (std::nothrow)`,
`cairo_image_surface_create`, `cairo_create`, `pango_cairo_create_layout`,
`pango_font_description_new`, `pango_attr_list_new`,
`pango_context_get_metrics`. -/
structure CairoBackend where
  alloc : Bool
  surface : Bool
  context : Bool
  layout : Bool
  font_desc : Bool
  attr : Bool
  metrics : Bool
  deriving DecidableEq, Repr

/-- Which calls of the GDI branch succeed, and the length of the converted
family name: `new (std::nothrow)`, `CreateCompatibleDC`, `SetMapMode`,
`SetBkMode`, `CreateFontW`. -/
structure GdiBackend where
  alloc : Bool
  familyLen : ℕ
  dc : Bool
  mapMode : Bool
  bkMode : Bool
  font : Bool
  deriving DecidableEq, Repr

/-- The backend calls of `FontHandle::~FontHandle` in the cairo/pango branch
(fonthandle.cpp 212-214), run by `delete ret`. -/
def dtorCairo : List Event :=
  [.release .layout, .release .context, .release .surface]

/-- The backend calls of `FontHandle::~FontHandle` in the GDI branch
(fonthandle.cpp 208-210), run by `delete ret`: `SelectObject` gives nothing
back, then `DeleteObject(font)`, `DeleteDC(dc)`. -/
def dtorGdi : List Event :=
  [.release .font, .release .dc]

/-- `FontHandle::create`, cairo/pango branch (fonthandle.cpp 30-45, 105-202). -/
def createCairo (b : CairoBackend) (size : ℤ) (errMsg : String) : CreateResult :=
  if size ≤ 0 then
    { handle := false, errMsg := "size cannot lower than 0", events := [] }
  else if ¬ b.alloc then
    { handle := false, errMsg := errMsg, events := [] }
  else if ¬ b.surface then
    { handle := false, errMsg := errMsg, events := dtorCairo }
  else if ¬ b.context then
    { handle := false, errMsg := errMsg,
      events := [.acquire .surface] ++ [.release .surface] ++ dtorCairo }
  else if ¬ b.layout then
    { handle := false, errMsg := errMsg,
      events := [.acquire .surface, .acquire .context]
        ++ [.release .context, .release .surface] ++ dtorCairo }
  else if ¬ b.font_desc then
    { handle := false, errMsg := errMsg,
      events := [.acquire .surface, .acquire .context, .acquire .layout]
        ++ [.release .layout, .release .context, .release .surface] ++ dtorCairo }
  else if ¬ b.attr then
    { handle := false, errMsg := errMsg,
      events := [.acquire .surface, .acquire .context, .acquire .layout, .acquire .font_desc]
        ++ [.release .font_desc, .release .layout, .release .context, .release .surface]
        ++ dtorCairo }
  else if ¬ b.metrics then
    { handle := false, errMsg := errMsg,
      events := [.acquire .surface, .acquire .context, .acquire .layout, .acquire .font_desc,
          .acquire .attr]
        ++ [.release .attr, .release .font_desc, .release .layout, .release .context,
          .release .surface]
        ++ dtorCairo }
  else
    { handle := true, errMsg := errMsg,
      events := [.acquire .surface, .acquire .context, .acquire .layout, .acquire .font_desc,
          .acquire .attr, .acquire .metrics]
        ++ [.release .metrics, .release .attr, .release .font_desc] }

/-- `FontHandle::create`, GDI branch (fonthandle.cpp 30-103, 202). -/
def createGdi (b : GdiBackend) (size : ℤ) (errMsg : String) : CreateResult :=
  if size ≤ 0 then
    { handle := false, errMsg := "size cannot lower than 0", events := [] }
  else if ¬ b.alloc then
    { handle := false, errMsg := errMsg, events := [] }
  else if b.familyLen > 31 then
    { handle := false, errMsg := "family name too long", events := dtorGdi }
  else if ¬ b.dc then
    { handle := false, errMsg := errMsg, events := dtorGdi }
  else if ¬ b.mapMode then
    { handle := false, errMsg := errMsg,
      events := [.acquire .dc] ++ [.release .dc] ++ dtorGdi }
  else if ¬ b.bkMode then
    { handle := false, errMsg := errMsg,
      events := [.acquire .dc] ++ [.release .dc] ++ dtorGdi }
  else if ¬ b.font then
    { handle := false, errMsg := errMsg,
      events := [.acquire .dc] ++ [.release .dc] ++ dtorGdi }
  else
    { handle := true, errMsg := errMsg, events := [.acquire .dc, .acquire .font] }

/-- How often a resource is released in a list of backend calls. -/
def releaseCount (r : Resource) (events : List Event) : ℕ :=
  events.count (.release r)

/-- How often a resource is acquired in a list of backend calls. -/
def acquireCount (r : Resource) (events : List Event) : ℕ :=
  events.count (.acquire r)

/-! ## `AssParser::upgradeDialogs` (declared in src/CoreLib/assparser.hpp) -/

/-- The members of `AssParser` that the upgrade reads and writes
(assparser.hpp 62-70); `Dialog` stands for `AssDialog` with its syllable,
word and character sub-spans. -/
structure ParserState (Dialog : Type) where
  dialogParsed : Bool
  dialogData : List Dialog
  sylReady : Bool
  wordReady : Bool
  charReady : Bool

/-- Modelled from the spec: `AssParser::upgradeDialogs`, whose body
(assparser.cpp) is not among the sources; only its declaration is.  The spec
says it "triggers DialogUpgrader processing" and is "guarded by a "already
upgraded" flag": when `dialogParsed` is set nothing is done; otherwise the
private `parseDialogs` (a parameter, it may fail) runs and the flag is set. -/
def upgradeDialogs {Dialog : Type}
    (parseDialogs : ParserState Dialog → Except Error (ParserState Dialog))
    (s : ParserState Dialog) : Except Error (ParserState Dialog) :=
  if s.dialogParsed then
    .ok s
  else
    match parseDialogs s with
    | .error e => .error e
    | .ok upgraded => .ok { upgraded with dialogParsed := true }

/-- Modelled from the spec: `AssParser::dialogIsUpgraded`, the getter of the
flag `dialogParsed`. -/
def dialogIsUpgraded {Dialog : Type} (s : ParserState Dialog) : Bool := s.dialogParsed

/-- Modelled from the spec: `AssParser::isSylAvailable`, the getter of
`sylReady`. -/
def isSylAvailable {Dialog : Type} (s : ParserState Dialog) : Bool := s.sylReady

/-- Modelled from the spec: `AssParser::isWordAvailable`, the getter of
`wordReady`. -/
def isWordAvailable {Dialog : Type} (s : ParserState Dialog) : Bool := s.wordReady

/-- Modelled from the spec: `AssParser::isCharAvailable`, the getter of
`charReady`. -/
def isCharAvailable {Dialog : Type} (s : ParserState Dialog) : Bool := s.charReady

/-! ## `FontHandle::text_to_shape`: character widths (src/YutilsCpp/fonthandle.cpp 326-367) -/

/-- Subtraction of two `size_t` values of `w` bits (operands below `2 ^ w`):
the result is taken modulo `2 ^ w`, as in `textLen - 1`. -/
def sizeSub (w a b : ℕ) : ℕ := (a + 2 ^ w - b) % 2 ^ w

/-- Increment of a `size_t` value of `w` bits (`++i`). -/
def sizeInc (w i : ℕ) : ℕ := (i + 1) % 2 ^ w

/-- The state of the character-width pass: the array `charWidths` (an entry is
`none` until it is written, `new INT[textLen]` leaves it uninitialised) and the
number of loop bodies that ran to their end. -/
structure WidthState where
  charWidths : List (Option ℤ)
  iterations : ℕ
  deriving DecidableEq, Repr

/-- The ways in which the character-width pass is left. -/
inductive WidthExit where
  | too_long
  | extent_failed
  | finished
  deriving DecidableEq, Repr

/-- The loop `for (size_t i = 0; i <= (textLen - 1); ++i)` of `text_to_shape`.
`extent i` is `size->cx` after `GetTextExtentPoint32W(dc, textDst.c_str() + i,
1, size)`, or `none` when that call returns 0 (the function then returns with a
message); `space` is `int space(hspace * upscale)`.  A write to
`charWidths[i]` with `i` outside the array is reported as `bad_access`.  The
loop runs on fuel: `none` means that the fuel ran out. -/
def widthLoop (w : ℕ) (extent : ℕ → Option ℤ) (space : ℤ) (textLen : ℕ) :
    ℕ → ℕ → WidthState → Option (Except Error (WidthExit × WidthState))
  | 0, _, _ => none
  | fuel + 1, i, st =>
    if i ≤ sizeSub w textLen 1 then
      match extent i with
      | none => some (.ok (.extent_failed, st))
      | some cx =>
        if i < st.charWidths.length then
          widthLoop w extent space textLen fuel (sizeInc w i)
            ⟨st.charWidths.set i (some (cx + space)), st.iterations + 1⟩
        else some (.error .bad_access)
    else some (.ok (.finished, st))

/-- Lines 327-367 of `text_to_shape` for a handle with `hspace != 0`, after the
two allocations succeeded: the length guard, `new INT[textLen]`, and the
loop. -/
def charWidthsPass (w : ℕ) (extent : ℕ → Option ℤ) (space : ℤ) (textLen fuel : ℕ) :
    Option (Except Error (WidthExit × WidthState)) :=
  if textLen > 8192 then some (.ok (.too_long, ⟨[], 0⟩))
  else widthLoop w extent space textLen fuel 0 ⟨List.replicate textLen none, 0⟩

/-! ## The binary64 reading: IEEE 754 arithmetic and the routines of `CoreMath` -/

/-- A `double` as an IEEE 754 binary64 value.  Every finite binary64 number is
a whole multiple of the smallest subnormal `2^-1074`: `fin n` is the number
`n * 2^-1074`.  The sign of a zero is not recorded (`-0.0` and `0.0` compare
equal in every test of the code).  Only rounding to nearest, ties to even, is
modelled.  A literal or argument enters as `lit`, `ofInt` or a `fin n` with a
binary64 number `n * 2^-1074`; every operation returns such a value. -/
inductive F64 where
  | fin (n : ℤ)
  | inf (negative : Bool)
  | nan
  deriving DecidableEq, Repr

namespace F64

/-- Binary search for `floor (log2 n)`, `n > 0`: `lo` grows by the steps
`step, step / 2, ..., 1`. -/
def log2Go (n : ℕ) : ℕ → ℕ → ℕ → ℕ
  | 0, lo, _ => lo
  | fuel + 1, lo, step =>
    if 2 ^ (lo + step) ≤ n then log2Go n fuel (lo + step) (step / 2)
    else log2Go n fuel lo (step / 2)

/-- The number of binary digits of `n` (for `n < 2^8192`). -/
def bitlen (n : ℕ) : ℕ := if n = 0 then 0 else log2Go n 13 0 4096 + 1

/-- The number `2^1074` of grid steps in 1. -/
def scale : ℕ := 2 ^ 1074

/-- The first grid value that is too large for a finite binary64, `2^1024`. -/
def huge : ℕ := 2 ^ 2098

/-- Rounding to nearest, ties to even, of the non-negative number `a / b` of
grid steps (`b > 0`): the quotient is cut to 53 binary digits (or to the grid,
for subnormal results).  The result is a number of grid steps. -/
def roundMag (a b : ℕ) : ℕ :=
  let k0 := bitlen a - (bitlen b + 53)
  let k := if 2 ^ 53 ≤ a / (b * 2 ^ k0) then k0 + 1 else k0
  let d := b * 2 ^ k
  let q := a / d
  let r := a % d
  let q1 := if d < 2 * r ∨ (2 * r = d ∧ q % 2 = 1) then q + 1 else q
  q1 * 2 ^ k

/-- The binary64 with the sign `negative` and the magnitude of `m` grid steps;
a magnitude of `2^1024` or more is an infinity. -/
def pack (negative : Bool) (m : ℕ) : F64 :=
  if huge ≤ m then inf negative else fin (if negative then -(m : ℤ) else (m : ℤ))

/-- The binary64 nearest to the number `a / b` of grid steps taken with the
sign `negative`. -/
def roundQ (negative : Bool) (a b : ℕ) : F64 := pack negative (roundMag a b)

/-- Rounding of a whole number of grid steps. -/
def roundZ (n : ℤ) : F64 := roundQ (decide (n < 0)) n.natAbs 1

/-- The binary64 nearest to the decimal literal `num / den`. -/
def lit (num : ℤ) (den : ℕ) : F64 := roundQ (decide (num < 0)) (num.natAbs * scale) den

/-- The binary64 nearest to a whole number. -/
def ofInt (z : ℤ) : F64 := lit z 1

/-- Unary minus. -/
def neg : F64 → F64
  | fin n => fin (-n)
  | inf s => inf (!s)
  | nan => nan

/-- Addition. -/
def add : F64 → F64 → F64
  | fin a, fin b => roundZ (a + b)
  | fin _, inf s => inf s
  | inf s, fin _ => inf s
  | inf s, inf t => if s = t then inf s else nan
  | _, _ => nan

/-- Subtraction. -/
def sub (a b : F64) : F64 := add a (neg b)

/-- Multiplication. -/
def mul : F64 → F64 → F64
  | fin a, fin b => roundQ (decide (a < 0) != decide (b < 0)) (a.natAbs * b.natAbs) scale
  | fin a, inf s => if a = 0 then nan else inf (decide (a < 0) != s)
  | inf s, fin b => if b = 0 then nan else inf (s != decide (b < 0))
  | inf s, inf t => inf (s != t)
  | _, _ => nan

/-- Division; a finite non-zero number divided by zero is an infinity (the
zero is taken as `+0.0`). -/
def div : F64 → F64 → F64
  | fin a, fin b =>
    if b = 0 then (if a = 0 then nan else inf (decide (a < 0)))
    else roundQ (decide (a < 0) != decide (b < 0)) (a.natAbs * scale) b.natAbs
  | fin _, inf _ => fin 0
  | inf s, fin b => inf (s != decide (b < 0))
  | _, _ => nan

/-- Bit by bit search for the largest `r` with `r * r ≤ n`, below `2^i`
above the digits already fixed. -/
def isqrtGo (n : ℕ) : ℕ → ℕ → ℕ
  | 0, r => r
  | i + 1, r => if (r + 2 ^ i) * (r + 2 ^ i) ≤ n then isqrtGo n i (r + 2 ^ i) else isqrtGo n i r

/-- The correctly rounded square root. -/
def sqrt : F64 → F64
  | fin a =>
    if a < 0 then nan
    else
      let n := a.natAbs * scale
      let k := (bitlen n + 1) / 2 - 53
      let q := isqrtGo (n / 4 ^ k) 64 0
      let q1 := if (2 * q + 1) * (2 * q + 1) * 4 ^ k < 4 * n
                  ∨ ((2 * q + 1) * (2 * q + 1) * 4 ^ k = 4 * n ∧ q % 2 = 1) then q + 1 else q
      fin ((q1 * 2 ^ k : ℕ) : ℤ)
  | inf s => if s then nan else inf false
  | nan => nan

/-- The function `floor`. -/
def floor : F64 → F64
  | fin n => fin (n / (scale : ℤ) * (scale : ℤ))
  | x => x

/-- The comparison `<`. -/
def lt : F64 → F64 → Bool
  | fin a, fin b => decide (a < b)
  | fin _, inf s => !s
  | inf s, fin _ => s
  | inf s, inf t => s && !t
  | _, _ => false

/-- The comparison `==`. -/
def eq : F64 → F64 → Bool
  | fin a, fin b => decide (a = b)
  | inf s, inf t => s == t
  | _, _ => false

/-- The comparison `<=`. -/
def le (a b : F64) : Bool := lt a b || eq a b

/-- The exact value of a finite binary64. -/
def toRat : F64 → ℚ
  | fin n => (n : ℚ) / 2 ^ 1074
  | _ => 0

/-- The constant `0.0`. -/
def zero : F64 := fin 0

/-- Whether the value is finite (neither an infinity nor a NaN). -/
def isFin : F64 → Bool
  | fin _ => true
  | _ => false

/-- `std::min(a, b)`: `b` when `b < a`, else `a`. -/
def fmin (a b : F64) : F64 := if lt b a then b else a

/-- The libm call `pow(10, e)` for a whole exponent `e >= 0`, taken as the
correctly rounded power (it is exact up to `10^22`); `10^309` and above are
infinite. -/
def pow10 : F64 → F64
  | fin n =>
    let e := n / (scale : ℤ)
    if 308 < e then inf false else roundQ false (10 ^ e.toNat * scale) 1
  | inf s => if s then fin 0 else inf false
  | nan => nan

/-- The libm call `acos(x)`: a NaN outside `[-1, 1]` (domain error), the
value `acos x` of the parameter inside. -/
def acosC (acos : F64 → F64) (x : F64) : F64 :=
  if le (ofInt (-1)) x && le x (ofInt 1) then acos x else nan

/-- The loop of `CoreMath::fac` in binary64: `for (double i = 2; i <= n; ++i)
k *= i;`.  It runs on fuel, `none` meaning that the fuel ran out. -/
def facLoop (n : F64) : ℕ → F64 → F64 → Option F64
  | 0, _, _ => none
  | fuel + 1, i, k => if le i n then facLoop n fuel (add i (ofInt 1)) (mul k i) else some k

/-- `CoreMath::fac` (math.cpp 398-407) in binary64. -/
def fac (n : F64) (fuel : ℕ) : Option F64 := facLoop n fuel (ofInt 2) (ofInt 1)

/-- Bounds-checked element access, `pts.at(i)`. -/
def vecAt (pts : List (F64 × F64 × F64)) (i : ℕ) : Except Error (F64 × F64 × F64) :=
  match pts[i]? with
  | some p => .ok p
  | none => .error .out_of_range

/-- `CoreMath::bezier2` (math.cpp 305-318) in binary64. -/
def bezier2 (pct : F64) (pts : List (F64 × F64 × F64)) (is3D : Bool) :
    Except Error (F64 × F64 × F64) := do
  let pct_inv := sub (ofInt 1) pct
  let p0 ← vecAt pts 0
  let p1 ← vecAt pts 1
  let pts1 := add (mul pct_inv p0.1) (mul pct p1.1)
  let pts2 := add (mul pct_inv p0.2.1) (mul pct p1.2.1)
  let pts3 := if is3D then add (mul pct_inv p0.2.2) (mul pct p1.2.2) else zero
  pure (pts1, pts2, pts3)

/-- `CoreMath::bezier3` (math.cpp 320-341) in binary64. -/
def bezier3 (pct : F64) (pts : List (F64 × F64 × F64)) (is3D : Bool) :
    Except Error (F64 × F64 × F64) := do
  let pct_inv := sub (ofInt 1) pct
  let p0 ← vecAt pts 0
  let p1 ← vecAt pts 1
  let p2 ← vecAt pts 2
  let pts1 := add (add (mul (mul pct_inv pct_inv) p0.1)
    (mul (mul (mul (ofInt 2) pct_inv) pct) p1.1)) (mul (mul pct pct) p2.1)
  let pts2 := add (add (mul (mul pct_inv pct_inv) p0.2.1)
    (mul (mul (mul (ofInt 2) pct_inv) pct) p1.2.1)) (mul (mul pct pct) p2.2.1)
  let pts3 :=
    if is3D then
      add (add (mul (mul pct_inv pct_inv) p0.2.2)
        (mul (mul (mul (ofInt 2) pct_inv) pct) p1.2.2)) (mul (mul pct pct) p2.2.2)
    else zero
  pure (pts1, pts2, pts3)

/-- `CoreMath::bezier4` (math.cpp 343-367) in binary64. -/
def bezier4 (pct : F64) (pts : List (F64 × F64 × F64)) (is3D : Bool) :
    Except Error (F64 × F64 × F64) := do
  let pct_inv := sub (ofInt 1) pct
  let p0 ← vecAt pts 0
  let p1 ← vecAt pts 1
  let p2 ← vecAt pts 2
  let p3 ← vecAt pts 3
  let pts1 := add (add (add (mul (mul (mul pct_inv pct_inv) pct_inv) p0.1)
    (mul (mul (mul (mul (ofInt 3) pct_inv) pct_inv) pct) p1.1))
    (mul (mul (mul (mul (ofInt 3) pct_inv) pct) pct) p2.1)) (mul (mul (mul pct pct) pct) p3.1)
  let pts2 := add (add (add (mul (mul (mul pct_inv pct_inv) pct_inv) p0.2.1)
    (mul (mul (mul (mul (ofInt 3) pct_inv) pct_inv) pct) p1.2.1))
    (mul (mul (mul (mul (ofInt 3) pct_inv) pct) pct) p2.2.1)) (mul (mul (mul pct pct) pct) p3.2.1)
  let pts3 :=
    if is3D then
      add (add (add (mul (mul (mul pct_inv pct_inv) pct_inv) p0.2.2)
        (mul (mul (mul (mul (ofInt 3) pct_inv) pct_inv) pct) p1.2.2))
        (mul (mul (mul (mul (ofInt 3) pct_inv) pct) pct) p2.2.2))
        (mul (mul (mul pct pct) pct) p3.2.2)
    else zero
  pure (pts1, pts2, pts3)

/-- `CoreMath::distance` (math.cpp 145-148) in binary64. -/
def distance (x y z : F64) : F64 := sqrt (add (add (mul x x) (mul y y)) (mul z z))

/-- `CoreMath::stretch` (math.cpp 226-237) in binary64. -/
def stretch (x y z length : F64) : F64 × F64 × F64 :=
  let cur_length := distance x y z
  if eq cur_length zero then (zero, zero, zero)
  else
    let factor := div length cur_length
    (mul x factor, mul y factor, mul z factor)

/-- The argument handed to `acos` by `CoreMath::degree` (math.cpp 132-133). -/
def degreeArg (x1 y1 z1 x2 y2 z2 : F64) : F64 :=
  div (add (add (mul x1 x2) (mul y1 y2)) (mul z1 z2))
    (mul (distance x1 y1 z1) (distance x2 y2 z2))

/-- `CoreMath::degree` (math.cpp 128-143) in binary64; `acos` gives the values
of the libm arc cosine on `[-1, 1]` and `deg` is the helper of `Common`. -/
def degree (acos deg : F64 → F64) (x1 y1 z1 x2 y2 z2 : F64) : F64 :=
  let degree := deg (acosC acos (degreeArg x1 y1 z1 x2 y2 z2))
  if lt (sub (mul x1 y2) (mul y1 x2)) zero then mul degree (ofInt (-1)) else degree

/-- The value `s` (resp. `t`) of `line_intersect` in strict mode (math.cpp
184-185) in binary64. -/
def segParam (ix iy x1 y1 x10 y10 : F64) : F64 :=
  if !(eq x10 zero) then div (sub ix x1) x10 else div (sub iy y1) y10

/-- `CoreMath::line_intersect` (math.cpp 150-194) in binary64. -/
def line_intersect (x0 y0 x1 y1 x2 y2 x3 y3 : F64) (strict : Bool) :
    Except Error (F64 × F64) :=
  let x10 := sub x0 x1
  let y10 := sub y0 y1
  let x32 := sub x2 x3
  let y32 := sub y2 y3
  if (eq x10 zero && eq y10 zero) || (eq x32 zero && eq y32 zero) then
    .error (.invalid_argument "lines mustn't have zero length")
  else
    let det := sub (mul x10 y32) (mul y10 x32)
    if eq det zero then .ok (zero, zero)
    else
      let pre := sub (mul x0 y1) (mul y0 x1)
      let post := sub (mul x2 y3) (mul y2 x3)
      let ix := div (sub (mul pre x32) (mul x10 post)) det
      let iy := div (sub (mul pre y32) (mul y10 post)) det
      if strict then
        let s := segParam ix iy x1 y1 x10 y10
        let t := segParam ix iy x3 y3 x32 y32
        if lt s zero || lt (ofInt 1) s || lt t zero || lt (ofInt 1) t then
          .ok (inf false, inf false)
        else .ok (ix, iy)
      else .ok (ix, iy)

/-- `CoreMath::round` (math.cpp 214-224) in binary64. -/
def round (x dec : F64) : F64 :=
  if !(eq dec zero) && le (ofInt 1) dec then
    let dec := pow10 (floor dec)
    div (floor (add (mul x dec) (lit 1 2))) dec
  else floor (add x (lit 1 2))

/-- The body of the `while` loop of `arc_curve` (math.cpp 53-93) in binary64:
the four control points pushed to `curves` and the start vector of the next
curve.  The libm call `pow(tmpDouble, 2)` is taken as the rounded product
`tmpDouble * tmpDouble`; `distance(rx03, ry03)` has the default `z = 0`. -/
def arcSegment (rotate2d : F64 → F64 → F64 → F64 × F64)
    (cx cy angle cw kappa rx0 ry0 angle_sum : F64) : List (F64 × F64) × F64 × F64 :=
  let cur_angle_pct := div (fmin (sub angle angle_sum) (ofInt 90)) (ofInt 90)
  let tmpPair := rotate2d rx0 ry0 (mul (mul cw (ofInt 90)) cur_angle_pct)
  let rx3 := tmpPair.1
  let ry3 := tmpPair.2
  let rx03 := sub tmpPair.1 rx0
  let ry03 := sub tmpPair.2 ry0
  let tmpDouble := distance rx03 ry03 zero
  let tmpDouble := div (mul tmpDouble tmpDouble) (ofInt 2)
  let tmpDouble := sqrt tmpDouble
  let tmpTuple := stretch rx03 ry03 zero (mul tmpDouble kappa)
  let rx03 := tmpTuple.1
  let ry03 := tmpTuple.2.1
  let tmpPair := rotate2d rx03 ry03 (mul (mul cw (ofInt (-45))) cur_angle_pct)
  let rx1 := add rx0 tmpPair.1
  let ry1 := add ry0 tmpPair.2
  let tmpPair := rotate2d (mul rx03 (ofInt (-1))) (mul ry03 (ofInt (-1)))
    (mul (mul cw (ofInt 45)) cur_angle_pct)
  let rx2 := add rx3 tmpPair.1
  let ry2 := add ry3 tmpPair.2
  ([(add cx rx0, add cy ry0), (add cx rx1, add cy ry1), (add cx rx2, add cy ry2),
    (add cx rx3, add cy ry3)], rx3, ry3)

/-- The loop `while (angle_sum < angle) { ...; angle_sum += 90.f; }` of
`arc_curve` (math.cpp 51-95) in binary64, on fuel: `none` means that the fuel
ran out. -/
def arcLoop (rotate2d : F64 → F64 → F64 → F64 × F64) (cx cy angle cw kappa : F64) :
    ℕ → F64 → F64 → F64 → List (F64 × F64) → Option (List (F64 × F64))
  | 0, _, _, _, _ => none
  | fuel + 1, rx0, ry0, angle_sum, curves =>
    if lt angle_sum angle then
      arcLoop rotate2d cx cy angle cw kappa fuel
        (arcSegment rotate2d cx cy angle cw kappa rx0 ry0 angle_sum).2.1
        (arcSegment rotate2d cx cy angle cw kappa rx0 ry0 angle_sum).2.2
        (add angle_sum (ofInt 90))
        (curves ++ (arcSegment rotate2d cx cy angle cw kappa rx0 ry0 angle_sum).1)
    else some curves

/-- `CoreMath::arc_curve` (math.cpp 19-98) in binary64.  `rotate2d` is the
helper of `Common`; `kappa` is the value of `4.f * (sqrt(2.f) - 1.f) / 3.f`,
which the code computes in single precision. -/
def arc_curve (rotate2d : F64 → F64 → F64 → F64 × F64) (kappa : F64)
    (x y cx cy angle : F64) (fuel : ℕ) : Option (Except Error (List (F64 × F64))) :=
  if lt angle (ofInt (-360)) || lt (ofInt 360) angle then
    some (.error (.invalid_argument
      "start & center point and valid angle (-360<=x<=360) expected"))
  else if eq angle zero then
    some (.error (.invalid_argument "angle CANNOT be zero"))
  else
    let rx0 := sub x cx
    let ry0 := sub y cy
    let cw := if lt zero angle then ofInt 1 else ofInt (-1)
    (arcLoop rotate2d cx cy angle cw kappa fuel rx0 ry0 zero []).map Except.ok

end F64

/-! ## Auxiliary facts -/

set_option exponentiation.threshold 5000
set_option maxRecDepth 4000

theorem ok_of_toOption {α : Type} {r : Except Error α} {v : α} (h : r.toOption = some v) :
    r = .ok v := by
  cases r with
  | error e => cases h
  | ok a =>
    have h1 : some a = some v := h
    injection h1 with h2
    rw [h2]

theorem some_ok_of_bind {α : Type} {r : Option (Except Error α)} {v : α}
    (h : r.bind Except.toOption = some v) : r = some (.ok v) := by
  cases r with
  | none => cases h
  | some e =>
    have h1 : e.toOption = some v := h
    rw [ok_of_toOption h1]


theorem facLoop_natCast (n : ℕ) : ∀ (d i : ℕ), i + d = n →
    facLoop (n : ℚ) ((i : ℚ) + 1) (i.factorial : ℚ) = (n.factorial : ℚ) := by
  intro d
  induction d with
  | zero =>
    intro i h
    have hi : i = n := by omega
    subst hi
    rw [facLoop]
    have : ¬ ((i : ℚ) + 1 ≤ (i : ℚ)) := by linarith
    simp [this]
  | succ d ih =>
    intro i h
    rw [facLoop]
    have hle : (i : ℚ) + 1 ≤ (n : ℚ) := by
      have : i + 1 ≤ n := by omega
      exact_mod_cast this
    rw [if_pos hle]
    have := ih (i + 1) (by omega)
    rw [Nat.factorial_succ] at this
    push_cast at this
    rw [mul_comm] at this
    exact this

theorem fac_natCast (n : ℕ) : fac (n : ℚ) = (n.factorial : ℚ) := by
  unfold fac
  rcases Nat.eq_zero_or_pos n with h | h
  · subst h
    rw [facLoop]
    norm_num
  · have := facLoop_natCast n (n - 1) 1 (by omega)
    norm_num at this
    exact this

theorem fac_natCast_ne_zero (n : ℕ) : fac (n : ℚ) ≠ 0 := by
  rw [fac_natCast]
  exact_mod_cast Nat.factorial_ne_zero n

theorem bernWeight_ok (pct : ℚ) (ni i : ℕ) :
    bernWeight pct ni i = .ok (bernValue pct ni i) := by
  have hne : fac (i : ℚ) * fac ((ni - i : ℕ) : ℚ) ≠ 0 :=
    mul_ne_zero (fac_natCast_ne_zero i) (fac_natCast_ne_zero (ni - i))
  simp only [bernWeight, fdiv, if_neg hne, bind, Except.bind, pure, Except.pure, bernValue]
  simp only [fac_natCast]

theorem vecAt_ok (pts : List Point3) (i : ℕ) (h : i < pts.length) :
    vecAt pts i = .ok (pts.getD i (0, 0, 0)) := by
  simp [vecAt, List.getD, List.getElem?_eq_getElem h]

theorem bezierNStep_ok (pct : ℚ) (pts : List Point3) (is3D : Bool) (ni : ℕ)
    (ret : Point3) (i : ℕ) (h : i < pts.length) :
    bezierNStep pct pts is3D ni ret i = .ok (bezierNPure pct pts is3D ni ret i) := by
  simp only [bezierNStep, vecAt_ok pts i h, bernWeight_ok, bind, Except.bind, pure, Except.pure,
    bezierNPure]

theorem bezierN_foldlM_ok (pct : ℚ) (pts : List Point3) (is3D : Bool) (ni : ℕ) :
    ∀ (l : List ℕ) (ret : Point3), (∀ i ∈ l, i < pts.length) →
      l.foldlM (bezierNStep pct pts is3D ni) ret
        = .ok (l.foldl (bezierNPure pct pts is3D ni) ret) := by
  intro l
  induction l with
  | nil => intro ret _; rfl
  | cons a l ih =>
    intro ret h
    rw [List.foldlM_cons, bezierNStep_ok pct pts is3D ni ret a (h a (by simp))]
    exact ih _ (fun i hi => h i (by simp [hi]))

theorem bezierN_foldl_range (pct : ℚ) (pts : List Point3) (is3D : Bool) (ni : ℕ)
    (ret : Point3) : ∀ m : ℕ,
    (List.range m).foldl (bezierNPure pct pts is3D ni) ret =
      (ret.1 + ∑ i in Finset.range m, (pts.getD i (0, 0, 0)).1 * bernValue pct ni i,
       ret.2.1 + ∑ i in Finset.range m, (pts.getD i (0, 0, 0)).2.1 * bernValue pct ni i,
       if is3D then
         ret.2.2 + ∑ i in Finset.range m, (pts.getD i (0, 0, 0)).2.2 * bernValue pct ni i
       else ret.2.2) := by
  intro m
  induction m with
  | zero => cases is3D <;> simp
  | succ m ih =>
    rw [List.range_succ, List.foldl_append, ih]
    cases is3D <;> simp [bezierNPure, Finset.sum_range_succ, add_assoc]

/-- What `bezierN` returns on a non-empty list of control points. -/
theorem bezierN_eq (pct : ℚ) (pts : List Point3) (is3D : Bool) (h : pts ≠ []) :
    bezierN pct pts is3D =
      .ok (addedBernsteinSum (fun p => p.1) pct pts,
           addedBernsteinSum (fun p => p.2.1) pct pts,
           if is3D then addedBernsteinSum (fun p => p.2.2) pct pts else 0) := by
  have hlen : 0 < pts.length := List.length_pos.mpr h
  unfold bezierN
  simp only []
  rw [bezierN_foldlM_ok pct pts is3D _ _ _ (by
    intro i hi
    have := List.mem_range.mp hi
    omega)]
  rw [bezierN_foldl_range]
  have hsum : ∀ coord : Point3 → ℚ,
      ∑ i in Finset.range (pts.length - 1 + 1),
          coord (pts.getD i (0, 0, 0)) * bernValue pct (pts.length - 1) i
        = addedBernsteinSum coord pct pts := by
    intro coord
    unfold addedBernsteinSum
    refine Finset.sum_congr rfl (fun i hi => ?_)
    have hi2 : i ≤ pts.length - 1 := by
      have := Finset.mem_range.mp hi
      omega
    rw [bernValue, Nat.cast_choose ℚ hi2]
  rw [hsum (fun p => p.1), hsum (fun p => p.2.1), hsum (fun p => p.2.2)]
  cases is3D <;> simp

theorem bezier_of_five (pct : ℚ) (pts : List Point3) (is3D : Bool)
    (h0 : 0 ≤ pct) (h1 : pct ≤ 1) (hlen : 5 ≤ pts.length) :
    bezier pct pts is3D = bezierN pct pts is3D := by
  have hn0 : ¬ (pct < 0 ∨ pct > 1) := by
    intro h; rcases h with h | h <;> linarith
  unfold bezier
  rw [if_neg hn0]
  simp only []
  rw [if_neg (by omega)]
  split <;> first | omega | rfl

theorem addedBernsteinSum_flatten_fst (pct : ℚ) (pts : List Point3) :
    addedBernsteinSum (fun p => p.1) pct (pts.map flatten)
      = addedBernsteinSum (fun p => p.1) pct pts := by
  unfold addedBernsteinSum
  simp only [List.length_map]
  refine Finset.sum_congr rfl (fun i _ => ?_)
  have : (pts.map flatten).getD i (0, 0, 0) = flatten (pts.getD i (0, 0, 0)) := by
    rw [show ((0 : ℚ), (0 : ℚ), (0 : ℚ)) = flatten (0, 0, 0) from rfl, List.getD_map]
    rfl
  rw [this]
  rfl

theorem addedBernsteinSum_flatten_snd (pct : ℚ) (pts : List Point3) :
    addedBernsteinSum (fun p => p.2.1) pct (pts.map flatten)
      = addedBernsteinSum (fun p => p.2.1) pct pts := by
  unfold addedBernsteinSum
  simp only [List.length_map]
  refine Finset.sum_congr rfl (fun i _ => ?_)
  have : (pts.map flatten).getD i (0, 0, 0) = flatten (pts.getD i (0, 0, 0)) := by
    rw [show ((0 : ℚ), (0 : ℚ), (0 : ℚ)) = flatten (0, 0, 0) from rfl, List.getD_map]
    rfl
  rw [this]
  rfl

/-- With `is3D = false` the result of `bezier` is that of the flattened control
points, and its third component is 0. -/
theorem bezier_flat (pct : ℚ) (pts : List Point3) (h0 : 0 ≤ pct) (h1 : pct ≤ 1)
    (hlen : 2 ≤ pts.length) :
    bezier pct pts false = bezier pct (pts.map flatten) false
      ∧ ∃ x y, bezier pct pts false = .ok (x, y, 0) := by
  have hn0 : ¬ (pct < 0 ∨ pct > 1) := by
    intro h; rcases h with h | h <;> linarith
  by_cases h5 : 5 ≤ pts.length
  · have h5m : 5 ≤ (pts.map flatten).length := by simpa using h5
    have e1 := (bezier_of_five pct pts false h0 h1 h5).trans
      (bezierN_eq pct pts false (by intro h; simp [h] at h5))
    have e2 := (bezier_of_five pct (pts.map flatten) false h0 h1 h5m).trans
      (bezierN_eq pct (pts.map flatten) false (by intro h; simp [h] at h5m))
    rw [addedBernsteinSum_flatten_fst, addedBernsteinSum_flatten_snd] at e2
    simp only [Bool.false_eq_true, if_false] at e1 e2
    exact ⟨e1.trans e2.symm, _, _, e1⟩
  · match pts, hlen, h5 with
    | [a, b], _, _ =>
      refine ⟨?_, ?_⟩
      · simp [bezier, hn0, bezier2, vecAt, bind, Except.bind, pure, Except.pure, flatten]
      · simp [bezier, hn0, bezier2, vecAt, bind, Except.bind, pure, Except.pure]
    | [a, b, c], _, _ =>
      refine ⟨?_, ?_⟩
      · simp [bezier, hn0, bezier3, vecAt, bind, Except.bind, pure, Except.pure, flatten]
      · simp [bezier, hn0, bezier3, vecAt, bind, Except.bind, pure, Except.pure]
    | [a, b, c, d], _, _ =>
      refine ⟨?_, ?_⟩
      · simp [bezier, hn0, bezier4, vecAt, bind, Except.bind, pure, Except.pure, flatten]
      · simp [bezier, hn0, bezier4, vecAt, bind, Except.bind, pure, Except.pure]
    | a :: b :: c :: d :: e :: l, _, h5 => simp at h5

theorem stretch_ok {K : Type} [LinearOrderedField K] (sqrt : K → K) (x y z length : K) :
    ∃ p, stretch sqrt x y z length = .ok p := by
  unfold stretch
  simp only []
  by_cases h : distance sqrt x y z = 0
  · exact ⟨_, by rw [if_pos h]⟩
  · refine ⟨(x * (length / distance sqrt x y z), y * (length / distance sqrt x y z),
      z * (length / distance sqrt x y z)), ?_⟩
    rw [if_neg h]
    simp only [fdiv, if_neg h, bind, Except.bind, pure, Except.pure]

theorem arcSegment_ok (sqrt : ℚ → ℚ) (rotate2d : ℚ → ℚ → ℚ → Point2)
    (cx cy angle cw kappa rx0 ry0 angle_sum : ℚ) :
    ∃ seg rx3 ry3, arcSegment sqrt rotate2d cx cy angle cw kappa rx0 ry0 angle_sum
        = .ok (seg, rx3, ry3) ∧ seg.length = 4 := by
  unfold arcSegment
  simp only []
  obtain ⟨p, hp⟩ := stretch_ok sqrt
    ((rotate2d rx0 ry0 (cw * 90 * (min (angle - angle_sum) 90 / 90))).1 - rx0)
    ((rotate2d rx0 ry0 (cw * 90 * (min (angle - angle_sum) 90 / 90))).2 - ry0) 0
    (sqrt (distance sqrt
      ((rotate2d rx0 ry0 (cw * 90 * (min (angle - angle_sum) 90 / 90))).1 - rx0)
      ((rotate2d rx0 ry0 (cw * 90 * (min (angle - angle_sum) 90 / 90))).2 - ry0) 0 ^ 2 / 2)
      * kappa)
  rw [hp]
  exact ⟨_, _, _, rfl, rfl⟩

/-- The loop of `arc_curve` always ends, and appends four pairs for every
started step of 90 degrees that is left. -/
theorem arcLoop_length (sqrt : ℚ → ℚ) (rotate2d : ℚ → ℚ → ℚ → Point2)
    (cx cy angle cw kappa : ℚ) :
    ∀ (n : ℕ) (rx0 ry0 angle_sum : ℚ) (curves : List Point2),
      (⌈(angle - angle_sum) / 90⌉).toNat = n →
      ∃ out, arcLoop sqrt rotate2d cx cy angle cw kappa rx0 ry0 angle_sum curves = .ok out
        ∧ out.length = curves.length + 4 * n := by
  intro n
  induction n with
  | zero =>
    intro rx0 ry0 angle_sum curves hn
    have hle : ⌈(angle - angle_sum) / 90⌉ ≤ 0 := by omega
    have hq : (angle - angle_sum) / 90 ≤ 0 := by
      have := Int.ceil_le.mp hle
      simpa using this
    have hnot : ¬ angle_sum < angle := by
      intro h
      have : 0 < (angle - angle_sum) / 90 := by apply div_pos <;> linarith
      linarith
    rw [arcLoop, if_neg hnot]
    exact ⟨curves, rfl, by simp⟩
  | succ n ih =>
    intro rx0 ry0 angle_sum curves hn
    have hpos : 0 < ⌈(angle - angle_sum) / 90⌉ := by omega
    have hq : 0 < (angle - angle_sum) / 90 := Int.ceil_pos.mp hpos
    have hlt : angle_sum < angle := by
      by_contra h
      have h2 : angle - angle_sum ≤ 0 := by linarith
      have : (angle - angle_sum) / 90 ≤ 0 := div_nonpos_of_nonpos_of_nonneg h2 (by norm_num)
      linarith
    have hnext : (⌈(angle - (angle_sum + 90)) / 90⌉).toNat = n := by
      rw [show (angle - (angle_sum + 90)) / 90 = (angle - angle_sum) / 90 - 1 by ring,
        Int.ceil_sub_one]
      omega
    obtain ⟨seg, rx3, ry3, hseg, hlen⟩ :=
      arcSegment_ok sqrt rotate2d cx cy angle cw kappa rx0 ry0 angle_sum
    obtain ⟨out, hout, houtlen⟩ := ih rx3 ry3 (angle_sum + 90) (curves ++ seg) hnext
    rw [arcLoop, if_pos hlt, hseg]
    refine ⟨out, hout, ?_⟩
    rw [houtlen, List.length_append, hlen]
    omega

/-- For a negative angle the loop condition `angle_sum < angle` fails at once. -/
theorem arc_curve_of_neg (sqrt : ℚ → ℚ) (rotate2d : ℚ → ℚ → ℚ → Point2)
    (x y cx cy angle : ℚ) (hneg : angle < 0) (hge : -360 ≤ angle) :
    arc_curve sqrt rotate2d x y cx cy angle = .ok [] := by
  have hg1 : ¬ (angle < -360 ∨ angle > 360) := by
    intro h; rcases h with h | h <;> linarith
  have hg2 : ¬ angle = 0 := ne_of_lt hneg
  rw [arc_curve, if_neg hg1, if_neg hg2]
  simp only []
  rw [arcLoop, if_neg (by linarith)]

/-- For a valid positive angle `arc_curve` returns four pairs per started step
of 90 degrees. -/
theorem arc_curve_of_pos (sqrt : ℚ → ℚ) (rotate2d : ℚ → ℚ → ℚ → Point2)
    (x y cx cy angle : ℚ) (hpos : 0 < angle) (hle : angle ≤ 360) :
    ∃ curves, arc_curve sqrt rotate2d x y cx cy angle = .ok curves
      ∧ curves.length = 4 * (⌈angle / 90⌉).toNat := by
  have hg1 : ¬ (angle < -360 ∨ angle > 360) := by
    intro h; rcases h with h | h <;> linarith
  have hg2 : ¬ angle = 0 := ne_of_gt hpos
  obtain ⟨out, hout, hlen⟩ := arcLoop_length sqrt rotate2d cx cy angle
    (if angle > 0 then 1 else -1) (4 * (sqrt 2 - 1) / 3) _ (x - cx) (y - cy) 0 [] rfl
  rw [sub_zero] at hlen
  simp only [List.length_nil, zero_add] at hlen
  refine ⟨out, ?_, hlen⟩
  rw [arc_curve, if_neg hg1, if_neg hg2]
  exact hout

/-- On non-parallel input `line_intersect` without `strict` returns the point
given by Cramer's rule. -/
theorem line_intersect_loose (x0 y0 x1 y1 x2 y2 x3 y3 : ℚ)
    (hdet : (x0 - x1) * (y2 - y3) - (y0 - y1) * (x2 - x3) ≠ 0) :
    line_intersect x0 y0 x1 y1 x2 y2 x3 y3 false =
      .ok ((crossX x0 y0 x1 y1 x2 y2 x3 y3 : Double), (crossY x0 y0 x1 y1 x2 y2 x3 y3 : Double)) := by
  have hz : ¬ ((x0 - x1 = 0 ∧ y0 - y1 = 0) ∨ (x2 - x3 = 0 ∧ y2 - y3 = 0)) := by
    rintro (⟨h1, h2⟩ | ⟨h1, h2⟩) <;> exact hdet (by rw [h1, h2]; ring)
  unfold line_intersect
  simp only [if_neg hz, if_neg hdet, fdiv, bind, Except.bind, pure, Except.pure]
  rfl

theorem cross_collinear_first (x0 y0 x1 y1 x2 y2 x3 y3 : ℚ)
    (hdet : (x0 - x1) * (y2 - y3) - (y0 - y1) * (x2 - x3) ≠ 0) :
    collinear (crossX x0 y0 x1 y1 x2 y2 x3 y3) (crossY x0 y0 x1 y1 x2 y2 x3 y3) x0 y0 x1 y1 := by
  unfold collinear crossX crossY
  field_simp
  ring

theorem cross_collinear_second (x0 y0 x1 y1 x2 y2 x3 y3 : ℚ)
    (hdet : (x0 - x1) * (y2 - y3) - (y0 - y1) * (x2 - x3) ≠ 0) :
    collinear (crossX x0 y0 x1 y1 x2 y2 x3 y3) (crossY x0 y0 x1 y1 x2 y2 x3 y3) x2 y2 x3 y3 := by
  unfold collinear crossX crossY
  field_simp
  ring

/-- In strict mode, on non-parallel input, `line_intersect` performs all its
divisions with a non-zero divisor and selects its result by the two
parameters. -/
theorem line_intersect_strict_eq (x0 y0 x1 y1 x2 y2 x3 y3 : ℚ)
    (hdet : (x0 - x1) * (y2 - y3) - (y0 - y1) * (x2 - x3) ≠ 0) :
    line_intersect x0 y0 x1 y1 x2 y2 x3 y3 true =
      if segParam (crossX x0 y0 x1 y1 x2 y2 x3 y3) (crossY x0 y0 x1 y1 x2 y2 x3 y3)
            x1 y1 (x0 - x1) (y0 - y1) < 0
          ∨ segParam (crossX x0 y0 x1 y1 x2 y2 x3 y3) (crossY x0 y0 x1 y1 x2 y2 x3 y3)
            x1 y1 (x0 - x1) (y0 - y1) > 1
          ∨ segParam (crossX x0 y0 x1 y1 x2 y2 x3 y3) (crossY x0 y0 x1 y1 x2 y2 x3 y3)
            x3 y3 (x2 - x3) (y2 - y3) < 0
          ∨ segParam (crossX x0 y0 x1 y1 x2 y2 x3 y3) (crossY x0 y0 x1 y1 x2 y2 x3 y3)
            x3 y3 (x2 - x3) (y2 - y3) > 1
      then .ok ((⊤ : Double), (⊤ : Double))
      else .ok ((crossX x0 y0 x1 y1 x2 y2 x3 y3 : Double),
                (crossY x0 y0 x1 y1 x2 y2 x3 y3 : Double)) := by
  have hz : ¬ ((x0 - x1 = 0 ∧ y0 - y1 = 0) ∨ (x2 - x3 = 0 ∧ y2 - y3 = 0)) := by
    rintro (⟨h1, h2⟩ | ⟨h1, h2⟩) <;> exact hdet (by rw [h1, h2]; ring)
  have hy10 : x0 - x1 = 0 → y0 - y1 ≠ 0 := fun h1 h2 => hz (Or.inl ⟨h1, h2⟩)
  have hy32 : x2 - x3 = 0 → y2 - y3 ≠ 0 := fun h1 h2 => hz (Or.inr ⟨h1, h2⟩)
  unfold line_intersect
  simp only [if_neg hz, if_neg hdet, fdiv, bind, Except.bind, pure, Except.pure, if_true]
  by_cases ha : x0 - x1 = 0 <;> by_cases hb : x2 - x3 = 0
  · simp only [segParam, crossX, crossY, ha, hb, ne_eq, not_true_eq_false, if_false,
      if_neg (hy10 ha), if_neg (hy32 hb)]
  · simp only [segParam, crossX, crossY, ha, hb, ne_eq, not_true_eq_false, if_false,
      not_false_eq_true, if_true, if_neg (hy10 ha)]
  · simp only [segParam, crossX, crossY, ha, hb, ne_eq, not_true_eq_false, if_false,
      not_false_eq_true, if_true, if_neg (hy32 hb)]
  · simp only [segParam, crossX, crossY, ha, hb, ne_eq, not_true_eq_false, if_false,
      not_false_eq_true, if_true]

/-- The parameter computed in strict mode is the position of the point on the
line: `p = (x1, y1) + s * ((x0, y0) - (x1, y1))` for a point `p` of the line. -/
theorem segParam_spec (ix iy x0 y0 x1 y1 : ℚ) (hlen : ¬ (x0 - x1 = 0 ∧ y0 - y1 = 0))
    (hcol : collinear ix iy x0 y0 x1 y1) :
    ix = x1 + segParam ix iy x1 y1 (x0 - x1) (y0 - y1) * (x0 - x1)
      ∧ iy = y1 + segParam ix iy x1 y1 (x0 - x1) (y0 - y1) * (y0 - y1) := by
  unfold collinear at hcol
  unfold segParam
  by_cases ha : x0 - x1 = 0
  · have hb : y0 - y1 ≠ 0 := fun h => hlen ⟨ha, h⟩
    rw [if_neg (by simpa using ha)]
    have hx : x0 = x1 := by linarith
    subst hx
    constructor
    · have h2 : (ix - x0) * (y1 - y0) = 0 := by linear_combination hcol
      have h3 : y1 - y0 ≠ 0 := fun h => hb (by linarith)
      have h4 : ix - x0 = 0 := by
        rcases mul_eq_zero.mp h2 with h | h
        · exact h
        · exact absurd h h3
      linarith
    · field_simp
  · rw [if_pos ha]
    constructor
    · field_simp
    · field_simp
      linear_combination hcol

/-- Whenever both segments have non-zero length, `line_intersect` returns. -/
theorem line_intersect_ok (x0 y0 x1 y1 x2 y2 x3 y3 : ℚ) (strict : Bool)
    (hlen : ¬ ((x0 = x1 ∧ y0 = y1) ∨ (x2 = x3 ∧ y2 = y3))) :
    ∃ p, line_intersect x0 y0 x1 y1 x2 y2 x3 y3 strict = .ok p := by
  by_cases hdet : (x0 - x1) * (y2 - y3) - (y0 - y1) * (x2 - x3) = 0
  · have hz : ¬ ((x0 - x1 = 0 ∧ y0 - y1 = 0) ∨ (x2 - x3 = 0 ∧ y2 - y3 = 0)) := by
      simpa [sub_eq_zero] using hlen
    refine ⟨(((0 : ℚ) : Double), ((0 : ℚ) : Double)), ?_⟩
    unfold line_intersect
    simp only [if_neg hz, if_pos hdet]
  · cases strict
    · exact ⟨_, line_intersect_loose x0 y0 x1 y1 x2 y2 x3 y3 hdet⟩
    · rw [line_intersect_strict_eq x0 y0 x1 y1 x2 y2 x3 y3 hdet]
      split
      · exact ⟨_, rfl⟩
      · exact ⟨_, rfl⟩

/-- The squared Euclidean norm of a non-zero real vector is positive. -/
theorem normSq_pos (x y z : ℝ) (h : x ≠ 0 ∨ y ≠ 0 ∨ z ≠ 0) :
    0 < x * x + y * y + z * z := by
  rcases h with h | h | h
  · have := mul_self_pos.mpr h
    nlinarith [mul_self_nonneg y, mul_self_nonneg z]
  · have := mul_self_pos.mpr h
    nlinarith [mul_self_nonneg x, mul_self_nonneg z]
  · have := mul_self_pos.mpr h
    nlinarith [mul_self_nonneg x, mul_self_nonneg y]

/-- Over the reals, `distance` of a non-zero vector is positive. -/
theorem distance_pos (x y z : ℝ) (h : x ≠ 0 ∨ y ≠ 0 ∨ z ≠ 0) :
    0 < distance Real.sqrt x y z :=
  Real.sqrt_pos.mpr (normSq_pos x y z h)

/-- Cauchy-Schwarz in three dimensions: for non-zero real vectors the quotient
of the dot product by the product of the lengths lies in `[-1, 1]`. -/
theorem cos_quotient_bounds (x1 y1 z1 x2 y2 z2 : ℝ)
    (h1 : x1 ≠ 0 ∨ y1 ≠ 0 ∨ z1 ≠ 0) (h2 : x2 ≠ 0 ∨ y2 ≠ 0 ∨ z2 ≠ 0) :
    -1 ≤ (x1 * x2 + y1 * y2 + z1 * z2)
          / (distance Real.sqrt x1 y1 z1 * distance Real.sqrt x2 y2 z2)
      ∧ (x1 * x2 + y1 * y2 + z1 * z2)
          / (distance Real.sqrt x1 y1 z1 * distance Real.sqrt x2 y2 z2) ≤ 1 := by
  have hp1 := distance_pos x1 y1 z1 h1
  have hp2 := distance_pos x2 y2 z2 h2
  have hprod : 0 < distance Real.sqrt x1 y1 z1 * distance Real.sqrt x2 y2 z2 :=
    mul_pos hp1 hp2
  have hcs : (x1 * x2 + y1 * y2 + z1 * z2) ^ 2
      ≤ (x1 * x1 + y1 * y1 + z1 * z1) * (x2 * x2 + y2 * y2 + z2 * z2) := by
    nlinarith [sq_nonneg (x1 * y2 - y1 * x2), sq_nonneg (y1 * z2 - z1 * y2),
      sq_nonneg (z1 * x2 - x1 * z2)]
  have habs : |x1 * x2 + y1 * y2 + z1 * z2|
      ≤ distance Real.sqrt x1 y1 z1 * distance Real.sqrt x2 y2 z2 := by
    have := Real.abs_le_sqrt hcs
    rwa [Real.sqrt_mul (le_of_lt (normSq_pos x1 y1 z1 h1))] at this
  obtain ⟨hlo, hhi⟩ := abs_le.mp habs
  constructor
  · rw [le_div_iff₀ hprod]
    linarith
  · rw [div_le_one hprod]
    exact hhi

theorem arrAt_append {α : Type} (pre l : List α) (k : ℕ) :
    arrAt (pre ++ l) (pre.length + k) = arrAt l k := by
  unfold arrAt
  rw [List.getElem?_append_right (by omega)]
  simp

theorem arrAt_append_zero {α : Type} (pre l : List α) :
    arrAt (pre ++ l) pre.length = arrAt l 0 := by
  have := arrAt_append pre l 0
  simpa using this

theorem arrAt_cons_zero {α : Type} (a : α) (l : List α) : arrAt (a :: l) 0 = .ok a := by
  simp [arrAt]

theorem arrAt_cons_succ {α : Type} (a : α) (l : List α) (k : ℕ) :
    arrAt (a :: l) (k + 1) = arrAt l k := by
  simp [arrAt]

theorem gdiLoop_congr (ds xs ys : ℚ) (points : List (ℤ × ℤ)) (types : List ℕ) (n : ℕ)
    {i i2 last last2 : ℕ} {shape shape2 : List Token}
    (h1 : i = i2) (h2 : last = last2) (h3 : shape = shape2) :
    gdiLoop ds xs ys points types n i last shape
      = gdiLoop ds xs ys points types n i2 last2 shape2 := by
  subst h1 h2 h3
  rfl

/-- One iteration of the GDI loop on the arrays of a command. -/
theorem gdiLoop_step (ds xs ys : ℚ) (c : GdiCmd) (preP restP : List (ℤ × ℤ))
    (preT restT : List ℕ) (hpre : preP.length = preT.length) (n : ℕ)
    (hn : preT.length + c.typeEntries.length ≤ n) (last : ℕ) (shape : List Token) :
    gdiLoop ds xs ys (preP ++ (c.pointEntries ++ restP)) (preT ++ (c.typeEntries ++ restT)) n
        preT.length last shape
      = gdiLoop ds xs ys (preP ++ (c.pointEntries ++ restP)) (preT ++ (c.typeEntries ++ restT)) n
          (preT.length + c.typeEntries.length) (gdiNext last c)
          (shape ++ gdiEmit ds xs ys last c) := by
  have hT0 := arrAt_append_zero preT (c.typeEntries ++ restT)
  have hP0 := arrAt_append_zero preP (c.pointEntries ++ restP)
  have hP1 := arrAt_append preP (c.pointEntries ++ restP) 1
  have hP2 := arrAt_append preP (c.pointEntries ++ restP) 2
  rw [hpre] at hP0 hP1 hP2
  have hi : preT.length < n := by
    cases c <;> simp [GdiCmd.typeEntries] at hn <;> omega
  conv_lhs => rw [gdiLoop]
  rw [dif_pos hi]
  cases c with
  | move p =>
    simp only [GdiCmd.typeEntries, GdiCmd.pointEntries, List.cons_append, List.nil_append,
      arrAt_cons_zero] at hT0 hP0
    simp only [GdiCmd.typeEntries, GdiCmd.pointEntries, List.cons_append,
      List.nil_append, hT0, hP0]
    have hcode : (GdiCmd.move p).code = 6 := rfl
    rw [if_pos (by rw [hcode]; rfl)]
    apply gdiLoop_congr
    · simp
    · simp [gdiNext, GdiCmd.base, hcode]
    · simp [gdiEmit, GdiCmd.base, hcode, GdiCmd.payload, GdiCmd.kind, Kind.letter,
        GdiCmd.closed]
  | line closed p =>
    simp only [GdiCmd.typeEntries, GdiCmd.pointEntries, List.cons_append, List.nil_append,
      arrAt_cons_zero] at hT0 hP0
    simp only [GdiCmd.typeEntries, GdiCmd.pointEntries, List.cons_append,
      List.nil_append, hT0, hP0]
    cases closed
    · have hcode : (GdiCmd.line false p).code = 2 := rfl
      rw [hcode]
      rw [if_neg (show ¬ ((2 : ℕ) = PT_MOVETO) by decide),
        if_pos (show (2 : ℕ) = PT_LINETO
          ∨ (2 : ℕ) = PT_LINETO + PT_CLOSEFIGURE by decide)]
      apply gdiLoop_congr
      · simp
      · simp [gdiNext, GdiCmd.base, hcode]
      · simp [gdiEmit, GdiCmd.base, GdiCmd.code, GdiCmd.payload, GdiCmd.kind, Kind.letter,
          GdiCmd.closed, PT_LINETO]
    · have hcode : (GdiCmd.line true p).code = 3 := rfl
      rw [hcode]
      rw [if_neg (show ¬ ((3 : ℕ) = PT_MOVETO) by decide),
        if_pos (show (3 : ℕ) = PT_LINETO
          ∨ (3 : ℕ) = PT_LINETO + PT_CLOSEFIGURE by decide)]
      apply gdiLoop_congr
      · simp
      · simp [gdiNext, GdiCmd.base, hcode]
      · simp [gdiEmit, GdiCmd.base, GdiCmd.code, GdiCmd.payload, GdiCmd.kind, Kind.letter,
          GdiCmd.closed, PT_LINETO, PT_CLOSEFIGURE]
  | curve closed p1 p2 p3 t2 t3 =>
    simp only [GdiCmd.typeEntries, GdiCmd.pointEntries, List.cons_append, List.nil_append,
      arrAt_cons_zero, arrAt_cons_succ] at hT0 hP0 hP1 hP2
    simp only [GdiCmd.typeEntries, GdiCmd.pointEntries, List.cons_append,
      List.nil_append, hT0, hP0, hP1, hP2]
    cases closed
    · have hcode : (GdiCmd.curve false p1 p2 p3 t2 t3).code = 4 := rfl
      rw [hcode]
      rw [if_neg (show ¬ ((4 : ℕ) = PT_MOVETO) by decide),
        if_neg (show ¬ ((4 : ℕ) = PT_LINETO
          ∨ (4 : ℕ) = PT_LINETO + PT_CLOSEFIGURE) by decide),
        if_pos (show (4 : ℕ) = PT_BEZIERTO
          ∨ (4 : ℕ) = PT_BEZIERTO + PT_CLOSEFIGURE by decide)]
      apply gdiLoop_congr
      · simp
      · simp [gdiNext, GdiCmd.base, hcode]
      · simp [gdiEmit, GdiCmd.base, GdiCmd.code, GdiCmd.payload, GdiCmd.kind, Kind.letter,
          GdiCmd.closed, PT_BEZIERTO]
    · have hcode : (GdiCmd.curve true p1 p2 p3 t2 t3).code = 5 := rfl
      rw [hcode]
      rw [if_neg (show ¬ ((5 : ℕ) = PT_MOVETO) by decide),
        if_neg (show ¬ ((5 : ℕ) = PT_LINETO
          ∨ (5 : ℕ) = PT_LINETO + PT_CLOSEFIGURE) by decide),
        if_pos (show (5 : ℕ) = PT_BEZIERTO
          ∨ (5 : ℕ) = PT_BEZIERTO + PT_CLOSEFIGURE by decide)]
      apply gdiLoop_congr
      · simp
      · simp [gdiNext, GdiCmd.base, hcode]
      · simp [gdiEmit, GdiCmd.base, GdiCmd.code, GdiCmd.payload, GdiCmd.kind, Kind.letter,
          GdiCmd.closed, PT_BEZIERTO, PT_CLOSEFIGURE]

theorem GdiCmd.entries_length (c : GdiCmd) :
    c.pointEntries.length = c.typeEntries.length := by
  cases c <;> rfl

/-- The GDI loop on the arrays of a list of commands pushes `gdiTrace`. -/
theorem gdiLoop_trace (ds xs ys : ℚ) :
    ∀ (cmds : List GdiCmd) (preP : List (ℤ × ℤ)) (preT : List ℕ) (last : ℕ)
      (shape : List Token), preP.length = preT.length →
      gdiLoop ds xs ys (preP ++ gdiPoints cmds) (preT ++ gdiTypes cmds)
          (preT.length + (gdiTypes cmds).length) preT.length last shape
        = .ok (shape ++ gdiTrace ds xs ys last cmds) := by
  intro cmds
  induction cmds with
  | nil =>
    intro preP preT last shape _
    rw [gdiLoop, dif_neg (by simp [gdiTypes])]
    simp [gdiTrace]
  | cons c cs ih =>
    intro preP preT last shape hpre
    have hstep := gdiLoop_step ds xs ys c preP (gdiPoints cs) preT (gdiTypes cs) hpre
      (preT.length + (c.typeEntries ++ gdiTypes cs).length)
      (by simp) last shape
    have hlen : (preP ++ c.pointEntries).length = (preT ++ c.typeEntries).length := by
      simp [hpre, c.entries_length]
    have hih := ih (preP ++ c.pointEntries) (preT ++ c.typeEntries) (gdiNext last c)
      (shape ++ gdiEmit ds xs ys last c) hlen
    simp only [gdiPoints, gdiTypes, gdiTrace]
    rw [hstep]
    simp only [List.append_assoc, List.length_append] at hih
    simp only [List.length_append]
    rw [← Nat.add_assoc]
    exact hih

theorem GdiCmd.base_eq_iff (d c : GdiCmd) : d.base = c.base ↔ d.kind = c.kind := by
  cases d <;> cases c <;> simp [GdiCmd.base, GdiCmd.kind, PT_MOVETO, PT_LINETO, PT_BEZIERTO]

theorem GdiCmd.base_even (c : GdiCmd) : c.base % 2 = 0 := by
  cases c <;> simp [GdiCmd.base, PT_MOVETO, PT_LINETO, PT_BEZIERTO]

theorem GdiCmd.base_lt (c : GdiCmd) : c.base < 255 := by
  cases c <;> simp [GdiCmd.base, PT_MOVETO, PT_LINETO, PT_BEZIERTO]

/-- In the GDI loop a command gets its marker exactly when its kind differs
from the kind of the command before it, provided that command does not both
carry the close-figure bit and have the same kind. -/
theorem gdi_marker_iff (last : ℕ) (prev : Option GdiCmd) (c : GdiCmd)
    (hok : gdiLastOk last prev)
    (hR : ∀ d, prev = some d → d.closed = true → d.kind ≠ c.kind) :
    last ≠ c.base ↔ ¬ (prev.map GdiCmd.kind = some c.kind) := by
  cases prev with
  | none =>
    have hok2 : last = 255 := hok
    have := c.base_lt
    constructor
    · intro _ hcon
      simp at hcon
    · intro _
      omega
  | some d =>
    simp only [Option.map_some', Option.some.injEq]
    rw [← GdiCmd.base_eq_iff]
    rcases hok with h | ⟨hc, h⟩
    · rw [h]
    · have hne : ¬ d.base = c.base :=
        fun hb => hR d rfl hc ((GdiCmd.base_eq_iff d c).mp hb)
      have h1 := d.base_even
      have h2 := c.base_even
      simp only [PT_CLOSEFIGURE] at h
      constructor
      · intro _
        exact hne
      · intro _
        omega

theorem gdiLastOk_next (last : ℕ) (c : GdiCmd) : gdiLastOk (gdiNext last c) (some c) := by
  unfold gdiNext gdiLastOk
  by_cases h : last = c.base
  · simp [h]
  · simp only [ne_eq, h, not_false_eq_true, if_true, GdiCmd.code]
    cases hc : c.closed
    · left; simp
    · right; simp

/-- Under `ClosedThenOther` the tokens of the GDI loop follow the marker rule. -/
theorem gdiTrace_marked (ds xs ys : ℚ) :
    ∀ (cmds : List GdiCmd) (prev : Option GdiCmd) (last : ℕ), gdiLastOk last prev →
      List.Chain' (fun a b : GdiCmd => a.closed = true → a.kind ≠ b.kind)
        (prev.toList ++ cmds) →
      gdiTrace ds xs ys last cmds
        = markedTokens GdiCmd.kind (GdiCmd.payload ds xs ys) (prev.map GdiCmd.kind) cmds := by
  intro cmds
  induction cmds with
  | nil => intro prev last _ _; rfl
  | cons c cs ih =>
    intro prev last hok hchain
    have hR : ∀ d, prev = some d → d.closed = true → d.kind ≠ c.kind := by
      intro d hd
      subst hd
      simp only [Option.toList, List.singleton_append, List.chain'_cons] at hchain
      exact hchain.1
    have hrest : List.Chain' (fun a b : GdiCmd => a.closed = true → a.kind ≠ b.kind)
        ((some c).toList ++ cs) := by
      cases prev with
      | none => simpa [Option.toList] using hchain
      | some d =>
        simp only [Option.toList, List.singleton_append, List.chain'_cons] at hchain
        simpa [Option.toList] using hchain.2
    have hiff := gdi_marker_iff last prev c hok hR
    have hih := ih (some c) (gdiNext last c) (gdiLastOk_next last c) hrest
    simp only [gdiTrace, markedTokens, gdiEmit, hih, Option.map_some']
    by_cases hl : last = c.base
    · have : prev.map GdiCmd.kind = some c.kind := by
        by_contra hcon
        exact (hiff.mpr hcon) hl
      simp [hl, this]
    · have : ¬ (prev.map GdiCmd.kind = some c.kind) := hiff.mp hl
      simp [hl, this]

theorem readHeader_append (pre l : List PathData) (k : ℕ) :
    readHeader (pre ++ l) ((pre.length : ℤ) + (k : ℤ)) = readHeader l (k : ℤ) := by
  have h1 : ¬ ((pre.length : ℤ) + (k : ℤ) < 0) := by omega
  have h2 : ¬ ((k : ℤ) < 0) := by omega
  have h3 : ((pre.length : ℤ) + (k : ℤ)).toNat = pre.length + k := by omega
  unfold readHeader
  rw [if_neg h1, if_neg h2, h3, Int.toNat_natCast,
    List.getElem?_append_right (by omega)]
  simp

theorem readXY_append (pre l : List PathData) (k : ℕ) :
    readXY (pre ++ l) ((pre.length : ℤ) + (k : ℤ)) = readXY l (k : ℤ) := by
  have h1 : ¬ ((pre.length : ℤ) + (k : ℤ) < 0) := by omega
  have h2 : ¬ ((k : ℤ) < 0) := by omega
  have h3 : ((pre.length : ℤ) + (k : ℤ)).toNat = pre.length + k := by omega
  unfold readXY
  rw [if_neg h1, if_neg h2, h3, Int.toNat_natCast,
    List.getElem?_append_right (by omega)]
  simp

theorem cairoLast_eq_iff (prev : Option Kind) (c : CairoCmd) :
    c.code = cairoLast prev ↔ prev = some c.kind := by
  cases c <;> rcases prev with _ | k <;> try cases k
  all_goals simp [cairoLast, CairoCmd.code, CairoCmd.kind, CAIRO_PATH_MOVE_TO,
    CAIRO_PATH_LINE_TO, CAIRO_PATH_CURVE_TO, CAIRO_PATH_CLOSE_PATH]

theorem cairoLoop_congr (data : List PathData) (n : ℤ) (fuel : ℕ)
    {i i2 last last2 : ℤ} {shape shape2 : List Token}
    (h1 : i = i2) (h2 : last = last2) (h3 : shape = shape2) :
    cairoLoop data n fuel i last shape = cairoLoop data n fuel i2 last2 shape2 := by
  subst h1 h2 h3
  rfl

theorem cairo_mark_eq (prev : Option Kind) (c : CairoCmd) (code : ℤ) (letter : String)
    (hcode : c.code = code) (hletter : c.kind.letter = letter) :
    (if code ≠ cairoLast prev then [Token.marker letter] else [])
      = (if prev = some c.kind then [] else [Token.marker c.kind.letter]) := by
  have hiff := cairoLast_eq_iff prev c
  rw [hcode] at hiff
  rw [hletter]
  by_cases hp : prev = some c.kind
  · rw [if_pos hp, if_neg (not_not.mpr (hiff.mpr hp))]
  · rw [if_neg hp, if_pos (fun h => hp (hiff.mp h))]

/-- One iteration of the cairo loop on the elements of a command. -/
theorem cairoLoop_step (c : CairoCmd) (pre rest : List PathData) (n : ℤ)
    (hn : ((pre.length + c.elems.length : ℕ) : ℤ) ≤ n) (fuel : ℕ) (prev : Option Kind)
    (shape : List Token) :
    cairoLoop (pre ++ (c.elems ++ rest)) n (fuel + 1) (pre.length : ℤ) (cairoLast prev) shape
      = cairoLoop (pre ++ (c.elems ++ rest)) n fuel ((pre.length + c.elems.length : ℕ) : ℤ)
          (cairoLast (some c.kind))
          (shape ++ ((if prev = some c.kind then [] else [Token.marker c.kind.letter])
            ++ c.payload)) := by
  have hH := readHeader_append pre (c.elems ++ rest) 0
  have hX1 := readXY_append pre (c.elems ++ rest) 1
  have hX2 := readXY_append pre (c.elems ++ rest) 2
  have hX3 := readXY_append pre (c.elems ++ rest) 3
  simp only [Nat.cast_zero, add_zero, Nat.cast_one, Nat.cast_ofNat] at hH hX1 hX2 hX3
  have hi : (pre.length : ℤ) < n := by
    have : 0 < c.elems.length := by cases c <;> simp [CairoCmd.elems]
    push_cast at hn
    omega
  have hiff := cairoLast_eq_iff prev c
  rw [cairoLoop, if_pos hi, hH]
  cases c with
  | move_to x y =>
    have hh : readHeader ((CairoCmd.move_to x y).elems ++ rest) 0
        = .ok (CAIRO_PATH_MOVE_TO, 2) := by
      simp [readHeader, CairoCmd.elems]
    have hx : readXY ((CairoCmd.move_to x y).elems ++ rest) 1
        = .ok (CairoCmd.move_to x y).payload := by
      simp [readXY, CairoCmd.elems, CairoCmd.payload]
    rw [hx] at hX1
    simp only [hh, cairoSwitch, if_true, hX1, bind, Except.bind, pure, Except.pure]
    apply cairoLoop_congr
    · simp [CairoCmd.elems]
    · rfl
    · rw [cairo_mark_eq prev (CairoCmd.move_to x y) CAIRO_PATH_MOVE_TO "m" rfl rfl]
  | line_to x y =>
    have hh : readHeader ((CairoCmd.line_to x y).elems ++ rest) 0
        = .ok (CAIRO_PATH_LINE_TO, 2) := by
      simp [readHeader, CairoCmd.elems]
    have hx : readXY ((CairoCmd.line_to x y).elems ++ rest) 1
        = .ok (CairoCmd.line_to x y).payload := by
      simp [readXY, CairoCmd.elems, CairoCmd.payload]
    rw [hx] at hX1
    simp only [hh, cairoSwitch, if_neg (show ¬ (CAIRO_PATH_LINE_TO = CAIRO_PATH_MOVE_TO) by decide),
      if_true, hX1, bind, Except.bind, pure, Except.pure]
    apply cairoLoop_congr
    · simp [CairoCmd.elems]
    · rfl
    · rw [cairo_mark_eq prev (CairoCmd.line_to x y) CAIRO_PATH_LINE_TO "l" rfl rfl]
  | curve_to x1 y1 x2 y2 x3 y3 =>
    have hh : readHeader ((CairoCmd.curve_to x1 y1 x2 y2 x3 y3).elems ++ rest) 0
        = .ok (CAIRO_PATH_CURVE_TO, 4) := by
      simp [readHeader, CairoCmd.elems]
    have hx1 : readXY ((CairoCmd.curve_to x1 y1 x2 y2 x3 y3).elems ++ rest) 1
        = .ok [.number (round x1 FP_PRECISION), .number (round y1 FP_PRECISION)] := by
      simp [readXY, CairoCmd.elems]
    have hx2 : readXY ((CairoCmd.curve_to x1 y1 x2 y2 x3 y3).elems ++ rest) 2
        = .ok [.number (round x2 FP_PRECISION), .number (round y2 FP_PRECISION)] := by
      simp [readXY, CairoCmd.elems]
    have hx3 : readXY ((CairoCmd.curve_to x1 y1 x2 y2 x3 y3).elems ++ rest) 3
        = .ok [.number (round x3 FP_PRECISION), .number (round y3 FP_PRECISION)] := by
      simp [readXY, CairoCmd.elems]
    rw [hx1] at hX1
    rw [hx2] at hX2
    rw [hx3] at hX3
    simp only [hh, cairoSwitch,
      if_neg (show ¬ (CAIRO_PATH_CURVE_TO = CAIRO_PATH_MOVE_TO) by decide),
      if_neg (show ¬ (CAIRO_PATH_CURVE_TO = CAIRO_PATH_LINE_TO) by decide),
      if_true, hX1, hX2, hX3, bind, Except.bind, pure, Except.pure]
    apply cairoLoop_congr
    · simp [CairoCmd.elems]
    · rfl
    · rw [cairo_mark_eq prev (CairoCmd.curve_to x1 y1 x2 y2 x3 y3) CAIRO_PATH_CURVE_TO "b" rfl rfl]
      simp [CairoCmd.payload]
  | close_path =>
    have hh : readHeader (CairoCmd.close_path.elems ++ rest) 0
        = .ok (CAIRO_PATH_CLOSE_PATH, 1) := by
      simp [readHeader, CairoCmd.elems]
    simp only [hh, cairoSwitch,
      if_neg (show ¬ (CAIRO_PATH_CLOSE_PATH = CAIRO_PATH_MOVE_TO) by decide),
      if_neg (show ¬ (CAIRO_PATH_CLOSE_PATH = CAIRO_PATH_LINE_TO) by decide),
      if_neg (show ¬ (CAIRO_PATH_CLOSE_PATH = CAIRO_PATH_CURVE_TO) by decide),
      if_true, pure, Except.pure]
    apply cairoLoop_congr
    · simp [CairoCmd.elems]
    · rfl
    · rw [cairo_mark_eq prev CairoCmd.close_path CAIRO_PATH_CLOSE_PATH "c" rfl rfl]
      simp [CairoCmd.payload]

/-- The cairo loop on the data of a list of commands follows the marker rule,
with one unit of fuel per command. -/
theorem cairoLoop_marked :
    ∀ (cmds : List CairoCmd) (pre : List PathData) (prev : Option Kind)
      (shape : List Token) (fuel : ℕ), cmds.length ≤ fuel →
      cairoLoop (pre ++ cairoData cmds) ((pre ++ cairoData cmds).length : ℤ) fuel
          (pre.length : ℤ) (cairoLast prev) shape
        = some (.ok (shape ++ markedTokens CairoCmd.kind CairoCmd.payload prev cmds)) := by
  intro cmds
  induction cmds with
  | nil =>
    intro pre prev shape fuel _
    cases fuel <;> simp [cairoLoop, cairoData, markedTokens]
  | cons c cs ih =>
    intro pre prev shape fuel hfuel
    obtain ⟨f, rfl⟩ : ∃ f, fuel = f + 1 := by
      cases fuel with
      | zero => simp at hfuel
      | succ f => exact ⟨f, rfl⟩
    have hf : cs.length ≤ f := by
      simp only [List.length_cons] at hfuel
      omega
    have hstep := cairoLoop_step c pre (cairoData cs)
      ((pre ++ (c.elems ++ cairoData cs)).length : ℤ)
      (by simp only [List.length_append]; push_cast; omega) f prev shape
    have hih := ih (pre ++ c.elems) (some c.kind)
      (shape ++ ((if prev = some c.kind then [] else [Token.marker c.kind.letter])
        ++ c.payload)) f hf
    simp only [List.append_assoc, List.length_append] at hih hstep
    simp only [cairoData, markedTokens, List.length_append]
    rw [hstep]
    simp only [List.append_assoc] at hih ⊢
    exact hih

/-- Within the marker rule, a run of commands of one kind that follows a
command of that kind gets no marker. -/
theorem markedTokens_same {α : Type} (kind : α → Kind) (payload : α → List Token) (k : Kind) :
    ∀ run : List α, (∀ c ∈ run, kind c = k) →
      markedTokens kind payload (some k) run = payloads payload run := by
  intro run
  induction run with
  | nil => intro _; rfl
  | cons c cs ih =>
    intro h
    have hc : kind c = k := h c (by simp)
    have hcs : ∀ d ∈ cs, kind d = k := fun d hd => h d (by simp [hd])
    simp only [markedTokens, payloads, hc, if_true, List.nil_append, ih hcs]

/-- Within the marker rule, a run of commands of one kind that follows a
command of another kind (or none) is one marker and then the tokens of all
its commands. -/
theorem markedTokens_run {α : Type} (kind : α → Kind) (payload : α → List Token) (k : Kind)
    (prev : Option Kind) (run : List α) (hprev : prev ≠ some k) (hne : run ≠ [])
    (hrun : ∀ c ∈ run, kind c = k) :
    markedTokens kind payload prev run = Token.marker k.letter :: payloads payload run := by
  cases run with
  | nil => exact absurd rfl hne
  | cons c cs =>
    have hc : kind c = k := hrun c (by simp)
    have hcs : ∀ d ∈ cs, kind d = k := fun d hd => hrun d (by simp [hd])
    simp only [markedTokens, payloads, hc, if_neg hprev, markedTokens_same kind payload k cs hcs,
      List.singleton_append, List.cons_append, List.nil_append]

/-- The GDI conversion of the arrays of a list of commands. -/
theorem gdiShape_cmds (ds xs ys : ℚ) (cmds : List GdiCmd) :
    gdiShape ds xs ys (gdiPoints cmds) (gdiTypes cmds) (gdiTypes cmds).length
      = .ok (gdiTrace ds xs ys 0xff cmds) := by
  have h := gdiLoop_trace ds xs ys cmds [] [] 0xff [] rfl
  simpa [gdiShape] using h

theorem gdiXY_length (ds xs ys : ℚ) (p : ℤ × ℤ) : (gdiXY ds xs ys p).length = 2 := rfl

theorem blend2_bounds (t a b lo hi : ℚ) (h0 : 0 ≤ t) (h1 : t ≤ 1)
    (ha : lo ≤ a ∧ a ≤ hi) (hb : lo ≤ b ∧ b ≤ hi) :
    lo ≤ (1 - t) * a + t * b ∧ (1 - t) * a + t * b ≤ hi := by
  have hs : 0 ≤ 1 - t := by linarith
  constructor
  · nlinarith [mul_nonneg hs (sub_nonneg.mpr ha.1), mul_nonneg h0 (sub_nonneg.mpr hb.1)]
  · nlinarith [mul_nonneg hs (sub_nonneg.mpr ha.2), mul_nonneg h0 (sub_nonneg.mpr hb.2)]

theorem blend3_bounds (t a b c lo hi : ℚ) (h0 : 0 ≤ t) (h1 : t ≤ 1)
    (ha : lo ≤ a ∧ a ≤ hi) (hb : lo ≤ b ∧ b ≤ hi) (hc : lo ≤ c ∧ c ≤ hi) :
    lo ≤ (1 - t) * (1 - t) * a + 2 * (1 - t) * t * b + t * t * c
      ∧ (1 - t) * (1 - t) * a + 2 * (1 - t) * t * b + t * t * c ≤ hi := by
  have hs : 0 ≤ 1 - t := by linarith
  have w0 : 0 ≤ (1 - t) * (1 - t) := mul_nonneg hs hs
  have w1 : 0 ≤ 2 * (1 - t) * t := mul_nonneg (mul_nonneg (by norm_num) hs) h0
  have w2 : 0 ≤ t * t := mul_nonneg h0 h0
  constructor
  · linarith [mul_nonneg w0 (sub_nonneg.mpr ha.1), mul_nonneg w1 (sub_nonneg.mpr hb.1),
      mul_nonneg w2 (sub_nonneg.mpr hc.1)]
  · linarith [mul_nonneg w0 (sub_nonneg.mpr ha.2), mul_nonneg w1 (sub_nonneg.mpr hb.2),
      mul_nonneg w2 (sub_nonneg.mpr hc.2)]

theorem blend4_bounds (t a b c d lo hi : ℚ) (h0 : 0 ≤ t) (h1 : t ≤ 1)
    (ha : lo ≤ a ∧ a ≤ hi) (hb : lo ≤ b ∧ b ≤ hi) (hc : lo ≤ c ∧ c ≤ hi)
    (hd : lo ≤ d ∧ d ≤ hi) :
    lo ≤ (1 - t) * (1 - t) * (1 - t) * a + 3 * (1 - t) * (1 - t) * t * b
          + 3 * (1 - t) * t * t * c + t * t * t * d
      ∧ (1 - t) * (1 - t) * (1 - t) * a + 3 * (1 - t) * (1 - t) * t * b
          + 3 * (1 - t) * t * t * c + t * t * t * d ≤ hi := by
  have hs : 0 ≤ 1 - t := by linarith
  have w0 : 0 ≤ (1 - t) * (1 - t) * (1 - t) := mul_nonneg (mul_nonneg hs hs) hs
  have w1 : 0 ≤ 3 * (1 - t) * (1 - t) * t :=
    mul_nonneg (mul_nonneg (mul_nonneg (by norm_num) hs) hs) h0
  have w2 : 0 ≤ 3 * (1 - t) * t * t :=
    mul_nonneg (mul_nonneg (mul_nonneg (by norm_num) hs) h0) h0
  have w3 : 0 ≤ t * t * t := mul_nonneg (mul_nonneg h0 h0) h0
  constructor
  · linarith [mul_nonneg w0 (sub_nonneg.mpr ha.1), mul_nonneg w1 (sub_nonneg.mpr hb.1),
      mul_nonneg w2 (sub_nonneg.mpr hc.1), mul_nonneg w3 (sub_nonneg.mpr hd.1)]
  · linarith [mul_nonneg w0 (sub_nonneg.mpr ha.2), mul_nonneg w1 (sub_nonneg.mpr hb.2),
      mul_nonneg w2 (sub_nonneg.mpr hc.2), mul_nonneg w3 (sub_nonneg.mpr hd.2)]

theorem line_intersect_zero_length (x0 y0 x1 y1 x2 y2 x3 y3 : ℚ) (strict : Bool)
    (h : (x0 - x1 = 0 ∧ y0 - y1 = 0) ∨ (x2 - x3 = 0 ∧ y2 - y3 = 0)) :
    line_intersect x0 y0 x1 y1 x2 y2 x3 y3 strict
      = .error (.invalid_argument "lines mustn't have zero length") := by
  unfold line_intersect
  simp only [if_pos h]

theorem line_intersect_parallel (x0 y0 x1 y1 x2 y2 x3 y3 : ℚ) (strict : Bool)
    (h : ¬ ((x0 - x1 = 0 ∧ y0 - y1 = 0) ∨ (x2 - x3 = 0 ∧ y2 - y3 = 0)))
    (hdet : (x0 - x1) * (y2 - y3) - (y0 - y1) * (x2 - x3) = 0) :
    line_intersect x0 y0 x1 y1 x2 y2 x3 y3 strict
      = .ok (((0 : ℚ) : Double), ((0 : ℚ) : Double)) := by
  unfold line_intersect
  simp only [if_neg h, if_pos hdet]

theorem cross_swap_lines (x0 y0 x1 y1 x2 y2 x3 y3 : ℚ)
    (hdet : (x0 - x1) * (y2 - y3) - (y0 - y1) * (x2 - x3) ≠ 0) :
    crossX x2 y2 x3 y3 x0 y0 x1 y1 = crossX x0 y0 x1 y1 x2 y2 x3 y3
      ∧ crossY x2 y2 x3 y3 x0 y0 x1 y1 = crossY x0 y0 x1 y1 x2 y2 x3 y3 := by
  have h2 : (x2 - x3) * (y0 - y1) - (y2 - y3) * (x0 - x1) ≠ 0 := by
    intro h
    exact hdet (by linear_combination -h)
  unfold crossX crossY
  constructor
  · rw [div_eq_div_iff h2 hdet]
    ring
  · rw [div_eq_div_iff h2 hdet]
    ring

theorem cross_swap_ends (x0 y0 x1 y1 x2 y2 x3 y3 : ℚ)
    (hdet : (x0 - x1) * (y2 - y3) - (y0 - y1) * (x2 - x3) ≠ 0) :
    crossX x1 y1 x0 y0 x2 y2 x3 y3 = crossX x0 y0 x1 y1 x2 y2 x3 y3
      ∧ crossY x1 y1 x0 y0 x2 y2 x3 y3 = crossY x0 y0 x1 y1 x2 y2 x3 y3 := by
  have h2 : (x1 - x0) * (y2 - y3) - (y1 - y0) * (x2 - x3) ≠ 0 := by
    intro h
    exact hdet (by linear_combination -h)
  unfold crossX crossY
  constructor
  · rw [div_eq_div_iff h2 hdet]
    ring
  · rw [div_eq_div_iff h2 hdet]
    ring

/-- Seen from the other end point, the parameter of a point of the line is
one minus its parameter. -/
theorem segParam_swap_ends (ix iy x0 y0 x1 y1 : ℚ) (hlen : ¬ (x0 - x1 = 0 ∧ y0 - y1 = 0))
    (hcol : collinear ix iy x0 y0 x1 y1) :
    segParam ix iy x0 y0 (x1 - x0) (y1 - y0)
      = 1 - segParam ix iy x1 y1 (x0 - x1) (y0 - y1) := by
  have hlen2 : ¬ (x1 - x0 = 0 ∧ y1 - y0 = 0) := by
    rintro ⟨h1, h2⟩
    exact hlen ⟨by linarith, by linarith⟩
  have hcol2 : collinear ix iy x1 y1 x0 y0 := by
    unfold collinear at hcol ⊢
    linear_combination -hcol
  obtain ⟨ha, hb⟩ := segParam_spec ix iy x0 y0 x1 y1 hlen hcol
  obtain ⟨hc, hd⟩ := segParam_spec ix iy x1 y1 x0 y0 hlen2 hcol2
  have ex : (segParam ix iy x0 y0 (x1 - x0) (y1 - y0)
      + segParam ix iy x1 y1 (x0 - x1) (y0 - y1) - 1) * (x0 - x1) = 0 := by
    linear_combination hc - ha
  have ey : (segParam ix iy x0 y0 (x1 - x0) (y1 - y0)
      + segParam ix iy x1 y1 (x0 - x1) (y0 - y1) - 1) * (y0 - y1) = 0 := by
    linear_combination hd - hb
  have hsum : segParam ix iy x0 y0 (x1 - x0) (y1 - y0)
      + segParam ix iy x1 y1 (x0 - x1) (y0 - y1) - 1 = 0 := by
    by_contra hne
    rcases mul_eq_zero.mp ex with h | h
    · exact hne h
    · rcases mul_eq_zero.mp ey with h' | h'
      · exact hne h'
      · exact hlen ⟨h, h'⟩
  linarith

/-- Exchanging the two lines does not change what `line_intersect` returns. -/
theorem line_intersect_swap_lines (x0 y0 x1 y1 x2 y2 x3 y3 : ℚ) (strict : Bool) :
    line_intersect x2 y2 x3 y3 x0 y0 x1 y1 strict
      = line_intersect x0 y0 x1 y1 x2 y2 x3 y3 strict := by
  by_cases hz : (x0 - x1 = 0 ∧ y0 - y1 = 0) ∨ (x2 - x3 = 0 ∧ y2 - y3 = 0)
  · rw [line_intersect_zero_length x0 y0 x1 y1 x2 y2 x3 y3 strict hz,
      line_intersect_zero_length x2 y2 x3 y3 x0 y0 x1 y1 strict (Or.symm hz)]
  · have hz2 : ¬ ((x2 - x3 = 0 ∧ y2 - y3 = 0) ∨ (x0 - x1 = 0 ∧ y0 - y1 = 0)) :=
      fun h => hz (Or.symm h)
    by_cases hdet : (x0 - x1) * (y2 - y3) - (y0 - y1) * (x2 - x3) = 0
    · have hdet2 : (x2 - x3) * (y0 - y1) - (y2 - y3) * (x0 - x1) = 0 := by
        linear_combination -hdet
      rw [line_intersect_parallel x0 y0 x1 y1 x2 y2 x3 y3 strict hz hdet,
        line_intersect_parallel x2 y2 x3 y3 x0 y0 x1 y1 strict hz2 hdet2]
    · have hdet2 : (x2 - x3) * (y0 - y1) - (y2 - y3) * (x0 - x1) ≠ 0 := by
        intro h
        exact hdet (by linear_combination -h)
      obtain ⟨hx, hy⟩ := cross_swap_lines x0 y0 x1 y1 x2 y2 x3 y3 hdet
      cases strict
      · rw [line_intersect_loose x0 y0 x1 y1 x2 y2 x3 y3 hdet,
          line_intersect_loose x2 y2 x3 y3 x0 y0 x1 y1 hdet2, hx, hy]
      · rw [line_intersect_strict_eq x0 y0 x1 y1 x2 y2 x3 y3 hdet,
          line_intersect_strict_eq x2 y2 x3 y3 x0 y0 x1 y1 hdet2, hx, hy]
        refine if_congr ?_ rfl rfl
        constructor
        · rintro (h | h | h | h)
          · exact Or.inr (Or.inr (Or.inl h))
          · exact Or.inr (Or.inr (Or.inr h))
          · exact Or.inl h
          · exact Or.inr (Or.inl h)
        · rintro (h | h | h | h)
          · exact Or.inr (Or.inr (Or.inl h))
          · exact Or.inr (Or.inr (Or.inr h))
          · exact Or.inl h
          · exact Or.inr (Or.inl h)

/-- Exchanging the end points of the first line does not change what
`line_intersect` returns. -/
theorem line_intersect_swap_ends (x0 y0 x1 y1 x2 y2 x3 y3 : ℚ) (strict : Bool) :
    line_intersect x1 y1 x0 y0 x2 y2 x3 y3 strict
      = line_intersect x0 y0 x1 y1 x2 y2 x3 y3 strict := by
  by_cases hz : (x0 - x1 = 0 ∧ y0 - y1 = 0) ∨ (x2 - x3 = 0 ∧ y2 - y3 = 0)
  · have hz2 : (x1 - x0 = 0 ∧ y1 - y0 = 0) ∨ (x2 - x3 = 0 ∧ y2 - y3 = 0) := by
      rcases hz with ⟨h1, h2⟩ | h
      · exact Or.inl ⟨by linarith, by linarith⟩
      · exact Or.inr h
    rw [line_intersect_zero_length x0 y0 x1 y1 x2 y2 x3 y3 strict hz,
      line_intersect_zero_length x1 y1 x0 y0 x2 y2 x3 y3 strict hz2]
  · have hz2 : ¬ ((x1 - x0 = 0 ∧ y1 - y0 = 0) ∨ (x2 - x3 = 0 ∧ y2 - y3 = 0)) := by
      rintro (⟨h1, h2⟩ | h)
      · exact hz (Or.inl ⟨by linarith, by linarith⟩)
      · exact hz (Or.inr h)
    by_cases hdet : (x0 - x1) * (y2 - y3) - (y0 - y1) * (x2 - x3) = 0
    · have hdet2 : (x1 - x0) * (y2 - y3) - (y1 - y0) * (x2 - x3) = 0 := by
        linear_combination -hdet
      rw [line_intersect_parallel x0 y0 x1 y1 x2 y2 x3 y3 strict hz hdet,
        line_intersect_parallel x1 y1 x0 y0 x2 y2 x3 y3 strict hz2 hdet2]
    · have hdet2 : (x1 - x0) * (y2 - y3) - (y1 - y0) * (x2 - x3) ≠ 0 := by
        intro h
        exact hdet (by linear_combination -h)
      have hlen : ¬ (x0 - x1 = 0 ∧ y0 - y1 = 0) := fun h => hz (Or.inl h)
      obtain ⟨hx, hy⟩ := cross_swap_ends x0 y0 x1 y1 x2 y2 x3 y3 hdet
      cases strict
      · rw [line_intersect_loose x0 y0 x1 y1 x2 y2 x3 y3 hdet,
          line_intersect_loose x1 y1 x0 y0 x2 y2 x3 y3 hdet2, hx, hy]
      · rw [line_intersect_strict_eq x0 y0 x1 y1 x2 y2 x3 y3 hdet,
          line_intersect_strict_eq x1 y1 x0 y0 x2 y2 x3 y3 hdet2, hx, hy,
          segParam_swap_ends _ _ x0 y0 x1 y1 hlen
            (cross_collinear_first x0 y0 x1 y1 x2 y2 x3 y3 hdet)]
        refine if_congr ?_ rfl rfl
        constructor
        · rintro (h | h | h | h)
          · exact Or.inr (Or.inl (by linarith))
          · exact Or.inl (by linarith)
          · exact Or.inr (Or.inr (Or.inl h))
          · exact Or.inr (Or.inr (Or.inr h))
        · rintro (h | h | h | h)
          · exact Or.inr (Or.inl (by linarith))
          · exact Or.inl (by linarith)
          · exact Or.inr (Or.inr (Or.inl h))
          · exact Or.inr (Or.inr (Or.inr h))

/-- One step of the loop of `arc_curve` pushes a curve that starts at the
current start vector and ends at the start vector of the next step. -/
theorem arcSegment_ends (sqrt : ℚ → ℚ) (rotate2d : ℚ → ℚ → ℚ → Point2)
    (cx cy angle cw kappa rx0 ry0 angle_sum : ℚ) :
    ∃ p1 p2 rx3 ry3, arcSegment sqrt rotate2d cx cy angle cw kappa rx0 ry0 angle_sum
        = .ok ([(cx + rx0, cy + ry0), p1, p2, (cx + rx3, cy + ry3)], rx3, ry3) := by
  unfold arcSegment
  simp only []
  obtain ⟨p, hp⟩ := stretch_ok sqrt
    ((rotate2d rx0 ry0 (cw * 90 * (min (angle - angle_sum) 90 / 90))).1 - rx0)
    ((rotate2d rx0 ry0 (cw * 90 * (min (angle - angle_sum) 90 / 90))).2 - ry0) 0
    (sqrt (distance sqrt
      ((rotate2d rx0 ry0 (cw * 90 * (min (angle - angle_sum) 90 / 90))).1 - rx0)
      ((rotate2d rx0 ry0 (cw * 90 * (min (angle - angle_sum) 90 / 90))).2 - ry0) 0 ^ 2 / 2)
      * kappa)
  rw [hp]
  exact ⟨_, _, _, _, rfl⟩

/-- The curves the loop of `arc_curve` appends form a chain: the first starts
at the current start vector and each later one starts where the one before it
ends. -/
theorem arcLoop_chain (sqrt : ℚ → ℚ) (rotate2d : ℚ → ℚ → ℚ → Point2)
    (cx cy angle cw kappa : ℚ) :
    ∀ (n : ℕ) (rx0 ry0 angle_sum : ℚ) (curves : List Point2),
      (⌈(angle - angle_sum) / 90⌉).toNat = n →
      ∃ ext, arcLoop sqrt rotate2d cx cy angle cw kappa rx0 ry0 angle_sum curves
          = .ok (curves ++ ext)
        ∧ ext.length = 4 * n
        ∧ (0 < n → ext[0]? = some (cx + rx0, cy + ry0))
        ∧ ∀ k, 4 * (k + 1) < ext.length → ext[4 * (k + 1)]? = ext[4 * k + 3]? := by
  intro n
  induction n with
  | zero =>
    intro rx0 ry0 angle_sum curves hn
    have hle : ⌈(angle - angle_sum) / 90⌉ ≤ 0 := by omega
    have hq : (angle - angle_sum) / 90 ≤ 0 := by
      have := Int.ceil_le.mp hle
      simpa using this
    have hnot : ¬ angle_sum < angle := by
      intro h
      have : 0 < (angle - angle_sum) / 90 := by apply div_pos <;> linarith
      linarith
    refine ⟨[], ?_, rfl, ?_, ?_⟩
    · rw [arcLoop, if_neg hnot, List.append_nil]
    · intro h
      exact absurd h (lt_irrefl 0)
    · intro k hk
      simp at hk
  | succ n ih =>
    intro rx0 ry0 angle_sum curves hn
    have hpos : 0 < ⌈(angle - angle_sum) / 90⌉ := by omega
    have hq : 0 < (angle - angle_sum) / 90 := Int.ceil_pos.mp hpos
    have hlt : angle_sum < angle := by
      by_contra h
      have h2 : angle - angle_sum ≤ 0 := by linarith
      have : (angle - angle_sum) / 90 ≤ 0 := div_nonpos_of_nonpos_of_nonneg h2 (by norm_num)
      linarith
    have hnext : (⌈(angle - (angle_sum + 90)) / 90⌉).toNat = n := by
      rw [show (angle - (angle_sum + 90)) / 90 = (angle - angle_sum) / 90 - 1 by ring,
        Int.ceil_sub_one]
      omega
    obtain ⟨p1, p2, rx3, ry3, hseg⟩ :=
      arcSegment_ends sqrt rotate2d cx cy angle cw kappa rx0 ry0 angle_sum
    obtain ⟨ext, hout, hlen, hfirst, hchain⟩ := ih rx3 ry3 (angle_sum + 90)
      (curves ++ [(cx + rx0, cy + ry0), p1, p2, (cx + rx3, cy + ry3)]) hnext
    refine ⟨[(cx + rx0, cy + ry0), p1, p2, (cx + rx3, cy + ry3)] ++ ext, ?_, ?_, ?_, ?_⟩
    · rw [arcLoop, if_pos hlt, hseg]
      simp only []
      rw [hout, List.append_assoc]
    · simp only [List.length_append, List.length_cons, List.length_nil, hlen]
      omega
    · intro _
      rfl
    · intro k hk
      simp only [List.length_append, List.length_cons, List.length_nil, hlen] at hk
      cases k with
      | zero =>
        have hn0 : 0 < n := by omega
        have h4 : ([(cx + rx0, cy + ry0), p1, p2, (cx + rx3, cy + ry3)] ++ ext)[4 * (0 + 1)]?
            = ext[0]? := by
          rw [List.getElem?_append_right (by simp)]
          rfl
        rw [h4, hfirst hn0]
        simp
      | succ j =>
        have hj : 4 * (j + 1) < ext.length := by omega
        have ha : ([(cx + rx0, cy + ry0), p1, p2, (cx + rx3, cy + ry3)] ++ ext)[4 * (j + 1 + 1)]?
            = ext[4 * (j + 1)]? := by
          rw [List.getElem?_append_right (by simp)]
          congr 1
        have hb : ([(cx + rx0, cy + ry0), p1, p2, (cx + rx3, cy + ry3)] ++ ext)[4 * (j + 1) + 3]?
            = ext[4 * j + 3]? := by
          rw [List.getElem?_append_right (by simp; omega)]
          congr 1
        rw [ha, hb]
        exact hchain j hj

theorem arrAt_of_lt {α : Type} (a : List α) (i : ℕ) (h : i < a.length) :
    arrAt a i = .ok (a.get ⟨i, h⟩) := by
  simp [arrAt, List.getElem?_eq_getElem h]

/-- When every curve entry the loop processes has two more entries after it,
the GDI loop reads inside the arrays only and returns. -/
theorem gdiLoop_in_bounds (ds xs ys : ℚ) (points : List (ℤ × ℤ)) (types : List ℕ)
    (points_n : ℕ) (hT : types.length = points_n) (hP : points.length = points_n) :
    ∀ (fuel i last : ℕ) (shape : List Token), points_n ≤ i + fuel →
      gdiCurvesComplete types points_n fuel i →
      ∃ toks, gdiLoop ds xs ys points types points_n i last shape = .ok toks := by
  intro fuel
  induction fuel with
  | zero =>
    intro i last shape hf _
    rw [gdiLoop, dif_neg (by omega)]
    exact ⟨_, rfl⟩
  | succ fuel ih =>
    intro i last shape hf hc
    by_cases hi : i < points_n
    · have hiT : i < types.length := by omega
      have hiP : i < points.length := by omega
      have hcur := arrAt_of_lt types i hiT
      have hpt := arrAt_of_lt points i hiP
      have hget : types[i]? = some (types.get ⟨i, hiT⟩) := List.getElem?_eq_getElem hiT
      simp only [gdiCurvesComplete, if_pos hi, hget] at hc
      rw [gdiLoop, dif_pos hi, hcur, hpt]
      simp only []
      by_cases h1 : types.get ⟨i, hiT⟩ = PT_MOVETO
      · have hnb : ¬ (types.get ⟨i, hiT⟩ = PT_BEZIERTO
            ∨ types.get ⟨i, hiT⟩ = PT_BEZIERTO + PT_CLOSEFIGURE) := by
          rw [h1]; decide
        rw [if_neg hnb] at hc
        rw [if_pos h1]
        exact ih (i + 1) _ _ (by omega) hc
      · rw [if_neg h1]
        by_cases h2 : types.get ⟨i, hiT⟩ = PT_LINETO
            ∨ types.get ⟨i, hiT⟩ = PT_LINETO + PT_CLOSEFIGURE
        · have hnb : ¬ (types.get ⟨i, hiT⟩ = PT_BEZIERTO
              ∨ types.get ⟨i, hiT⟩ = PT_BEZIERTO + PT_CLOSEFIGURE) := by
            rcases h2 with h2 | h2 <;> rw [h2] <;> decide
          rw [if_neg hnb] at hc
          rw [if_pos h2]
          exact ih (i + 1) _ _ (by omega) hc
        · rw [if_neg h2]
          by_cases h3 : types.get ⟨i, hiT⟩ = PT_BEZIERTO
              ∨ types.get ⟨i, hiT⟩ = PT_BEZIERTO + PT_CLOSEFIGURE
          · rw [if_pos h3] at hc
            rw [if_pos h3, arrAt_of_lt points (i + 1) (by omega),
              arrAt_of_lt points (i + 2) (by omega)]
            simp only []
            exact ih (i + 3) _ _ (by omega) hc.2
          · rw [if_neg h3] at hc
            rw [if_neg h3]
            exact ih (i + 1) _ _ (by omega) hc
    · rw [gdiLoop, dif_neg hi]
      exact ⟨_, rfl⟩

theorem sizeSub_one_of_pos (w n : ℕ) (hpos : 0 < n) (hn : n < 2 ^ w) :
    sizeSub w n 1 = n - 1 := by
  unfold sizeSub
  have h1 : n + 2 ^ w - 1 = (n - 1) + 2 ^ w := by omega
  rw [h1, Nat.add_mod_right]
  exact Nat.mod_eq_of_lt (by omega)

theorem sizeSub_zero_one (w : ℕ) : sizeSub w 0 1 + 1 = 2 ^ w := by
  unfold sizeSub
  have hpos : 0 < 2 ^ w := Nat.two_pow_pos w
  rw [Nat.zero_add, Nat.mod_eq_of_lt (by omega)]
  omega

theorem sizeInc_of_lt (w i : ℕ) (h : i + 1 < 2 ^ w) : sizeInc w i = i + 1 := by
  unfold sizeInc
  exact Nat.mod_eq_of_lt h

theorem widthLoop_run (w : ℕ) (cx : ℕ → ℤ) (space : ℤ) (textLen : ℕ)
    (hpos : 0 < textLen) (hn : textLen < 2 ^ w) :
    ∀ (k i fuel iters : ℕ), i + k = textLen → k < fuel →
      widthLoop w (fun j => some (cx j)) space textLen fuel i
          ⟨(List.range i).map (fun j => some (cx j + space)) ++ List.replicate k none, iters⟩
        = some (.ok (.finished,
            ⟨(List.range textLen).map (fun j => some (cx j + space)), iters + k⟩)) := by
  intro k
  induction k with
  | zero =>
    intro i fuel iters hik hfuel
    obtain ⟨f, rfl⟩ : ∃ f, fuel = f + 1 := ⟨fuel - 1, by omega⟩
    have hi : i = textLen := by omega
    subst hi
    rw [widthLoop, sizeSub_one_of_pos w i hpos hn, if_neg (by omega)]
    simp
  | succ k ih =>
    intro i fuel iters hik hfuel
    obtain ⟨f, rfl⟩ : ∃ f, fuel = f + 1 := ⟨fuel - 1, by omega⟩
    rw [widthLoop, sizeSub_one_of_pos w textLen hpos hn, if_pos (by omega)]
    simp only
    rw [if_pos (by simp), sizeInc_of_lt w i (by omega)]
    have hset : ((List.range i).map (fun j => some (cx j + space))
          ++ List.replicate (k + 1) none).set i (some (cx i + space))
        = (List.range (i + 1)).map (fun j => some (cx j + space))
          ++ List.replicate k none := by
      rw [List.replicate_succ, List.range_succ, List.map_append, List.append_assoc]
      have hlen : ((List.range i).map (fun j => some (cx j + space))).length = i := by simp
      conv_lhs => rw [← hlen]
      simp
    rw [hset, ih (i + 1) f (iters + 1) (by omega) (by omega)]
    have : iters + 1 + k = iters + (k + 1) := by omega
    rw [this]

/-- For a text of 1 to 8192 characters whose widths can all be measured, the
width pass ends after exactly `textLen` loop bodies, each entry of
`charWidths` written, none outside. -/
theorem charWidthsPass_of_pos (w : ℕ) (cx : ℕ → ℤ) (space : ℤ) (textLen fuel : ℕ)
    (hpos : 0 < textLen) (hle : textLen ≤ 8192) (hn : textLen < 2 ^ w)
    (hfuel : textLen < fuel) :
    charWidthsPass w (fun j => some (cx j)) space textLen fuel
      = some (.ok (.finished,
          ⟨(List.range textLen).map (fun j => some (cx j + space)), textLen⟩)) := by
  unfold charWidthsPass
  rw [if_neg (by omega)]
  have h := widthLoop_run w cx space textLen hpos hn textLen 0 fuel 0 (by omega) hfuel
  simpa using h

namespace F64

theorem huge_pos : 0 < huge := Nat.two_pow_pos 2098

theorem roundMag_zero (b : ℕ) : roundMag 0 b = 0 := by
  simp [roundMag, bitlen]

theorem pack_zero (s : Bool) : pack s 0 = fin 0 := by
  unfold pack
  rw [if_neg (Nat.not_le.mpr huge_pos)]
  cases s <;> simp

theorem roundQ_zero (s : Bool) (b : ℕ) : roundQ s 0 b = fin 0 := by
  rw [roundQ, roundMag_zero, pack_zero]

theorem neg_pack (s : Bool) (m : ℕ) : neg (pack s m) = pack (!s) m := by
  unfold pack
  split
  · rfl
  · cases s <;> simp [neg]

theorem neg_roundQ (s : Bool) (a b : ℕ) : neg (roundQ s a b) = roundQ (!s) a b := by
  rw [roundQ, roundQ, neg_pack]

theorem neg_neg (a : F64) : neg (neg a) = a := by
  cases a <;> simp [neg]

theorem roundZ_neg (n : ℤ) : roundZ (-n) = neg (roundZ n) := by
  unfold roundZ
  rw [neg_roundQ, Int.natAbs_neg]
  rcases lt_trichotomy n 0 with h | h | h
  · have h1 : ¬ (-n < 0) := by omega
    simp [h, h1]
  · subst h
    simp [roundQ_zero]
  · have h1 : -n < 0 := by omega
    have h2 : ¬ (n < 0) := by omega
    simp [h1, h2]

theorem neg_add (a b : F64) : neg (add a b) = add (neg a) (neg b) := by
  cases a with
  | fin x =>
    cases b with
    | fin y =>
      show neg (roundZ (x + y)) = roundZ (-x + -y)
      rw [← roundZ_neg, Int.neg_add]
    | inf t => rfl
    | nan => rfl
  | inf s =>
    cases b with
    | fin y => rfl
    | inf t => cases s <;> cases t <;> rfl
    | nan => rfl
  | nan => cases b <;> rfl

theorem sub_swap (a b : F64) : sub b a = neg (sub a b) := by
  unfold sub
  rw [neg_add, neg_neg]
  cases a with
  | fin x =>
    cases b with
    | fin y =>
      show roundZ (y + -x) = roundZ (-x + y)
      rw [Int.add_comm]
    | inf t => rfl
    | nan => rfl
  | inf s =>
    cases b with
    | fin y => rfl
    | inf t => cases s <;> cases t <;> rfl
    | nan => rfl
  | nan => cases b <;> rfl

theorem bxor_comm (s t : Bool) : (s != t) = (t != s) := by
  cases s <;> cases t <;> rfl

theorem mul_comm (a b : F64) : mul a b = mul b a := by
  cases a with
  | fin x =>
    cases b with
    | fin y =>
      show roundQ (decide (x < 0) != decide (y < 0)) (x.natAbs * y.natAbs) scale
        = roundQ (decide (y < 0) != decide (x < 0)) (y.natAbs * x.natAbs) scale
      rw [Nat.mul_comm, bxor_comm]
    | inf t =>
      show (if x = 0 then nan else inf (decide (x < 0) != t))
        = (if x = 0 then nan else inf (t != decide (x < 0)))
      rw [bxor_comm]
    | nan => rfl
  | inf s =>
    cases b with
    | fin y =>
      show (if y = 0 then nan else inf (s != decide (y < 0)))
        = (if y = 0 then nan else inf (decide (y < 0) != s))
      rw [bxor_comm]
    | inf t =>
      show inf (s != t) = inf (t != s)
      rw [bxor_comm]
    | nan => rfl
  | nan => cases b <;> rfl

theorem decide_neg_lt (x : ℤ) (h : x ≠ 0) : decide (-x < 0) = !decide (x < 0) := by
  rcases lt_or_gt_of_ne h with h1 | h1
  · have h2 : ¬ (-x < 0) := by omega
    simp [h1, h2]
  · have h2 : -x < 0 := by omega
    have h3 : ¬ (x < 0) := by omega
    simp [h2, h3]

theorem bxor_not_left (s t : Bool) : ((!s) != t) = !(s != t) := by
  cases s <;> cases t <;> rfl

theorem neg_mul (a b : F64) : mul (neg a) b = neg (mul a b) := by
  cases a with
  | fin x =>
    cases b with
    | fin y =>
      show roundQ (decide (-x < 0) != decide (y < 0)) ((-x).natAbs * y.natAbs) scale
        = neg (roundQ (decide (x < 0) != decide (y < 0)) (x.natAbs * y.natAbs) scale)
      rw [neg_roundQ, Int.natAbs_neg]
      by_cases h : x = 0
      · subst h
        simp [roundQ_zero]
      · rw [decide_neg_lt x h, bxor_not_left]
    | inf t =>
      show (if -x = 0 then nan else inf (decide (-x < 0) != t))
        = neg (if x = 0 then nan else inf (decide (x < 0) != t))
      by_cases h : x = 0
      · subst h
        rfl
      · have h1 : -x ≠ 0 := by omega
        rw [if_neg h, if_neg h1, decide_neg_lt x h, bxor_not_left]
        rfl
    | nan => rfl
  | inf s =>
    cases b with
    | fin y =>
      show (if y = 0 then nan else inf ((!s) != decide (y < 0)))
        = neg (if y = 0 then nan else inf (s != decide (y < 0)))
      by_cases h : y = 0
      · rw [if_pos h, if_pos h]
        rfl
      · rw [if_neg h, if_neg h, bxor_not_left]
        rfl
    | inf t =>
      show inf ((!s) != t) = inf (!(s != t))
      rw [bxor_not_left]
    | nan => rfl
  | nan => cases b <;> rfl

theorem mul_neg (a b : F64) : mul a (neg b) = neg (mul a b) := by
  rw [mul_comm, neg_mul, mul_comm]

theorem eq_neg_zero (a : F64) : eq (neg a) zero = eq a zero := by
  cases a with
  | fin x =>
    show decide (-x = 0) = decide (x = 0)
    by_cases h : x = 0
    · subst h
      rfl
    · have h1 : -x ≠ 0 := by omega
      simp [h, h1]
  | inf s => rfl
  | nan => rfl

theorem bxor_not_not (s t : Bool) : ((!s) != (!t)) = (s != t) := by
  cases s <;> cases t <;> rfl

theorem div_neg_neg (a b : F64) (hb : eq b zero = false) : div (neg a) (neg b) = div a b := by
  cases b with
  | fin y =>
    have hy : y ≠ 0 := by
      intro h
      subst h
      exact absurd hb (by decide)
    have hy1 : -y ≠ 0 := by omega
    cases a with
    | fin x =>
      show (if -y = 0 then (if -x = 0 then nan else inf (decide (-x < 0)))
          else roundQ (decide (-x < 0) != decide (-y < 0)) ((-x).natAbs * scale) (-y).natAbs)
        = (if y = 0 then (if x = 0 then nan else inf (decide (x < 0)))
          else roundQ (decide (x < 0) != decide (y < 0)) (x.natAbs * scale) y.natAbs)
      rw [if_neg hy, if_neg hy1, Int.natAbs_neg, Int.natAbs_neg]
      by_cases h : x = 0
      · subst h
        simp [roundQ_zero]
      · rw [decide_neg_lt x h, decide_neg_lt y hy, bxor_not_not]
    | inf s =>
      show inf ((!s) != decide (-y < 0)) = inf (s != decide (y < 0))
      rw [decide_neg_lt y hy, bxor_not_not]
    | nan => rfl
  | inf t => cases a <;> rfl
  | nan => cases a <;> rfl


theorem bor_comm (a b : Bool) : (a || b) = (b || a) := by
  cases a <;> cases b <;> rfl

theorem bor4_swap (a b c d : Bool) : (c || d || a || b) = (a || b || c || d) := by
  cases a <;> cases b <;> cases c <;> cases d <;> rfl

theorem det_swap_lines (x10 y10 x32 y32 : F64) :
    sub (mul x32 y10) (mul y32 x10) = neg (sub (mul x10 y32) (mul y10 x32)) := by
  rw [mul_comm x32 y10, mul_comm y32 x10, sub_swap]

theorem num_swap_lines (pre post x10 x32 : F64) :
    sub (mul post x10) (mul x32 pre) = neg (sub (mul pre x32) (mul x10 post)) := by
  rw [mul_comm post x10, mul_comm x32 pre, sub_swap]

/-- Exchanging the two lines leaves the result of the binary64
`line_intersect` unchanged, for both values of `strict`. -/
theorem line_intersect_lines_exchanged (x0 y0 x1 y1 x2 y2 x3 y3 : F64) (strict : Bool) :
    line_intersect x2 y2 x3 y3 x0 y0 x1 y1 strict
      = line_intersect x0 y0 x1 y1 x2 y2 x3 y3 strict := by
  unfold line_intersect
  simp only []
  generalize sub x0 x1 = x10
  generalize sub y0 y1 = y10
  generalize sub x2 x3 = x32
  generalize sub y2 y3 = y32
  generalize sub (mul x0 y1) (mul y0 x1) = pre
  generalize sub (mul x2 y3) (mul y2 x3) = post
  rw [bor_comm (eq x32 zero && eq y32 zero)]
  cases hz : (eq x10 zero && eq y10 zero || eq x32 zero && eq y32 zero)
  · simp only [Bool.false_eq_true, if_false]
    rw [det_swap_lines x10 y10 x32 y32, eq_neg_zero]
    cases hd : eq (sub (mul x10 y32) (mul y10 x32)) zero
    · simp only [Bool.false_eq_true, if_false]
      rw [num_swap_lines pre post x10 x32, num_swap_lines pre post y10 y32,
        div_neg_neg _ _ hd, div_neg_neg _ _ hd]
      cases strict
      · rfl
      · simp only [if_true]
        rw [bor4_swap]
    · rfl
  · rfl

theorem det_swap_first (x10 y10 x32 y32 : F64) :
    sub (mul (neg x10) y32) (mul (neg y10) x32) = neg (sub (mul x10 y32) (mul y10 x32)) := by
  rw [neg_mul, neg_mul, sub, sub, neg_add]

theorem det_swap_second (x10 y10 x32 y32 : F64) :
    sub (mul x10 (neg y32)) (mul y10 (neg x32)) = neg (sub (mul x10 y32) (mul y10 x32)) := by
  rw [mul_neg, mul_neg, sub, sub, neg_add]

theorem num_swap_first (pre post x10 x32 : F64) :
    sub (mul (neg pre) x32) (mul (neg x10) post) = neg (sub (mul pre x32) (mul x10 post)) := by
  rw [neg_mul, neg_mul, sub, sub, neg_add]

theorem num_swap_second (pre post x10 x32 : F64) :
    sub (mul pre (neg x32)) (mul x10 (neg post)) = neg (sub (mul pre x32) (mul x10 post)) := by
  rw [mul_neg, mul_neg, sub, sub, neg_add]

theorem pre_swap (x0 y0 x1 y1 : F64) :
    sub (mul x1 y0) (mul y1 x0) = neg (sub (mul x0 y1) (mul y0 x1)) := by
  rw [mul_comm x1 y0, mul_comm y1 x0, sub_swap]

/-- Exchanging the two end points of the first line leaves the result of the
binary64 `line_intersect` with `strict = false` unchanged. -/
theorem line_intersect_swap_first (x0 y0 x1 y1 x2 y2 x3 y3 : F64) :
    line_intersect x1 y1 x0 y0 x2 y2 x3 y3 false
      = line_intersect x0 y0 x1 y1 x2 y2 x3 y3 false := by
  unfold line_intersect
  simp only []
  rw [sub_swap x0 x1, sub_swap y0 y1, pre_swap x0 y0 x1 y1]
  generalize sub x0 x1 = x10
  generalize sub y0 y1 = y10
  generalize sub x2 x3 = x32
  generalize sub y2 y3 = y32
  generalize sub (mul x0 y1) (mul y0 x1) = pre
  generalize sub (mul x2 y3) (mul y2 x3) = post
  rw [eq_neg_zero, eq_neg_zero]
  cases hz : (eq x10 zero && eq y10 zero || eq x32 zero && eq y32 zero)
  · simp only [Bool.false_eq_true, if_false]
    rw [det_swap_first x10 y10 x32 y32, eq_neg_zero]
    cases hd : eq (sub (mul x10 y32) (mul y10 x32)) zero
    · simp only [Bool.false_eq_true, if_false]
      rw [num_swap_first pre post x10 x32, num_swap_first pre post y10 y32,
        div_neg_neg _ _ hd, div_neg_neg _ _ hd]
    · rfl
  · rfl

/-- Exchanging the two end points of the second line leaves the result of the
binary64 `line_intersect` with `strict = false` unchanged. -/
theorem line_intersect_swap_second (x0 y0 x1 y1 x2 y2 x3 y3 : F64) :
    line_intersect x0 y0 x1 y1 x3 y3 x2 y2 false
      = line_intersect x0 y0 x1 y1 x2 y2 x3 y3 false := by
  unfold line_intersect
  simp only []
  rw [sub_swap x2 x3, sub_swap y2 y3, pre_swap x2 y2 x3 y3]
  generalize sub x0 x1 = x10
  generalize sub y0 y1 = y10
  generalize sub x2 x3 = x32
  generalize sub y2 y3 = y32
  generalize sub (mul x0 y1) (mul y0 x1) = pre
  generalize sub (mul x2 y3) (mul y2 x3) = post
  rw [eq_neg_zero, eq_neg_zero]
  cases hz : (eq x10 zero && eq y10 zero || eq x32 zero && eq y32 zero)
  · simp only [Bool.false_eq_true, if_false]
    rw [det_swap_second x10 y10 x32 y32, eq_neg_zero]
    cases hd : eq (sub (mul x10 y32) (mul y10 x32)) zero
    · simp only [Bool.false_eq_true, if_false]
      rw [num_swap_second pre post x10 x32, num_swap_second pre post y10 y32,
        div_neg_neg _ _ hd, div_neg_neg _ _ hd]
    · rfl
  · rfl


theorem ofInt_one : ofInt 1 = fin (scale : ℤ) := by decide

theorem ofInt_zero : ofInt 0 = zero := by decide

theorem lt_fin_nat (m : ℕ) : lt (fin (m : ℤ)) zero = false := by
  show decide ((m : ℤ) < 0) = false
  simp

theorem lt_pack_false (m : ℕ) : lt (pack false m) zero = false := by
  unfold pack
  split
  · rfl
  · exact lt_fin_nat m

theorem lt_roundQ_false (a b : ℕ) : lt (roundQ false a b) zero = false := by
  rw [roundQ, lt_pack_false]

theorem sqrt_not_neg (a : F64) : lt (sqrt a) zero = false := by
  cases a with
  | fin x =>
    unfold sqrt
    simp only []
    split
    · rfl
    · exact lt_fin_nat _
  | inf s => cases s <;> rfl
  | nan => rfl

theorem distance_not_neg (x y z : F64) : lt (distance x y z) zero = false :=
  sqrt_not_neg _

theorem div_not_neg (a b : F64) (ha : lt a zero = false) (hb : lt b zero = false) :
    lt (div a b) zero = false := by
  cases a with
  | fin x =>
    have hx : ¬ x < 0 := by
      intro h
      have : lt (fin x) zero = true := by
        show decide (x < 0) = true
        simp [h]
      rw [this] at ha
      exact absurd ha (by decide)
    cases b with
    | fin y =>
      have hy : ¬ y < 0 := by
        intro h
        have : lt (fin y) zero = true := by
          show decide (y < 0) = true
          simp [h]
        rw [this] at hb
        exact absurd hb (by decide)
      show lt (if y = 0 then (if x = 0 then nan else inf (decide (x < 0)))
          else roundQ (decide (x < 0) != decide (y < 0)) (x.natAbs * scale) y.natAbs) zero = false
      have hdx : decide (x < 0) = false := by simp [hx]
      have hdy : decide (y < 0) = false := by simp [hy]
      rw [hdx, hdy]
      by_cases h0 : y = 0
      · rw [if_pos h0]
        by_cases h1 : x = 0
        · rw [if_pos h1]
          rfl
        · rw [if_neg h1]
          rfl
      · rw [if_neg h0]
        exact lt_roundQ_false _ _
    | inf t => rfl
    | nan => rfl
  | inf s =>
    have hs : s = false := ha
    subst hs
    cases b with
    | fin y =>
      have hy : ¬ y < 0 := by
        intro h
        have : lt (fin y) zero = true := by
          show decide (y < 0) = true
          simp [h]
        rw [this] at hb
        exact absurd hb (by decide)
      show lt (inf (false != decide (y < 0))) zero = false
      have hdy : decide (y < 0) = false := by simp [hy]
      rw [hdy]
      rfl
    | inf t => rfl
    | nan => rfl
  | nan => cases b <;> rfl

/-- The two exits of the binary64 `stretch`: the zero vector when the computed
length is `0.0`, the coordinates times `length / cur_length` otherwise, with a
divisor that is not zero; the factor is not negative when `length` is not. -/
theorem stretch_cases (x y z length : F64) :
    (eq (distance x y z) zero = true → stretch x y z length = (zero, zero, zero))
      ∧ (eq (distance x y z) zero = false →
          stretch x y z length
            = (mul x (div length (distance x y z)), mul y (div length (distance x y z)),
               mul z (div length (distance x y z))))
      ∧ (lt length zero = false → lt (div length (distance x y z)) zero = false) := by
  refine ⟨?_, ?_, ?_⟩
  · intro h
    unfold stretch
    simp only [h, if_true]
  · intro h
    unfold stretch
    simp only [h, Bool.false_eq_true, if_false]
  · intro h
    exact div_not_neg _ _ h (distance_not_neg x y z)

theorem stretch_zero (length : F64) : stretch zero zero zero length = (zero, zero, zero) := by
  have h : eq (distance zero zero zero) zero = true := by decide
  exact (stretch_cases zero zero zero length).1 h

theorem lt_le_false (a b : F64) (h : lt a b = true) : le b a = false := by
  cases a with
  | fin x =>
    cases b with
    | fin y =>
      have hxy : x < y := by
        have : decide (x < y) = true := h
        simpa using this
      show (decide (y < x) || decide (y = x)) = false
      have h1 : ¬ y < x := by omega
      have h2 : ¬ y = x := by omega
      simp [h1, h2]
    | inf t =>
      have ht : t = false := by
        have : (!t) = true := h
        simpa using this
      subst ht
      rfl
    | nan => exact absurd h (by simp [lt])
  | inf s =>
    cases b with
    | fin y =>
      have hs : s = true := h
      subst hs
      rfl
    | inf t =>
      have hst : (s && !t) = true := h
      cases s <;> cases t <;> first | rfl | exact absurd hst (by decide)
    | nan => exact absurd h (by simp [lt])
  | nan => cases b <;> exact absurd h (by simp [lt])

/-- The binary64 `degree` is `deg (acos q)`, negated exactly when the computed
`x1 * y2 - y1 * x2` is below zero; an argument `q` above 1 makes `acos` return
a NaN. -/
theorem degree_cases (acos deg : F64 → F64) (x1 y1 z1 x2 y2 z2 : F64) :
    (lt (sub (mul x1 y2) (mul y1 x2)) zero = true →
        degree acos deg x1 y1 z1 x2 y2 z2
          = mul (deg (acosC acos (degreeArg x1 y1 z1 x2 y2 z2))) (ofInt (-1)))
      ∧ (lt (sub (mul x1 y2) (mul y1 x2)) zero = false →
        degree acos deg x1 y1 z1 x2 y2 z2 = deg (acosC acos (degreeArg x1 y1 z1 x2 y2 z2)))
      ∧ (lt (ofInt 1) (degreeArg x1 y1 z1 x2 y2 z2) = true →
        acosC acos (degreeArg x1 y1 z1 x2 y2 z2) = nan) := by
  refine ⟨?_, ?_, ?_⟩
  · intro h
    unfold degree
    simp only [h, if_true]
  · intro h
    unfold degree
    simp only [h, Bool.false_eq_true, if_false]
  · intro h
    unfold acosC
    rw [lt_le_false _ _ h, Bool.and_false]
    rfl

/-- The binary64 `round` evaluates the formulas of the code with every
operation rounded. -/
theorem round_cases (x dec : F64) :
    (eq dec zero = false → le (ofInt 1) dec = true →
        round x dec = div (floor (add (mul x (pow10 (floor dec))) (lit 1 2))) (pow10 (floor dec)))
      ∧ (le (ofInt 1) dec = false → round x dec = floor (add x (lit 1 2))) := by
  refine ⟨?_, ?_⟩
  · intro h0 h1
    unfold round
    simp only [h0, h1, Bool.not_false, Bool.and_self, if_true]
  · intro h1
    unfold round
    simp only [h1, Bool.and_false, Bool.false_eq_true, if_false]

theorem floor_floor (x : F64) : floor (floor x) = floor x := by
  cases x with
  | fin n =>
    have hs : (scale : ℤ) ≠ 0 := by
      have h : 0 < scale := by
        unfold scale
        exact Nat.two_pow_pos 1074
      exact_mod_cast Nat.pos_iff_ne_zero.mp h
    show fin (n / (scale : ℤ) * (scale : ℤ) / (scale : ℤ) * (scale : ℤ))
      = fin (n / (scale : ℤ) * (scale : ℤ))
    rw [Int.mul_ediv_cancel _ hs]
  | inf s => rfl
  | nan => rfl

/-- For `dec < 1` the binary64 `round` returns a value that `floor` leaves
unchanged: a whole number, an infinity or a NaN. -/
theorem round_whole (x dec : F64) (h : le (ofInt 1) dec = false) :
    floor (round x dec) = round x dec := by
  rw [(round_cases x dec).2 h, floor_floor]

/-- In binary64 `fac(k)` is finite for every whole `k` from 0 to 170. -/
theorem fac_finite_upto :
    ∀ k ∈ List.range 171, (fac (ofInt (k : ℤ)) 200).map isFin = some true := by
  decide

theorem segParam_divisor (ix iy x1 y1 x10 y10 : F64)
    (h : (eq x10 zero && eq y10 zero) = false) :
    ∃ num d, eq d zero = false ∧ segParam ix iy x1 y1 x10 y10 = div num d := by
  unfold segParam
  cases hx : eq x10 zero
  · exact ⟨sub ix x1, x10, hx, by simp⟩
  · have hy : eq y10 zero = false := by
      rw [hx] at h
      simpa using h
    exact ⟨sub iy y1, y10, hy, by simp⟩

/-- The binary64 `line_intersect` on segments of non-zero length with a
non-zero determinant: the point `(ix, iy)` for `strict = false`; for
`strict = true` either that same point or `(+inf, +inf)`, the latter exactly
when one of the computed parameters `s`, `t` is below 0 or above 1; every
division has a divisor other than zero. -/
theorem line_intersect_strict_cases (x0 y0 x1 y1 x2 y2 x3 y3 : F64)
    (hlen : (eq (sub x0 x1) zero && eq (sub y0 y1) zero
        || eq (sub x2 x3) zero && eq (sub y2 y3) zero) = false)
    (hdet : eq (sub (mul (sub x0 x1) (sub y2 y3)) (mul (sub y0 y1) (sub x2 x3))) zero = false) :
    ∃ ix iy s t,
      line_intersect x0 y0 x1 y1 x2 y2 x3 y3 false = .ok (ix, iy)
      ∧ s = segParam ix iy x1 y1 (sub x0 x1) (sub y0 y1)
      ∧ t = segParam ix iy x3 y3 (sub x2 x3) (sub y2 y3)
      ∧ ((lt s zero || lt (ofInt 1) s || lt t zero || lt (ofInt 1) t) = true →
          line_intersect x0 y0 x1 y1 x2 y2 x3 y3 true = .ok (inf false, inf false))
      ∧ ((lt s zero || lt (ofInt 1) s || lt t zero || lt (ofInt 1) t) = false →
          line_intersect x0 y0 x1 y1 x2 y2 x3 y3 true = .ok (ix, iy))
      ∧ (∃ num d, eq d zero = false ∧ ix = div num d)
      ∧ (∃ num d, eq d zero = false ∧ iy = div num d)
      ∧ (∃ num d, eq d zero = false ∧ s = div num d)
      ∧ (∃ num d, eq d zero = false ∧ t = div num d) := by
  have h1 : (eq (sub x0 x1) zero && eq (sub y0 y1) zero) = false := by
    cases h : (eq (sub x0 x1) zero && eq (sub y0 y1) zero)
    · rfl
    · rw [h] at hlen
      exact absurd hlen (by simp)
  have h2 : (eq (sub x2 x3) zero && eq (sub y2 y3) zero) = false := by
    cases h : (eq (sub x2 x3) zero && eq (sub y2 y3) zero)
    · rfl
    · rw [h] at hlen
      exact absurd hlen (by simp)
  refine ⟨div (sub (mul (sub (mul x0 y1) (mul y0 x1)) (sub x2 x3))
        (mul (sub x0 x1) (sub (mul x2 y3) (mul y2 x3))))
      (sub (mul (sub x0 x1) (sub y2 y3)) (mul (sub y0 y1) (sub x2 x3))),
    div (sub (mul (sub (mul x0 y1) (mul y0 x1)) (sub y2 y3))
        (mul (sub y0 y1) (sub (mul x2 y3) (mul y2 x3))))
      (sub (mul (sub x0 x1) (sub y2 y3)) (mul (sub y0 y1) (sub x2 x3))),
    _, _, ?_, rfl, rfl, ?_, ?_, ⟨_, _, hdet, rfl⟩, ⟨_, _, hdet, rfl⟩, ?_, ?_⟩
  · unfold line_intersect
    simp only [hlen, hdet, Bool.false_eq_true, if_false]
  · intro h
    unfold line_intersect
    simp only [hlen, hdet, Bool.false_eq_true, if_false, if_true, h]
  · intro h
    unfold line_intersect
    simp only [hlen, hdet, Bool.false_eq_true, if_false, if_true, h]
  · exact segParam_divisor _ _ x1 y1 _ _ h1
  · exact segParam_divisor _ _ x3 y3 _ _ h2


theorem arcSegment_first_last (rotate2d : F64 → F64 → F64 → F64 × F64)
    (cx cy angle cw kappa rx0 ry0 angle_sum : F64) :
    ∃ p1 p2, (arcSegment rotate2d cx cy angle cw kappa rx0 ry0 angle_sum).1
      = [(add cx rx0, add cy ry0), p1, p2,
         (add cx (arcSegment rotate2d cx cy angle cw kappa rx0 ry0 angle_sum).2.1,
          add cy (arcSegment rotate2d cx cy angle cw kappa rx0 ry0 angle_sum).2.2)] :=
  ⟨_, _, rfl⟩

/-- The curves the binary64 loop of `arc_curve` appends form a chain: the
first starts at the current start vector and each later one starts at the very
pair at which the one before it ends. -/
theorem arcLoop_joined (rotate2d : F64 → F64 → F64 → F64 × F64) (cx cy angle cw kappa : F64) :
    ∀ (fuel : ℕ) (rx0 ry0 angle_sum : F64) (curves out : List (F64 × F64)),
      arcLoop rotate2d cx cy angle cw kappa fuel rx0 ry0 angle_sum curves = some out →
      ∃ ext, out = curves ++ ext
        ∧ (lt angle_sum angle = true → 0 < ext.length)
        ∧ (0 < ext.length → ext[0]? = some (add cx rx0, add cy ry0))
        ∧ ∀ k, 4 * (k + 1) < ext.length → ext[4 * (k + 1)]? = ext[4 * k + 3]? := by
  intro fuel
  induction fuel with
  | zero =>
    intro rx0 ry0 angle_sum curves out h
    exact absurd h (by simp [arcLoop])
  | succ n ih =>
    intro rx0 ry0 angle_sum curves out h
    rw [arcLoop] at h
    cases hlt : lt angle_sum angle
    · rw [hlt] at h
      simp only [Bool.false_eq_true, if_false, Option.some.injEq] at h
      refine ⟨[], by rw [← h, List.append_nil], ?_, ?_, ?_⟩
      · intro hc
        exact absurd hc (by simp)
      · intro hc
        exact absurd hc (by simp)
      · intro k hk
        simp at hk
    · rw [hlt] at h
      simp only [if_true] at h
      obtain ⟨p1, p2, hseg⟩ := arcSegment_first_last rotate2d cx cy angle cw kappa rx0 ry0 angle_sum
      rw [hseg] at h
      obtain ⟨ext, hout, _, hfirst, hchain⟩ := ih _ _ _ _ _ h
      generalize (arcSegment rotate2d cx cy angle cw kappa rx0 ry0 angle_sum).2.1 = rx3
        at hout hfirst
      generalize (arcSegment rotate2d cx cy angle cw kappa rx0 ry0 angle_sum).2.2 = ry3
        at hout hfirst
      refine ⟨[(add cx rx0, add cy ry0), p1, p2, (add cx rx3, add cy ry3)] ++ ext, ?_, ?_, ?_, ?_⟩
      · rw [hout, List.append_assoc]
      · intro _
        simp
      · intro _
        rfl
      · intro k hk
        simp only [List.length_append, List.length_cons, List.length_nil] at hk
        cases k with
        | zero =>
          have hn0 : 0 < ext.length := by omega
          have h4 : ([(add cx rx0, add cy ry0), p1, p2, (add cx rx3, add cy ry3)] ++ ext)[4 * (0 + 1)]?
              = ext[0]? := by
            rw [List.getElem?_append_right (by simp)]
            rfl
          rw [h4, hfirst hn0]
          simp
        | succ j =>
          have hj : 4 * (j + 1) < ext.length := by omega
          have ha : ([(add cx rx0, add cy ry0), p1, p2, (add cx rx3, add cy ry3)] ++ ext)[4 * (j + 1 + 1)]?
              = ext[4 * (j + 1)]? := by
            rw [List.getElem?_append_right (by simp)]
            congr 1
          have hb : ([(add cx rx0, add cy ry0), p1, p2, (add cx rx3, add cy ry3)] ++ ext)[4 * (j + 1) + 3]?
              = ext[4 * j + 3]? := by
            rw [List.getElem?_append_right (by simp; omega)]
            congr 1
          rw [ha, hb]
          exact hchain j hj

/-- With an angle of at most 360 the binary64 loop of `arc_curve`, started at
`angle_sum = 0`, ends within five tests of its condition. -/
theorem arcLoop_returns (rotate2d : F64 → F64 → F64 → F64 × F64) (cx cy angle cw kappa : F64)
    (hmax : lt (ofInt 360) angle = false) (rx0 ry0 : F64) (curves : List (F64 × F64)) :
    ∃ out, arcLoop rotate2d cx cy angle cw kappa 5 rx0 ry0 zero curves = some out := by
  have h360 : ∀ rx ry c, ∃ out,
      arcLoop rotate2d cx cy angle cw kappa 1 rx ry (ofInt 360) c = some out := by
    intro rx ry c
    rw [arcLoop, hmax]
    exact ⟨c, rfl⟩
  have step : ∀ (fuel : ℕ) (a b : F64), add a (ofInt 90) = b →
      (∀ rx ry c, ∃ out, arcLoop rotate2d cx cy angle cw kappa fuel rx ry b c = some out) →
      ∀ rx ry c, ∃ out,
        arcLoop rotate2d cx cy angle cw kappa (fuel + 1) rx ry a c = some out := by
    intro fuel a b hab hb rx ry c
    rw [arcLoop]
    cases hlt : lt a angle
    · exact ⟨c, by simp⟩
    · simp only [if_true]
      rw [hab]
      exact hb _ _ _
  have h270 := step 1 (ofInt 270) (ofInt 360) (by decide) h360
  have h180 := step 2 (ofInt 180) (ofInt 270) (by decide) h270
  have h90 := step 3 (ofInt 90) (ofInt 180) (by decide) h180
  have h0 := step 4 zero (ofInt 90) (by decide) h90
  exact h0 rx0 ry0 curves

/-- In binary64, for an angle above 0 and at most 360, `arc_curve` returns
a list of pairs whose first pair is `(cx + (x - cx), cy + (y - cy))`, every
operation rounded, and in which every curve after the first starts at the very
pair at which the curve before it ends. -/
theorem arc_curve_chain (rotate2d : F64 → F64 → F64 → F64 × F64) (kappa x y cx cy angle : F64)
    (hpos : lt zero angle = true) (hmax : lt (ofInt 360) angle = false) :
    ∃ curves, arc_curve rotate2d kappa x y cx cy angle 5 = some (.ok curves)
      ∧ curves[0]? = some (add cx (sub x cx), add cy (sub y cy))
      ∧ ∀ k, 4 * (k + 1) < curves.length → curves[4 * (k + 1)]? = curves[4 * k + 3]? := by
  have hlow : lt angle (ofInt (-360)) = false := by
    cases angle with
    | fin a =>
      have ha : 0 < a := by
        have : decide ((0 : ℤ) < a) = true := hpos
        simpa using this
      have h360 : ofInt (-360) = fin (-(360 * (scale : ℤ))) := by decide
      rw [h360]
      show decide (a < -(360 * (scale : ℤ))) = false
      have hs : (0 : ℤ) ≤ (scale : ℤ) := Int.ofNat_nonneg _
      have : ¬ a < -(360 * (scale : ℤ)) := by omega
      simp [this]
    | inf s =>
      have hs : s = false := by
        have : (!s) = true := hpos
        simpa using this
      subst hs
      rfl
    | nan => exact absurd hpos (by simp [lt])
  have hne : eq angle zero = false := by
    cases angle with
    | fin a =>
      have ha : 0 < a := by
        have : decide ((0 : ℤ) < a) = true := hpos
        simpa using this
      show decide (a = 0) = false
      have : ¬ a = 0 := by omega
      simp [this]
    | inf s => rfl
    | nan => rfl
  obtain ⟨out, hout⟩ := arcLoop_returns rotate2d cx cy angle (ofInt 1) kappa hmax
    (sub x cx) (sub y cy) []
  obtain ⟨ext, hext, hlen, hfirst, hchain⟩ :=
    arcLoop_joined rotate2d cx cy angle (ofInt 1) kappa 5 _ _ _ _ _ hout
  rw [List.nil_append] at hext
  subst hext
  refine ⟨out, ?_, hfirst (hlen hpos), hchain⟩
  unfold arc_curve
  simp only [hlow, hmax, hne, hpos, Bool.or_self, Bool.false_eq_true, if_false, if_true]
  rw [hout]
  rfl


theorem not_neg_fin (x : ℤ) (h : lt (fin x) zero = false) : ¬ x < 0 := by
  intro hx
  have : lt (fin x) zero = true := by
    show decide (x < 0) = true
    simp [hx]
  rw [this] at h
  exact absurd h (by decide)

theorem mul_not_neg (a b : F64) (ha : lt a zero = false) (hb : lt b zero = false) :
    lt (mul a b) zero = false := by
  cases a with
  | fin x =>
    have hx := not_neg_fin x ha
    have hdx : decide (x < 0) = false := by simp [hx]
    cases b with
    | fin y =>
      have hy := not_neg_fin y hb
      have hdy : decide (y < 0) = false := by simp [hy]
      show lt (roundQ (decide (x < 0) != decide (y < 0)) (x.natAbs * y.natAbs) scale) zero = false
      rw [hdx, hdy]
      exact lt_roundQ_false _ _
    | inf t =>
      have ht : t = false := hb
      subst ht
      show lt (if x = 0 then nan else inf (decide (x < 0) != false)) zero = false
      rw [hdx]
      split <;> rfl
    | nan => rfl
  | inf s =>
    have hs : s = false := ha
    subst hs
    cases b with
    | fin y =>
      have hy := not_neg_fin y hb
      have hdy : decide (y < 0) = false := by simp [hy]
      show lt (if y = 0 then nan else inf (false != decide (y < 0))) zero = false
      rw [hdy]
      split <;> rfl
    | inf t =>
      have ht : t = false := hb
      subst ht
      rfl
    | nan => rfl
  | nan => cases b <;> rfl

theorem add_not_neg (a b : F64) (ha : lt a zero = false) (hb : lt b zero = false) :
    lt (add a b) zero = false := by
  cases a with
  | fin x =>
    have hx := not_neg_fin x ha
    cases b with
    | fin y =>
      have hy := not_neg_fin y hb
      show lt (roundQ (decide (x + y < 0)) (x + y).natAbs 1) zero = false
      have hd : decide (x + y < 0) = false := by
        have : ¬ x + y < 0 := by omega
        simp [this]
      rw [hd]
      exact lt_roundQ_false _ _
    | inf t => exact hb
    | nan => rfl
  | inf s =>
    have hs : s = false := ha
    subst hs
    cases b with
    | fin y => rfl
    | inf t =>
      have ht : t = false := hb
      subst ht
      rfl
    | nan => rfl
  | nan => cases b <;> rfl

theorem one_sub_not_neg (pct : F64) (h1 : lt (ofInt 1) pct = false) :
    lt (sub (ofInt 1) pct) zero = false := by
  rw [ofInt_one] at h1 ⊢
  cases pct with
  | fin p =>
    have hp : ¬ (scale : ℤ) < p := by
      intro hc
      have : lt (fin (scale : ℤ)) (fin p) = true := by
        show decide ((scale : ℤ) < p) = true
        simp [hc]
      rw [this] at h1
      exact absurd h1 (by decide)
    show lt (roundQ (decide ((scale : ℤ) + -p < 0)) ((scale : ℤ) + -p).natAbs 1) zero = false
    have hd : decide ((scale : ℤ) + -p < 0) = false := by
      have : ¬ (scale : ℤ) + -p < 0 := by omega
      simp [this]
    rw [hd]
    exact lt_roundQ_false _ _
  | inf s =>
    have hs : s = true := by
      have : (!s) = false := h1
      simpa using this
    subst hs
    rfl
  | nan => rfl

theorem ofInt_not_neg_two : lt (ofInt 2) zero = false := by decide

theorem ofInt_not_neg_three : lt (ofInt 3) zero = false := by decide

theorem zero_not_neg : lt zero zero = false := by decide

/-- In binary64, with `0 <= pct <= 1` and control points none of whose
coordinates is below zero, no coordinate that `bezier2`, `bezier3` or
`bezier4` returns is below zero: every blending weight the code computes is
non-negative. -/
theorem bezier_closed_not_neg (pct : F64) (pts : List (F64 × F64 × F64)) (is3D : Bool)
    (h0 : lt pct zero = false) (h1 : lt (ofInt 1) pct = false)
    (hpts : ∀ p ∈ pts, lt p.1 zero = false ∧ lt p.2.1 zero = false ∧ lt p.2.2 zero = false)
    (r : F64 × F64 × F64)
    (hr : bezier2 pct pts is3D = .ok r ∨ bezier3 pct pts is3D = .ok r
      ∨ bezier4 pct pts is3D = .ok r) :
    lt r.1 zero = false ∧ lt r.2.1 zero = false ∧ lt r.2.2 zero = false := by
  have hi := one_sub_not_neg pct h1
  have hat : ∀ i p, vecAt pts i = .ok p →
      lt p.1 zero = false ∧ lt p.2.1 zero = false ∧ lt p.2.2 zero = false := by
    intro i p hp
    unfold vecAt at hp
    cases hget : pts[i]? with
    | none =>
      rw [hget] at hp
      cases hp
    | some q =>
      rw [hget] at hp
      injection hp with hp
      subst hp
      exact hpts q (List.getElem?_mem hget)
  rcases hr with hr | hr | hr
  · unfold bezier2 at hr
    cases h0' : vecAt pts 0 with
    | error e => rw [h0'] at hr; cases hr
    | ok p0 =>
      cases h1' : vecAt pts 1 with
      | error e => rw [h0', h1'] at hr; cases hr
      | ok p1 =>
        rw [h0', h1'] at hr
        injection hr with hr
        subst hr
        obtain ⟨a1, a2, a3⟩ := hat 0 p0 h0'
        obtain ⟨b1, b2, b3⟩ := hat 1 p1 h1'
        refine ⟨?_, ?_, ?_⟩
        · exact add_not_neg _ _ (mul_not_neg _ _ hi a1) (mul_not_neg _ _ h0 b1)
        · exact add_not_neg _ _ (mul_not_neg _ _ hi a2) (mul_not_neg _ _ h0 b2)
        · cases is3D
          · exact zero_not_neg
          · exact add_not_neg _ _ (mul_not_neg _ _ hi a3) (mul_not_neg _ _ h0 b3)
  · unfold bezier3 at hr
    cases h0' : vecAt pts 0 with
    | error e => rw [h0'] at hr; cases hr
    | ok p0 =>
      cases h1' : vecAt pts 1 with
      | error e => rw [h0', h1'] at hr; cases hr
      | ok p1 =>
        cases h2' : vecAt pts 2 with
        | error e => rw [h0', h1', h2'] at hr; cases hr
        | ok p2 =>
          rw [h0', h1', h2'] at hr
          injection hr with hr
          subst hr
          obtain ⟨a1, a2, a3⟩ := hat 0 p0 h0'
          obtain ⟨b1, b2, b3⟩ := hat 1 p1 h1'
          obtain ⟨c1, c2, c3⟩ := hat 2 p2 h2'
          have w0 := mul_not_neg _ _ hi hi
          have w1 := mul_not_neg _ _ (mul_not_neg _ _ ofInt_not_neg_two hi) h0
          have w2 := mul_not_neg _ _ h0 h0
          refine ⟨?_, ?_, ?_⟩
          · exact add_not_neg _ _ (add_not_neg _ _ (mul_not_neg _ _ w0 a1)
              (mul_not_neg _ _ w1 b1)) (mul_not_neg _ _ w2 c1)
          · exact add_not_neg _ _ (add_not_neg _ _ (mul_not_neg _ _ w0 a2)
              (mul_not_neg _ _ w1 b2)) (mul_not_neg _ _ w2 c2)
          · cases is3D
            · exact zero_not_neg
            · exact add_not_neg _ _ (add_not_neg _ _ (mul_not_neg _ _ w0 a3)
                (mul_not_neg _ _ w1 b3)) (mul_not_neg _ _ w2 c3)
  · unfold bezier4 at hr
    cases h0' : vecAt pts 0 with
    | error e => rw [h0'] at hr; cases hr
    | ok p0 =>
      cases h1' : vecAt pts 1 with
      | error e => rw [h0', h1'] at hr; cases hr
      | ok p1 =>
        cases h2' : vecAt pts 2 with
        | error e => rw [h0', h1', h2'] at hr; cases hr
        | ok p2 =>
          cases h3' : vecAt pts 3 with
          | error e => rw [h0', h1', h2', h3'] at hr; cases hr
          | ok p3 =>
            rw [h0', h1', h2', h3'] at hr
            injection hr with hr
            subst hr
            obtain ⟨a1, a2, a3⟩ := hat 0 p0 h0'
            obtain ⟨b1, b2, b3⟩ := hat 1 p1 h1'
            obtain ⟨c1, c2, c3⟩ := hat 2 p2 h2'
            obtain ⟨d1, d2, d3⟩ := hat 3 p3 h3'
            have w0 := mul_not_neg _ _ (mul_not_neg _ _ hi hi) hi
            have w1 := mul_not_neg _ _
              (mul_not_neg _ _ (mul_not_neg _ _ ofInt_not_neg_three hi) hi) h0
            have w2 := mul_not_neg _ _
              (mul_not_neg _ _ (mul_not_neg _ _ ofInt_not_neg_three hi) h0) h0
            have w3 := mul_not_neg _ _ (mul_not_neg _ _ h0 h0) h0
            refine ⟨?_, ?_, ?_⟩
            · exact add_not_neg _ _ (add_not_neg _ _ (add_not_neg _ _ (mul_not_neg _ _ w0 a1)
                (mul_not_neg _ _ w1 b1)) (mul_not_neg _ _ w2 c1)) (mul_not_neg _ _ w3 d1)
            · exact add_not_neg _ _ (add_not_neg _ _ (add_not_neg _ _ (mul_not_neg _ _ w0 a2)
                (mul_not_neg _ _ w1 b2)) (mul_not_neg _ _ w2 c2)) (mul_not_neg _ _ w3 d2)
            · cases is3D
              · exact zero_not_neg
              · exact add_not_neg _ _ (add_not_neg _ _ (add_not_neg _ _
                  (mul_not_neg _ _ w0 a3) (mul_not_neg _ _ w1 b3)) (mul_not_neg _ _ w2 c3))
                  (mul_not_neg _ _ w3 d3)

end F64

/-- C1. For `pct` in `[0,1]` and 2, 3 or 4 control points, `bezier` with
`is3D = true` returns in each coordinate the standard Bernstein form
`sum C(n,i) pct^i (1-pct)^(n-i) P_i`; at `pct = 0` it returns the first
control point and at `pct = 1` the last one. -/
theorem bezier_closed_form_is_bernstein (pct : ℚ) (pts : List Point3)
    (h0 : 0 ≤ pct) (h1 : pct ≤ 1)
    (hlen : pts.length = 2 ∨ pts.length = 3 ∨ pts.length = 4) :
    bezier pct pts true =
        .ok (bernsteinSum (fun p => p.1) pct pts, bernsteinSum (fun p => p.2.1) pct pts,
             bernsteinSum (fun p => p.2.2) pct pts)
      ∧ (bezier 0 pts true).toOption = pts.head?
      ∧ (bezier 1 pts true).toOption = pts.getLast? := by
  have hn0 : ¬ (pct < 0 ∨ pct > 1) := by
    intro h; rcases h with h | h <;> linarith
  rcases hlen with h | h | h
  · obtain ⟨a, b, rfl⟩ := List.length_eq_two.mp h
    refine ⟨?_, ?_, ?_⟩
    · simp [bezier, hn0, bezier2, vecAt, bernsteinSum, Finset.sum_range_succ, bind, Except.bind,
        pure, Except.pure]
    · norm_num [bezier, bezier2, vecAt, bind, Except.bind, pure, Except.pure, Except.toOption]
    · norm_num [bezier, bezier2, vecAt, bind, Except.bind, pure, Except.pure, Except.toOption]
  · obtain ⟨a, b, c, rfl⟩ := List.length_eq_three.mp h
    refine ⟨?_, ?_, ?_⟩
    · simp [bezier, hn0, bezier3, vecAt, bernsteinSum, Finset.sum_range_succ, bind, Except.bind,
        pure, Except.pure]
      refine ⟨?_, ?_, ?_⟩ <;> ring
    · norm_num [bezier, bezier3, vecAt, bind, Except.bind, pure, Except.pure, Except.toOption]
    · norm_num [bezier, bezier3, vecAt, bind, Except.bind, pure, Except.pure, Except.toOption]
  · obtain ⟨a, b, c, d, rfl⟩ : ∃ a b c d, pts = [a, b, c, d] := by
      match pts, h with
      | [a, b, c, d], _ => exact ⟨a, b, c, d, rfl⟩
    refine ⟨?_, ?_, ?_⟩
    · simp [bezier, hn0, bezier4, vecAt, bernsteinSum, Finset.sum_range_succ, bind, Except.bind,
        pure, Except.pure, Nat.choose]
      refine ⟨?_, ?_, ?_⟩ <;> ring
    · norm_num [bezier, bezier4, vecAt, bind, Except.bind, pure, Except.pure, Except.toOption]
    · norm_num [bezier, bezier4, vecAt, bind, Except.bind, pure, Except.pure, Except.toOption]

/-- Witness of C1 on a straight segment evaluated at its middle. -/
theorem bezier_closed_form_is_bernstein_witness :
    bezier (1 / 2) [(0, 0, 0), (2, 4, 6)] true =
        .ok (bernsteinSum (fun p => p.1) (1 / 2) [(0, 0, 0), (2, 4, 6)],
             bernsteinSum (fun p => p.2.1) (1 / 2) [(0, 0, 0), (2, 4, 6)],
             bernsteinSum (fun p => p.2.2) (1 / 2) [(0, 0, 0), (2, 4, 6)])
      ∧ (bezier 0 [(0, 0, 0), (2, 4, 6)] true).toOption = [((0 : ℚ), (0 : ℚ), (0 : ℚ)), (2, 4, 6)].head?
      ∧ (bezier 1 [(0, 0, 0), (2, 4, 6)] true).toOption
          = [((0 : ℚ), (0 : ℚ), (0 : ℚ)), (2, 4, 6)].getLast? :=
  bezier_closed_form_is_bernstein (1 / 2) [(0, 0, 0), (2, 4, 6)] (by norm_num) (by norm_num)
    (Or.inl rfl)

/-- C3, amended.  In exact arithmetic, for `pct` in `[0,1]` and 5 to 171
control points `P_0..P_n`, `bezier` returns in the x and y coordinates, and in
z when `is3D` is set, `sum_i P_i * (C(n,i) * pct^i + (1-pct)^(n-i))`: the
factor `(1-pct)^(n-i)` is added to the binomial term; with `is3D = false` the
z coordinate is 0.  Here `C(n,i) = fac(n) / (fac(i) * fac(n-i))` is the
binomial coefficient and `fac` the factorial, for the arguments up to 170
that occur.  Binary64: `fac(k)` is finite for every whole `k` up to 170 (it is
`+inf` from 171 on). -/
theorem bezier_generic_adds_inverse_power (pct : ℚ) (pts : List Point3) (is3D : Bool)
    (h0 : 0 ≤ pct) (h1 : pct ≤ 1) (hlen : 5 ≤ pts.length) (_hmax : pts.length ≤ 171) :
    bezier pct pts is3D =
        .ok (addedBernsteinSum (fun p => p.1) pct pts,
             addedBernsteinSum (fun p => p.2.1) pct pts,
             if is3D then addedBernsteinSum (fun p => p.2.2) pct pts else 0)
      ∧ (∀ k : ℕ, k ≤ 170 → fac (k : ℚ) = (k.factorial : ℚ))
      ∧ (∀ k : ℕ, k ≤ 170 → (F64.fac (F64.ofInt (k : ℤ)) 200).map F64.isFin = some true)
      ∧ (∀ i : ℕ, i ≤ pts.length - 1 →
          fdiv (fac ((pts.length - 1 : ℕ) : ℚ))
              (fac (i : ℚ) * fac ((pts.length - 1 - i : ℕ) : ℚ))
            = .ok (((pts.length - 1).choose i : ℕ) : ℚ)) := by
  refine ⟨?_, fun k _ => fac_natCast k,
    fun k hk => F64.fac_finite_upto k (List.mem_range.mpr (Nat.lt_succ_of_le hk)), ?_⟩
  · rw [bezier_of_five pct pts is3D h0 h1 hlen]
    exact bezierN_eq pct pts is3D (by intro h; simp [h] at hlen)
  · intro i hi
    have hne : fac (i : ℚ) * fac ((pts.length - 1 - i : ℕ) : ℚ) ≠ 0 :=
      mul_ne_zero (fac_natCast_ne_zero i) (fac_natCast_ne_zero _)
    rw [fdiv, if_neg hne, Nat.cast_choose ℚ hi]
    simp only [fac_natCast]

/-- Witness of C3 (amended) on five control points at `pct = 0`. -/
theorem bezier_generic_adds_inverse_power_witness :
    bezier 0 [(1, 0, 0), (0, 0, 0), (0, 0, 0), (0, 0, 0), (0, 1, 0)] true = .ok (2, 1, 0) := by
  have h := (bezier_generic_adds_inverse_power 0
    [(1, 0, 0), (0, 0, 0), (0, 0, 0), (0, 0, 0), (0, 1, 0)] true (by norm_num) (by norm_num)
    (by simp) (by simp)).1
  rw [h]
  norm_num [addedBernsteinSum, Finset.sum_range_succ, Nat.choose]

/-- C4. `bezier` throws `invalid_argument` exactly when `pct < 0`, `pct > 1` or
there are fewer than 2 control points; for `pct` in `[0,1]` and at least 2
points it returns a point. -/
theorem bezier_throws_iff (pct : ℚ) (pts : List Point3) (is3D : Bool) :
    ((∃ e, bezier pct pts is3D = .error e) ↔ (pct < 0 ∨ pct > 1 ∨ pts.length < 2))
      ∧ (∀ e, bezier pct pts is3D = .error e → ∃ what, e = .invalid_argument what)
      ∧ (0 ≤ pct → pct ≤ 1 → 2 ≤ pts.length → ∃ p, bezier pct pts is3D = .ok p) := by
  have hok : 0 ≤ pct → pct ≤ 1 → 2 ≤ pts.length → ∃ p, bezier pct pts is3D = .ok p := by
    intro h0 h1 hlen
    have hn0 : ¬ (pct < 0 ∨ pct > 1) := by
      intro h; rcases h with h | h <;> linarith
    by_cases h5 : 5 ≤ pts.length
    · exact ⟨_, (bezier_of_five pct pts is3D h0 h1 h5).trans
        (bezierN_eq pct pts is3D (by intro h; simp [h] at h5))⟩
    · match pts, hlen, h5 with
      | [a, b], _, _ =>
        exact ⟨_, by simp [bezier, hn0, bezier2, vecAt, bind, Except.bind, pure, Except.pure]; rfl⟩
      | [a, b, c], _, _ =>
        exact ⟨_, by simp [bezier, hn0, bezier3, vecAt, bind, Except.bind, pure, Except.pure]; rfl⟩
      | [a, b, c, d], _, _ =>
        exact ⟨_, by simp [bezier, hn0, bezier4, vecAt, bind, Except.bind, pure, Except.pure]; rfl⟩
      | a :: b :: c :: d :: e :: l, _, h5 => simp at h5
  have herr : (pct < 0 ∨ pct > 1 ∨ pts.length < 2) →
      ∃ what, bezier pct pts is3D = .error (.invalid_argument what) := by
    intro h
    by_cases hp : pct < 0 ∨ pct > 1
    · exact ⟨_, by rw [bezier, if_pos hp]⟩
    · have hl : pts.length < 2 := by
        rcases h with h | h | h
        · exact absurd (Or.inl h) hp
        · exact absurd (Or.inr h) hp
        · exact h
      exact ⟨_, by rw [bezier, if_neg hp]; simp only []; rw [if_pos hl]⟩
  have hdich : (pct < 0 ∨ pct > 1 ∨ pts.length < 2) ∨ (0 ≤ pct ∧ pct ≤ 1 ∧ 2 ≤ pts.length) := by
    by_cases ha : pct < 0
    · exact Or.inl (Or.inl ha)
    · by_cases hb : pct > 1
      · exact Or.inl (Or.inr (Or.inl hb))
      · by_cases hc : pts.length < 2
        · exact Or.inl (Or.inr (Or.inr hc))
        · exact Or.inr ⟨not_lt.mp ha, not_lt.mp hb, not_lt.mp hc⟩
  refine ⟨⟨?_, ?_⟩, ?_, hok⟩
  · rintro ⟨e, he⟩
    rcases hdich with h | ⟨h0, h1, h2⟩
    · exact h
    · obtain ⟨p, hp⟩ := hok h0 h1 h2
      rw [hp] at he
      cases he
  · intro h
    obtain ⟨what, hw⟩ := herr h
    exact ⟨_, hw⟩
  · intro e he
    rcases hdich with h | ⟨h0, h1, h2⟩
    · obtain ⟨what, hw⟩ := herr h
      rw [hw] at he
      injection he with he
      exact ⟨what, he.symm⟩
    · obtain ⟨p, hp⟩ := hok h0 h1 h2
      rw [hp] at he
      cases he

/-- C5. With `is3D = false`, `bezier` ignores the third component of every
control point and returns 0 as third component: for `pct` in `[0,1]` and two
lists of at least 2 control points that have the same length and agree in
their x and y components, the two results are the same returned point, whose
z is 0.  This holds for every order, 5 or more points included. -/
theorem bezier_2d_ignores_z (pct : ℚ) (pts qts : List Point3)
    (h0 : 0 ≤ pct) (h1 : pct ≤ 1) (hlen : 2 ≤ pts.length)
    (hxy : pts.map (fun p => (p.1, p.2.1)) = qts.map (fun p => (p.1, p.2.1))) :
    bezier pct pts false = bezier pct qts false
      ∧ ∃ x y, bezier pct pts false = .ok (x, y, 0) := by
  have hq : 2 ≤ qts.length := by
    have := congrArg List.length hxy
    simp only [List.length_map] at this
    omega
  have hflat : pts.map flatten = qts.map flatten := by
    have := congrArg (List.map (fun q : ℚ × ℚ => ((q.1, q.2, 0) : Point3))) hxy
    simpa [List.map_map, Function.comp_def, flatten] using this
  refine ⟨?_, (bezier_flat pct pts h0 h1 hlen).2⟩
  rw [(bezier_flat pct pts h0 h1 hlen).1, (bezier_flat pct qts h0 h1 hq).1, hflat]

/-- Witness of C5 on five control points that differ in z only. -/
theorem bezier_2d_ignores_z_witness :
    bezier (1 / 2) [(1, 2, 3), (0, 1, 5), (4, 0, 7), (0, 0, 9), (2, 2, 11)] false
        = bezier (1 / 2) [(1, 2, 0), (0, 1, 0), (4, 0, 1), (0, 0, 0), (2, 2, 8)] false
      ∧ ∃ x y, bezier (1 / 2) [(1, 2, 3), (0, 1, 5), (4, 0, 7), (0, 0, 9), (2, 2, 11)] false
          = .ok (x, y, 0) :=
  bezier_2d_ignores_z (1 / 2) [(1, 2, 3), (0, 1, 5), (4, 0, 7), (0, 0, 9), (2, 2, 11)]
    [(1, 2, 0), (0, 1, 0), (4, 0, 1), (0, 0, 0), (2, 2, 8)] (by norm_num) (by norm_num)
    (by simp) (by simp)

/-- C6. For `0 < angle <= 360`, `arc_curve` returns exactly
`4 * ceil(angle / 90)` coordinate pairs, one cubic curve of 4 control points
per started step of 90 degrees, hence at most 4 curves (16 pairs); 360 degrees
give 16 pairs and 90 degrees give 4 pairs. -/
theorem arc_curve_pair_count (sqrt : ℚ → ℚ) (rotate2d : ℚ → ℚ → ℚ → Point2)
    (x y cx cy angle : ℚ) (hpos : 0 < angle) (hle : angle ≤ 360) :
    ∃ curves, arc_curve sqrt rotate2d x y cx cy angle = .ok curves
      ∧ curves.length = 4 * (⌈angle / 90⌉).toNat
      ∧ curves.length ≤ 16
      ∧ (angle = 360 → curves.length = 16)
      ∧ (angle = 90 → curves.length = 4) := by
  obtain ⟨out, hout, hlen⟩ := arc_curve_of_pos sqrt rotate2d x y cx cy angle hpos hle
  have hceil : ⌈angle / 90⌉ ≤ 4 := by
    apply Int.ceil_le.mpr
    rw [div_le_iff₀ (by norm_num)]
    push_cast
    linarith
  refine ⟨out, hout, hlen, ?_, ?_, ?_⟩
  · rw [hlen]; omega
  · intro h
    rw [hlen, h]
    norm_num
    rfl
  · intro h
    rw [hlen, h]
    norm_num

/-- Witness of C6 at the full circle around the origin from `(1, 0)`. -/
theorem arc_curve_pair_count_witness :
    ∃ curves, arc_curve sampleSqrt sampleRotate2d 1 0 0 0 360 = .ok curves
      ∧ curves.length = 4 * (⌈(360 : ℚ) / 90⌉).toNat
      ∧ curves.length ≤ 16
      ∧ ((360 : ℚ) = 360 → curves.length = 16)
      ∧ ((360 : ℚ) = 90 → curves.length = 4) :=
  arc_curve_pair_count sampleSqrt sampleRotate2d 1 0 0 0 360 (by norm_num) (by norm_num)

/-- C7. For the valid negative angle -90, whatever the start and centre
points, `arc_curve` returns the empty vector, where one curve (4 pairs) is
expected: the loop `while (angle_sum < angle)` starts with `0 < -90`. -/
theorem arc_curve_negative_angle_is_empty (sqrt : ℚ → ℚ) (rotate2d : ℚ → ℚ → ℚ → Point2)
    (x y cx cy : ℚ) :
    arc_curve sqrt rotate2d x y cx cy (-90) = .ok [] :=
  arc_curve_of_neg sqrt rotate2d x y cx cy (-90) (by norm_num) (by norm_num)

/-- C8. `arc_curve` throws `invalid_argument` exactly when `angle < -360`,
`angle > 360` or `angle = 0`; for every other angle it returns a vector,
whatever the start and centre points are. -/
theorem arc_curve_throws_iff (sqrt : ℚ → ℚ) (rotate2d : ℚ → ℚ → ℚ → Point2)
    (x y cx cy angle : ℚ) :
    ((∃ e, arc_curve sqrt rotate2d x y cx cy angle = .error e)
        ↔ (angle < -360 ∨ angle > 360 ∨ angle = 0))
      ∧ (∀ e, arc_curve sqrt rotate2d x y cx cy angle = .error e →
          ∃ what, e = .invalid_argument what)
      ∧ (¬ (angle < -360 ∨ angle > 360 ∨ angle = 0) →
          ∃ curves, arc_curve sqrt rotate2d x y cx cy angle = .ok curves) := by
  have hok : ¬ (angle < -360 ∨ angle > 360 ∨ angle = 0) →
      ∃ curves, arc_curve sqrt rotate2d x y cx cy angle = .ok curves := by
    intro h
    have h1 : -360 ≤ angle := not_lt.mp (fun h1 => h (Or.inl h1))
    have h2 : angle ≤ 360 := not_lt.mp (fun h2 => h (Or.inr (Or.inl h2)))
    have h3 : angle ≠ 0 := fun h3 => h (Or.inr (Or.inr h3))
    rcases lt_or_gt_of_ne h3 with hneg | hpos
    · exact ⟨[], arc_curve_of_neg sqrt rotate2d x y cx cy angle hneg h1⟩
    · obtain ⟨curves, hc, _⟩ := arc_curve_of_pos sqrt rotate2d x y cx cy angle hpos h2
      exact ⟨curves, hc⟩
  have herr : (angle < -360 ∨ angle > 360 ∨ angle = 0) →
      ∃ what, arc_curve sqrt rotate2d x y cx cy angle = .error (.invalid_argument what) := by
    intro h
    by_cases hp : angle < -360 ∨ angle > 360
    · exact ⟨_, by rw [arc_curve, if_pos hp]⟩
    · have hz : angle = 0 := by
        rcases h with h | h | h
        · exact absurd (Or.inl h) hp
        · exact absurd (Or.inr h) hp
        · exact h
      exact ⟨_, by rw [arc_curve, if_neg hp, if_pos hz]⟩
  refine ⟨⟨?_, ?_⟩, ?_, hok⟩
  · rintro ⟨e, he⟩
    by_contra hcon
    obtain ⟨c, hc⟩ := hok hcon
    rw [hc] at he
    cases he
  · intro h
    obtain ⟨what, hw⟩ := herr h
    exact ⟨_, hw⟩
  · intro e he
    by_cases hcon : angle < -360 ∨ angle > 360 ∨ angle = 0
    · obtain ⟨what, hw⟩ := herr hcon
      rw [hw] at he
      injection he with he
      exact ⟨what, he.symm⟩
    · obtain ⟨c, hc⟩ := hok hcon
      rw [hc] at he
      cases he

/-- In exact arithmetic, with `strict = true` and a non-zero determinant (both segments then
have non-zero length), let `(ix, iy)` be the intersection point of the
infinite lines and `s`, `t` its parameters along the two segments
(`(ix, iy) = (x1, y1) + s * ((x0, y0) - (x1, y1))`, likewise `t`).  Then
`line_intersect` returns `(+infinity, +infinity)` if and only if `s` or `t`
is `< 0` or `> 1`; otherwise it returns `(ix, iy)`, which lies on both
segments, end points included.  No division by zero occurs. -/
theorem line_intersect_strict_iff (x0 y0 x1 y1 x2 y2 x3 y3 : ℚ)
    (hdet : (x0 - x1) * (y2 - y3) - (y0 - y1) * (x2 - x3) ≠ 0) :
    ∃ ix iy s t : ℚ,
      line_intersect x0 y0 x1 y1 x2 y2 x3 y3 false = .ok ((ix : Double), (iy : Double))
      ∧ (ix = x1 + s * (x0 - x1) ∧ iy = y1 + s * (y0 - y1))
      ∧ (ix = x3 + t * (x2 - x3) ∧ iy = y3 + t * (y2 - y3))
      ∧ (line_intersect x0 y0 x1 y1 x2 y2 x3 y3 true = .ok ((⊤ : Double), (⊤ : Double))
          ↔ (s < 0 ∨ s > 1 ∨ t < 0 ∨ t > 1))
      ∧ (¬ (s < 0 ∨ s > 1 ∨ t < 0 ∨ t > 1) →
          line_intersect x0 y0 x1 y1 x2 y2 x3 y3 true = .ok ((ix : Double), (iy : Double)))
      ∧ (∀ e, line_intersect x0 y0 x1 y1 x2 y2 x3 y3 true ≠ .error e) := by
  have hz1 : ¬ (x0 - x1 = 0 ∧ y0 - y1 = 0) := by
    rintro ⟨h1, h2⟩
    exact hdet (by rw [h1, h2]; ring)
  have hz2 : ¬ (x2 - x3 = 0 ∧ y2 - y3 = 0) := by
    rintro ⟨h1, h2⟩
    exact hdet (by rw [h1, h2]; ring)
  have hstrict := line_intersect_strict_eq x0 y0 x1 y1 x2 y2 x3 y3 hdet
  refine ⟨crossX x0 y0 x1 y1 x2 y2 x3 y3, crossY x0 y0 x1 y1 x2 y2 x3 y3,
    segParam (crossX x0 y0 x1 y1 x2 y2 x3 y3) (crossY x0 y0 x1 y1 x2 y2 x3 y3)
      x1 y1 (x0 - x1) (y0 - y1),
    segParam (crossX x0 y0 x1 y1 x2 y2 x3 y3) (crossY x0 y0 x1 y1 x2 y2 x3 y3)
      x3 y3 (x2 - x3) (y2 - y3),
    line_intersect_loose x0 y0 x1 y1 x2 y2 x3 y3 hdet,
    segParam_spec _ _ x0 y0 x1 y1 hz1 (cross_collinear_first x0 y0 x1 y1 x2 y2 x3 y3 hdet),
    segParam_spec _ _ x2 y2 x3 y3 hz2 (cross_collinear_second x0 y0 x1 y1 x2 y2 x3 y3 hdet),
    ?_, ?_, ?_⟩
  · constructor
    · intro h
      by_contra hcon
      rw [hstrict, if_neg hcon] at h
      injection h with h
      have := congrArg Prod.fst h
      exact WithTop.coe_ne_top this
    · intro h
      rw [hstrict, if_pos h]
  · intro h
    rw [hstrict, if_neg h]
  · intro e he
    rw [hstrict] at he
    split at he <;> cases he

/-- Example in exact arithmetic: the segment `(-1,0)-(1,0)` and the segment `(0,1)-(0,2)`
lie on lines that meet in the origin, outside the second segment. -/
theorem line_intersect_strict_iff_witness :
    line_intersect (-1) 0 1 0 0 1 0 2 true = .ok ((⊤ : Double), (⊤ : Double)) := by
  obtain ⟨ix, iy, s, t, _, ⟨_, hs2⟩, ⟨_, ht2⟩, hiff, _, _⟩ :=
    line_intersect_strict_iff (-1) 0 1 0 0 1 0 2 (by norm_num)
  refine hiff.mpr (Or.inr (Or.inr (Or.inr ?_)))
  have h0 : iy = 0 := by rw [hs2]; ring
  rw [h0] at ht2
  linarith

/-- C11. `line_intersect` throws, and then `invalid_argument`, exactly when
`(x0,y0) = (x1,y1)` or `(x2,y2) = (x3,y3)`; the determinant is 0 in that case
too, so the length check wins over the parallel check.  With two segments of
non-zero length and determinant 0 it returns the default-constructed pair
`(0, 0)`, for both values of `strict`. -/
theorem line_intersect_throws_iff (x0 y0 x1 y1 x2 y2 x3 y3 : ℚ) (strict : Bool) :
    ((∃ e, line_intersect x0 y0 x1 y1 x2 y2 x3 y3 strict = .error e)
        ↔ ((x0 = x1 ∧ y0 = y1) ∨ (x2 = x3 ∧ y2 = y3)))
      ∧ (∀ e, line_intersect x0 y0 x1 y1 x2 y2 x3 y3 strict = .error e →
          ∃ what, e = .invalid_argument what)
      ∧ (((x0 = x1 ∧ y0 = y1) ∨ (x2 = x3 ∧ y2 = y3)) →
          (x0 - x1) * (y2 - y3) - (y0 - y1) * (x2 - x3) = 0
            ∧ ∃ what, line_intersect x0 y0 x1 y1 x2 y2 x3 y3 strict
                = .error (.invalid_argument what))
      ∧ (¬ ((x0 = x1 ∧ y0 = y1) ∨ (x2 = x3 ∧ y2 = y3)) →
          (x0 - x1) * (y2 - y3) - (y0 - y1) * (x2 - x3) = 0 →
          line_intersect x0 y0 x1 y1 x2 y2 x3 y3 strict
            = .ok (((0 : ℚ) : Double), ((0 : ℚ) : Double))) := by
  have herr : ((x0 = x1 ∧ y0 = y1) ∨ (x2 = x3 ∧ y2 = y3)) →
      ∃ what, line_intersect x0 y0 x1 y1 x2 y2 x3 y3 strict
        = .error (.invalid_argument what) := by
    intro h
    have hz : (x0 - x1 = 0 ∧ y0 - y1 = 0) ∨ (x2 - x3 = 0 ∧ y2 - y3 = 0) := by
      simpa [sub_eq_zero] using h
    refine ⟨"lines mustn't have zero length", ?_⟩
    unfold line_intersect
    simp only [if_pos hz]
  refine ⟨⟨?_, ?_⟩, ?_, ?_, ?_⟩
  · rintro ⟨e, he⟩
    by_contra hcon
    obtain ⟨p, hp⟩ := line_intersect_ok x0 y0 x1 y1 x2 y2 x3 y3 strict hcon
    rw [hp] at he
    cases he
  · intro h
    obtain ⟨what, hw⟩ := herr h
    exact ⟨_, hw⟩
  · intro e he
    by_cases hcon : (x0 = x1 ∧ y0 = y1) ∨ (x2 = x3 ∧ y2 = y3)
    · obtain ⟨what, hw⟩ := herr hcon
      rw [hw] at he
      injection he with he
      exact ⟨what, he.symm⟩
    · obtain ⟨p, hp⟩ := line_intersect_ok x0 y0 x1 y1 x2 y2 x3 y3 strict hcon
      rw [hp] at he
      cases he
  · intro h
    refine ⟨?_, herr h⟩
    rcases h with ⟨h1, h2⟩ | ⟨h1, h2⟩
    · rw [h1, h2]; ring
    · rw [h1, h2]; ring
  · intro hlen hdet
    have hz : ¬ ((x0 - x1 = 0 ∧ y0 - y1 = 0) ∨ (x2 - x3 = 0 ∧ y2 - y3 = 0)) := by
      simpa [sub_eq_zero] using hlen
    unfold line_intersect
    simp only [if_neg hz, if_pos hdet]

/-- In exact arithmetic, for a whole number `dec >= 1`, `round x dec` is
`floor(x * 10^dec + 0.5) / 10^dec`; for `dec < 1` it is `floor(x + 0.5)`.
For every number `k >= 0` of decimals the result is a multiple of `10^-k`
with `x - 0.5 * 10^-k < round x k <= x + 0.5 * 10^-k` (nearest, exact ties
upward), and `round 2.345 2 = 2.35`. -/
theorem round_half_up (x dec : ℚ) (k : ℕ) :
    (1 ≤ k → round x (k : ℚ) = (⌊x * 10 ^ k + 1 / 2⌋ : ℚ) / 10 ^ k)
      ∧ (dec < 1 → round x dec = (⌊x + 1 / 2⌋ : ℚ))
      ∧ (∃ m : ℤ, round x (k : ℚ) = (m : ℚ) / 10 ^ k)
      ∧ x - 1 / 2 / 10 ^ k < round x (k : ℚ)
      ∧ round x (k : ℚ) ≤ x + 1 / 2 / 10 ^ k
      ∧ round (2345 / 1000) 2 = 235 / 100 := by
  have hpos : (0 : ℚ) < 10 ^ k := by positivity
  have hk : 1 ≤ k → round x (k : ℚ) = (⌊x * 10 ^ k + 1 / 2⌋ : ℚ) / 10 ^ k := by
    intro h1
    have hc : (k : ℚ) ≠ 0 ∧ (k : ℚ) ≥ 1 := by
      constructor
      · exact_mod_cast (by omega : k ≠ 0)
      · exact_mod_cast h1
    unfold round
    rw [if_pos hc]
    simp only [Int.floor_natCast, zpow_natCast]
  have hlow : ∀ d : ℚ, d < 1 → round x d = (⌊x + 1 / 2⌋ : ℚ) := by
    intro d hd
    have hc : ¬ (d ≠ 0 ∧ d ≥ 1) := by
      rintro ⟨_, h⟩
      linarith
    unfold round
    rw [if_neg hc]
  have hform : round x (k : ℚ) = (⌊x * 10 ^ k + 1 / 2⌋ : ℚ) / 10 ^ k := by
    rcases Nat.eq_zero_or_pos k with h0 | h1
    · subst h0
      rw [hlow _ (by norm_num)]
      simp
    · exact hk h1
  have hfl := Int.floor_le (x * 10 ^ k + 1 / 2)
  have hlt := Int.lt_floor_add_one (x * 10 ^ k + 1 / 2)
  refine ⟨hk, hlow dec, ⟨_, hform⟩, ?_, ?_, ?_⟩
  · rw [hform, lt_div_iff₀ hpos, sub_mul, div_mul_cancel₀ _ (ne_of_gt hpos)]
    linarith
  · rw [hform, div_le_iff₀ hpos, add_mul, div_mul_cancel₀ _ (ne_of_gt hpos)]
    linarith
  · have h2 : round (2345 / 1000) ((2 : ℕ) : ℚ)
        = (⌊(2345 / 1000 : ℚ) * 10 ^ 2 + 1 / 2⌋ : ℚ) / 10 ^ 2 := by
      have hc : ((2 : ℕ) : ℚ) ≠ 0 ∧ ((2 : ℕ) : ℚ) ≥ 1 := by norm_num
      unfold round
      rw [if_pos hc]
      simp only [Int.floor_natCast, zpow_natCast]
    have h3 : (2345 / 1000 : ℚ) * 10 ^ 2 + 1 / 2 = ((235 : ℤ) : ℚ) := by norm_num
    rw [h3, Int.floor_intCast] at h2
    rw [show (2 : ℚ) = ((2 : ℕ) : ℚ) by norm_num, h2]
    norm_num

/-- C13. `trim` throws, and then `invalid_argument`, exactly when `max < min`;
otherwise it returns `min` when `x < min`, `max` when `x > max` and `x`
itself otherwise, so the result lies in `[min, max]` and is `x` when `x`
already does; `trim 5 0 10 = 5`, `trim (-1) 0 10 = 0`, `trim 11 0 10 = 10`. -/
theorem trim_clamps (x min max : ℚ) :
    ((∃ e, trim x min max = .error e) ↔ max < min)
      ∧ (∀ e, trim x min max = .error e → ∃ what, e = .invalid_argument what)
      ∧ (¬ max < min → ∃ r, trim x min max = .ok r
          ∧ (x < min → r = min) ∧ (¬ x < min → x > max → r = max)
          ∧ (¬ x < min → ¬ x > max → r = x)
          ∧ min ≤ r ∧ r ≤ max ∧ (min ≤ x → x ≤ max → r = x))
      ∧ trim 5 0 10 = .ok 5 ∧ trim (-1) 0 10 = .ok 0 ∧ trim 11 0 10 = .ok 10 := by
  refine ⟨⟨?_, ?_⟩, ?_, ?_, ?_, ?_, ?_⟩
  · rintro ⟨e, he⟩
    by_contra hcon
    rw [trim, if_neg hcon] at he
    cases he
  · intro h
    exact ⟨_, by rw [trim, if_pos h]⟩
  · intro e he
    by_cases h : max < min
    · rw [trim, if_pos h] at he
      injection he with he
      exact ⟨_, he.symm⟩
    · rw [trim, if_neg h] at he
      cases he
  · intro h
    have hle : min ≤ max := not_lt.mp h
    refine ⟨_, by rw [trim, if_neg h], ?_, ?_, ?_, ?_, ?_, ?_⟩
    · intro h1
      rw [if_pos h1]
    · intro h1 h2
      rw [if_neg h1, if_pos h2]
    · intro h1 h2
      rw [if_neg h1, if_neg h2]
    · split_ifs with h1 h2
      · exact le_refl _
      · exact hle
      · exact not_lt.mp h1
    · split_ifs with h1 h2
      · exact hle
      · exact le_refl _
      · exact not_lt.mp h2
    · intro h1 h2
      rw [if_neg (not_lt.mpr h1), if_neg (not_lt.mpr h2)]
  · norm_num [trim]
  · norm_num [trim]
  · norm_num [trim]

/-- Over the reals, for a vector `(x,y,z)` of non-zero length and a
length `L >= 0`, `stretch` returns a vector whose `distance` is exactly `L`
and which is a non-negative multiple of `(x,y,z)`; for the zero vector it
returns `(0,0,0)` for every length.  No division by zero occurs: `stretch`
returns for all arguments. -/
theorem stretch_has_length (x y z L : ℝ) (hv : x ≠ 0 ∨ y ≠ 0 ∨ z ≠ 0) (hL : 0 ≤ L) :
    (∃ p : ℝ × ℝ × ℝ, ∃ c : ℝ, stretch Real.sqrt x y z L = .ok p
        ∧ distance Real.sqrt p.1 p.2.1 p.2.2 = L
        ∧ 0 ≤ c ∧ p = (c * x, c * y, c * z))
      ∧ (∀ L' : ℝ, stretch Real.sqrt 0 0 0 L' = .ok (0, 0, 0))
      ∧ (∀ a b c L' : ℝ, ∃ q, stretch Real.sqrt a b c L' = .ok q) := by
  have hpos := distance_pos x y z hv
  have hne : distance Real.sqrt x y z ≠ 0 := ne_of_gt hpos
  have hsq : distance Real.sqrt x y z * distance Real.sqrt x y z = x * x + y * y + z * z :=
    Real.mul_self_sqrt (le_of_lt (normSq_pos x y z hv))
  refine ⟨⟨(x * (L / distance Real.sqrt x y z), y * (L / distance Real.sqrt x y z),
      z * (L / distance Real.sqrt x y z)), L / distance Real.sqrt x y z, ?_, ?_, ?_, ?_⟩, ?_, ?_⟩
  · unfold stretch
    simp only [if_neg hne, fdiv, bind, Except.bind, pure, Except.pure]
  · have hid : x * (L / distance Real.sqrt x y z) * (x * (L / distance Real.sqrt x y z))
        + y * (L / distance Real.sqrt x y z) * (y * (L / distance Real.sqrt x y z))
        + z * (L / distance Real.sqrt x y z) * (z * (L / distance Real.sqrt x y z)) = L * L := by
      have : x * (L / distance Real.sqrt x y z) * (x * (L / distance Real.sqrt x y z))
          + y * (L / distance Real.sqrt x y z) * (y * (L / distance Real.sqrt x y z))
          + z * (L / distance Real.sqrt x y z) * (z * (L / distance Real.sqrt x y z))
          = (x * x + y * y + z * z) * (L / distance Real.sqrt x y z) ^ 2 := by ring
      rw [this, ← hsq]
      field_simp
      ring
    show Real.sqrt _ = L
    rw [hid]
    exact Real.sqrt_mul_self hL
  · exact div_nonneg hL (le_of_lt hpos)
  · simp only [mul_comm]
  · intro L'
    have h0 : distance Real.sqrt 0 0 0 = 0 := by
      simp [distance]
    unfold stretch
    simp only [if_pos h0]
  · intro a b c L'
    exact stretch_ok Real.sqrt a b c L'

/-- Example over the reals: stretching `(3, 4, 0)` to length 10. -/
theorem stretch_has_length_witness :
    (∃ p : ℝ × ℝ × ℝ, ∃ c : ℝ, stretch Real.sqrt 3 4 0 10 = .ok p
        ∧ distance Real.sqrt p.1 p.2.1 p.2.2 = 10
        ∧ 0 ≤ c ∧ p = (c * 3, c * 4, c * 0))
      ∧ (∀ L' : ℝ, stretch Real.sqrt 0 0 0 L' = .ok (0, 0, 0))
      ∧ (∀ a b c L' : ℝ, ∃ q, stretch Real.sqrt a b c L' = .ok q) :=
  stretch_has_length 3 4 0 10 (Or.inl (by norm_num)) (by norm_num)

/-- Over the reals, with `deg` the conversion of radians to degrees, for
non-zero vectors `v1`, `v2` the routine `degree` returns
`arccos((v1 . v2) / (|v1| * |v2|))` in degrees, negated exactly when
`x1*y2 - y1*x2 < 0`; the argument of `arccos` lies in `[-1, 1]`, the
divisor is not zero, and the result lies in `[-180, 180]`, is `<= 0` when the
2D cross product is negative and `>= 0` otherwise. -/
theorem degree_signed_angle (deg : ℝ → ℝ) (x1 y1 z1 x2 y2 z2 : ℝ)
    (hdeg : ∀ t, deg t = t * 180 / Real.pi)
    (h1 : x1 ≠ 0 ∨ y1 ≠ 0 ∨ z1 ≠ 0) (h2 : x2 ≠ 0 ∨ y2 ≠ 0 ∨ z2 ≠ 0) :
    ∃ r : ℝ, degree Real.sqrt Real.arccos deg x1 y1 z1 x2 y2 z2 = .ok r
      ∧ r = (if x1 * y2 - y1 * x2 < 0 then
              -(Real.arccos ((x1 * x2 + y1 * y2 + z1 * z2)
                  / (Real.sqrt (x1 * x1 + y1 * y1 + z1 * z1)
                      * Real.sqrt (x2 * x2 + y2 * y2 + z2 * z2))) * 180 / Real.pi)
            else
              Real.arccos ((x1 * x2 + y1 * y2 + z1 * z2)
                  / (Real.sqrt (x1 * x1 + y1 * y1 + z1 * z1)
                      * Real.sqrt (x2 * x2 + y2 * y2 + z2 * z2))) * 180 / Real.pi)
      ∧ -1 ≤ (x1 * x2 + y1 * y2 + z1 * z2)
            / (Real.sqrt (x1 * x1 + y1 * y1 + z1 * z1)
                * Real.sqrt (x2 * x2 + y2 * y2 + z2 * z2))
      ∧ (x1 * x2 + y1 * y2 + z1 * z2)
            / (Real.sqrt (x1 * x1 + y1 * y1 + z1 * z1)
                * Real.sqrt (x2 * x2 + y2 * y2 + z2 * z2)) ≤ 1
      ∧ -180 ≤ r ∧ r ≤ 180
      ∧ (x1 * y2 - y1 * x2 < 0 → r ≤ 0)
      ∧ (¬ x1 * y2 - y1 * x2 < 0 → 0 ≤ r) := by
  have hne : distance Real.sqrt x1 y1 z1 * distance Real.sqrt x2 y2 z2 ≠ 0 :=
    ne_of_gt (mul_pos (distance_pos x1 y1 z1 h1) (distance_pos x2 y2 z2 h2))
  obtain ⟨hlo, hhi⟩ := cos_quotient_bounds x1 y1 z1 x2 y2 z2 h1 h2
  have hpi := Real.pi_pos
  have ha0 := Real.arccos_nonneg ((x1 * x2 + y1 * y2 + z1 * z2)
    / (distance Real.sqrt x1 y1 z1 * distance Real.sqrt x2 y2 z2))
  have ha1 := Real.arccos_le_pi ((x1 * x2 + y1 * y2 + z1 * z2)
    / (distance Real.sqrt x1 y1 z1 * distance Real.sqrt x2 y2 z2))
  have hd0 : 0 ≤ Real.arccos ((x1 * x2 + y1 * y2 + z1 * z2)
      / (distance Real.sqrt x1 y1 z1 * distance Real.sqrt x2 y2 z2)) * 180 / Real.pi := by
    positivity
  have hd1 : Real.arccos ((x1 * x2 + y1 * y2 + z1 * z2)
      / (distance Real.sqrt x1 y1 z1 * distance Real.sqrt x2 y2 z2)) * 180 / Real.pi ≤ 180 := by
    rw [div_le_iff₀ hpi]
    nlinarith
  by_cases hc : x1 * y2 - y1 * x2 < 0
  · refine ⟨-(Real.arccos ((x1 * x2 + y1 * y2 + z1 * z2)
        / (distance Real.sqrt x1 y1 z1 * distance Real.sqrt x2 y2 z2)) * 180 / Real.pi),
      ?_, ?_, hlo, hhi, ?_, ?_, ?_, ?_⟩
    · unfold degree
      simp only [fdiv, if_neg hne, if_pos hc, hdeg, bind, Except.bind, pure, Except.pure]
      congr 1
      ring
    · rw [if_pos hc]
      rfl
    · linarith
    · linarith
    · intro _
      linarith
    · intro h
      exact absurd hc h
  · refine ⟨Real.arccos ((x1 * x2 + y1 * y2 + z1 * z2)
        / (distance Real.sqrt x1 y1 z1 * distance Real.sqrt x2 y2 z2)) * 180 / Real.pi,
      ?_, ?_, hlo, hhi, ?_, ?_, ?_, ?_⟩
    · unfold degree
      simp only [fdiv, if_neg hne, if_neg hc, hdeg, bind, Except.bind, pure, Except.pure]
    · rw [if_neg hc]
      rfl
    · linarith
    · linarith
    · intro h
      exact absurd h hc
    · intro _
      exact hd0

/-- Example over the reals: the angle from the x axis to the y axis. -/
theorem degree_signed_angle_witness :
    ∃ r : ℝ, degree Real.sqrt Real.arccos (fun t => t * 180 / Real.pi) 1 0 0 0 1 0 = .ok r
      ∧ -180 ≤ r ∧ r ≤ 180 ∧ 0 ≤ r := by
  obtain ⟨r, hr, _, _, _, hlo, hhi, _, hpos⟩ :=
    degree_signed_angle (fun t => t * 180 / Real.pi) 1 0 0 0 1 0 (fun _ => rfl)
      (Or.inl (by norm_num)) (Or.inr (Or.inl (by norm_num)))
  exact ⟨r, hr, hlo, hhi, hpos (by norm_num)⟩

/-- C16. `rotate` throws, and then `invalid_argument`, exactly when `axis` is
none of the strings "x", "y", "z"; for one of these it returns a point, for
every point and angle.  In particular "X", "" and "xy" are rejected. -/
theorem rotate_throws_iff {K : Type} [LinearOrderedField K] (sin cos rad : K → K)
    (p : K × K × K) (axis : String) (angle : K) :
    ((∃ e, rotate sin cos rad p axis angle = .error e)
        ↔ (axis ≠ "x" ∧ axis ≠ "y" ∧ axis ≠ "z"))
      ∧ (∀ e, rotate sin cos rad p axis angle = .error e → ∃ what, e = .invalid_argument what)
      ∧ ((axis = "x" ∨ axis = "y" ∨ axis = "z") →
          ∃ q, rotate sin cos rad p axis angle = .ok q)
      ∧ (∃ what, rotate sin cos rad p "X" angle = .error (.invalid_argument what))
      ∧ (∃ what, rotate sin cos rad p "" angle = .error (.invalid_argument what))
      ∧ (∃ what, rotate sin cos rad p "xy" angle = .error (.invalid_argument what)) := by
  have herr : ∀ a : String, (a ≠ "x" ∧ a ≠ "y" ∧ a ≠ "z") →
      rotate sin cos rad p a angle = .error (.invalid_argument "invalid axis") := by
    intro a h
    rw [rotate, if_pos h]
  have hok : (axis = "x" ∨ axis = "y" ∨ axis = "z") →
      ∃ q, rotate sin cos rad p axis angle = .ok q := by
    intro h
    have hn : ¬ (axis ≠ "x" ∧ axis ≠ "y" ∧ axis ≠ "z") := by
      rintro ⟨hx, hy, hz⟩
      rcases h with h | h | h
      · exact hx h
      · exact hy h
      · exact hz h
    rw [rotate, if_neg hn]
    simp only []
    split_ifs
    · exact ⟨_, rfl⟩
    · exact ⟨_, rfl⟩
    · exact ⟨_, rfl⟩
  have hdich : (axis ≠ "x" ∧ axis ≠ "y" ∧ axis ≠ "z") ∨ (axis = "x" ∨ axis = "y" ∨ axis = "z") := by
    by_cases hx : axis = "x"
    · exact Or.inr (Or.inl hx)
    · by_cases hy : axis = "y"
      · exact Or.inr (Or.inr (Or.inl hy))
      · by_cases hz : axis = "z"
        · exact Or.inr (Or.inr (Or.inr hz))
        · exact Or.inl ⟨hx, hy, hz⟩
  refine ⟨⟨?_, ?_⟩, ?_, hok, ?_, ?_, ?_⟩
  · rintro ⟨e, he⟩
    rcases hdich with h | h
    · exact h
    · obtain ⟨q, hq⟩ := hok h
      rw [hq] at he
      cases he
  · intro h
    exact ⟨_, herr axis h⟩
  · intro e he
    rcases hdich with h | h
    · rw [herr axis h] at he
      injection he with he
      exact ⟨_, he.symm⟩
    · obtain ⟨q, hq⟩ := hok h
      rw [hq] at he
      cases he
  · exact ⟨_, herr "X" (by decide)⟩
  · exact ⟨_, herr "" (by decide)⟩
  · exact ⟨_, herr "xy" (by decide)⟩

/-- C19. `randomsteps` throws, and then `invalid_argument`, exactly when
`max < min` or `step <= 0`; otherwise, with `r` the value the random source
returns for the bounds `0` and `ceil((max - min) / step)`, the result is the
smaller of `min + r * step` and `max`, and lies in `[min, max]` when
`0 <= r`. -/
theorem randomsteps_spec (random : ℚ → ℚ → ℚ) (min max step : ℚ) :
    ((∃ e, randomsteps random min max step = .error e) ↔ (max < min ∨ step ≤ 0))
      ∧ (∀ e, randomsteps random min max step = .error e → ∃ what, e = .invalid_argument what)
      ∧ (¬ (max < min ∨ step ≤ 0) →
          randomsteps random min max step
              = .ok (Min.min (min + random 0 (⌈(max - min) / step⌉ : ℚ) * step) max)
            ∧ (0 ≤ random 0 (⌈(max - min) / step⌉ : ℚ) →
                min ≤ Min.min (min + random 0 (⌈(max - min) / step⌉ : ℚ) * step) max
                  ∧ Min.min (min + random 0 (⌈(max - min) / step⌉ : ℚ) * step) max ≤ max)) := by
  have hok : ¬ (max < min ∨ step ≤ 0) →
      randomsteps random min max step
        = .ok (Min.min (min + random 0 (⌈(max - min) / step⌉ : ℚ) * step) max) := by
    intro h
    have hs : step ≠ 0 := by
      intro h0
      exact h (Or.inr (le_of_eq h0))
    unfold randomsteps
    simp only [if_neg h, fdiv, if_neg hs, bind, Except.bind, pure, Except.pure]
  refine ⟨⟨?_, ?_⟩, ?_, ?_⟩
  · rintro ⟨e, he⟩
    by_contra hcon
    rw [hok hcon] at he
    cases he
  · intro h
    exact ⟨_, by rw [randomsteps, if_pos h]⟩
  · intro e he
    by_cases h : max < min ∨ step ≤ 0
    · rw [randomsteps, if_pos h] at he
      injection he with he
      exact ⟨_, he.symm⟩
    · rw [hok h] at he
      cases he
  · intro h
    refine ⟨hok h, ?_⟩
    intro hr
    have hmm : min ≤ max := not_lt.mp (fun h1 => h (Or.inl h1))
    have hst : 0 < step := not_le.mp (fun h1 => h (Or.inr h1))
    constructor
    · apply le_min
      · have := mul_nonneg hr (le_of_lt hst)
        linarith
      · exact hmm
    · exact min_le_right _ _

/-- Cairo loop: on the data of any list of commands, with one unit of fuel
per command, the loop returns the tokens of the marker rule: a command gets
the marker of its kind (m, l, b, c) exactly when its kind differs from the
kind of the command right before it, the first command always.  GDI loop,
with the close-figure bit read as part of a command and not as a command of
its own: the same holds for the markers m, l, b on the arrays of any list of
commands in which no command with that bit is directly followed by a command
of the same kind; "c" follows the numbers of every command whose first point
carries the bit.  Hence a run of commands of one kind after a command of another
kind is one marker followed by the tokens of all its commands, with 2
numbers per move or line point and 6 per curve. -/
theorem shape_markers_by_kind (cmds : List CairoCmd) (fuel : ℕ) (hfuel : cmds.length ≤ fuel)
    (ds xs ys : ℚ) (gcmds : List GdiCmd) (hgdi : ClosedThenOther gcmds) :
    cairoShape (cairoData cmds) fuel
        = some (.ok (markedTokens CairoCmd.kind CairoCmd.payload none cmds))
      ∧ gdiShape ds xs ys (gdiPoints gcmds) (gdiTypes gcmds) (gdiTypes gcmds).length
          = .ok (markedTokens GdiCmd.kind (GdiCmd.payload ds xs ys) none gcmds)
      ∧ (∀ (k : Kind) (prev : Option Kind) (run : List CairoCmd), prev ≠ some k → run ≠ [] →
          (∀ c ∈ run, c.kind = k) →
          markedTokens CairoCmd.kind CairoCmd.payload prev run
            = Token.marker k.letter :: payloads CairoCmd.payload run)
      ∧ (∀ (k : Kind) (prev : Option Kind) (run : List GdiCmd), prev ≠ some k → run ≠ [] →
          (∀ c ∈ run, c.kind = k) →
          markedTokens GdiCmd.kind (GdiCmd.payload ds xs ys) prev run
            = Token.marker k.letter :: payloads (GdiCmd.payload ds xs ys) run)
      ∧ (∀ c : CairoCmd, ∃ nums : List ℚ, nums.length = c.kind.coords
          ∧ c.payload = nums.map Token.number)
      ∧ (∀ c : GdiCmd, ∃ nums : List ℚ, nums.length = c.kind.coords
          ∧ c.payload ds xs ys
              = nums.map Token.number ++ (if c.closed then [Token.marker "c"] else [])) := by
  refine ⟨?_, ?_, ?_, ?_, ?_, ?_⟩
  · have h := cairoLoop_marked cmds [] none [] fuel hfuel
    simpa [cairoShape, cairoLast] using h
  · rw [gdiShape_cmds]
    have h := gdiTrace_marked ds xs ys gcmds none 0xff rfl (by simpa [Option.toList] using hgdi)
    rw [h]
    rfl
  · intro k prev run hprev hne hrun
    exact markedTokens_run CairoCmd.kind CairoCmd.payload k prev run hprev hne hrun
  · intro k prev run hprev hne hrun
    exact markedTokens_run GdiCmd.kind (GdiCmd.payload ds xs ys) k prev run hprev hne hrun
  · intro c
    cases c with
    | move_to x y => exact ⟨[round x FP_PRECISION, round y FP_PRECISION], rfl, rfl⟩
    | line_to x y => exact ⟨[round x FP_PRECISION, round y FP_PRECISION], rfl, rfl⟩
    | curve_to x1 y1 x2 y2 x3 y3 =>
      exact ⟨[round x1 FP_PRECISION, round y1 FP_PRECISION, round x2 FP_PRECISION,
        round y2 FP_PRECISION, round x3 FP_PRECISION, round y3 FP_PRECISION], rfl, rfl⟩
    | close_path => exact ⟨[], rfl, rfl⟩
  · intro c
    cases c with
    | move p =>
      exact ⟨[round ((p.1 : ℚ) * ds * xs) FP_PRECISION, round ((p.2 : ℚ) * ds * ys) FP_PRECISION],
        rfl, rfl⟩
    | line closed p =>
      exact ⟨[round ((p.1 : ℚ) * ds * xs) FP_PRECISION, round ((p.2 : ℚ) * ds * ys) FP_PRECISION],
        rfl, rfl⟩
    | curve closed p1 p2 p3 t2 t3 =>
      exact ⟨[round ((p1.1 : ℚ) * ds * xs) FP_PRECISION, round ((p1.2 : ℚ) * ds * ys) FP_PRECISION,
        round ((p2.1 : ℚ) * ds * xs) FP_PRECISION, round ((p2.2 : ℚ) * ds * ys) FP_PRECISION,
        round ((p3.1 : ℚ) * ds * xs) FP_PRECISION, round ((p3.2 : ℚ) * ds * ys) FP_PRECISION],
        rfl, rfl⟩

/-- Example: a closed triangle, as a cairo path (move, two
lines, close) and as a GDI path (move, line, closing line). -/
theorem shape_markers_by_kind_witness :
    cairoShape (cairoData [CairoCmd.move_to 0 0, CairoCmd.line_to 1 0, CairoCmd.line_to 1 1,
          CairoCmd.close_path]) 4
        = some (.ok (markedTokens CairoCmd.kind CairoCmd.payload none
            [CairoCmd.move_to 0 0, CairoCmd.line_to 1 0, CairoCmd.line_to 1 1,
              CairoCmd.close_path]))
      ∧ gdiShape 1 1 1
            (gdiPoints [GdiCmd.move (0, 0), GdiCmd.line false (1, 0), GdiCmd.line true (1, 1)])
            (gdiTypes [GdiCmd.move (0, 0), GdiCmd.line false (1, 0), GdiCmd.line true (1, 1)])
            (gdiTypes [GdiCmd.move (0, 0), GdiCmd.line false (1, 0), GdiCmd.line true (1, 1)]).length
          = .ok (markedTokens GdiCmd.kind (GdiCmd.payload 1 1 1) none
              [GdiCmd.move (0, 0), GdiCmd.line false (1, 0), GdiCmd.line true (1, 1)]) :=
  let h := shape_markers_by_kind
    [CairoCmd.move_to 0 0, CairoCmd.line_to 1 0, CairoCmd.line_to 1 1, CairoCmd.close_path] 4
    (by decide) 1 1 1 [GdiCmd.move (0, 0), GdiCmd.line false (1, 0), GdiCmd.line true (1, 1)]
    (by simp [ClosedThenOther, GdiCmd.closed, GdiCmd.kind])
  ⟨h.1, h.2.1⟩

/-- C21. A glyph outline whose figure ends with a closing curve, as GDI
stores it (types `[PT_MOVETO, PT_BEZIERTO, PT_BEZIERTO, PT_BEZIERTO +
PT_CLOSEFIGURE]`, the close-figure bit on the third point of the triple): the
loop pushes `m x y b x y x y x y` and no "c" at all, because it tests the bit
of the type of the first point of the triple only. -/
theorem gdi_closing_curve_gets_no_close_marker :
    gdiShape 1 1 1 [(0, 0), (1, 0), (1, 1), (0, 1)] [6, 4, 4, 5] 4
        = .ok ([Token.marker "m"] ++ gdiXY 1 1 1 (0, 0) ++ [Token.marker "b"]
            ++ gdiXY 1 1 1 (1, 0) ++ gdiXY 1 1 1 (1, 1) ++ gdiXY 1 1 1 (0, 1))
      ∧ Token.marker "c" ∉ ([Token.marker "m"] ++ gdiXY 1 1 1 (0, 0) ++ [Token.marker "b"]
            ++ gdiXY 1 1 1 (1, 0) ++ gdiXY 1 1 1 (1, 1) ++ gdiXY 1 1 1 (0, 1)) := by
  constructor
  · have h := gdiShape_cmds 1 1 1 [GdiCmd.move (0, 0), GdiCmd.curve false (1, 0) (1, 1) (0, 1) 4 5]
    have hp : gdiPoints [GdiCmd.move (0, 0), GdiCmd.curve false (1, 0) (1, 1) (0, 1) 4 5]
        = [(0, 0), (1, 0), (1, 1), (0, 1)] := rfl
    have ht : gdiTypes [GdiCmd.move (0, 0), GdiCmd.curve false (1, 0) (1, 1) (0, 1) 4 5]
        = [6, 4, 4, 5] := rfl
    rw [hp, ht] at h
    rw [show ([6, 4, 4, 5] : List ℕ).length = 4 from rfl] at h
    rw [h]
    simp [gdiTrace, gdiEmit, gdiNext, GdiCmd.base, GdiCmd.code, GdiCmd.closed, GdiCmd.kind,
      GdiCmd.payload, Kind.letter, PT_MOVETO, PT_BEZIERTO, PT_CLOSEFIGURE]
  · simp [gdiXY]

/-- C22. In the cairo/pango branch `create` leaves `errMsg` as it was on
every exit with `size > 0`; so when `cairo_image_surface_create` fails and
`errMsg` was empty on entry, the null handle comes with an empty message.
The GDI branch does the same when `CreateCompatibleDC` fails. -/
theorem create_backend_failure_leaves_errMsg (b : CairoBackend) (size : ℤ) (errMsg : String) :
    (createCairo b size errMsg).errMsg
        = (if size ≤ 0 then "size cannot lower than 0" else errMsg)
      ∧ (createCairo ⟨true, false, true, true, true, true, true⟩ 12 "").handle = false
      ∧ (createCairo ⟨true, false, true, true, true, true, true⟩ 12 "").errMsg = ""
      ∧ (createGdi ⟨true, 5, false, true, true, true⟩ 12 "").handle = false
      ∧ (createGdi ⟨true, 5, false, true, true, true⟩ 12 "").errMsg = "" := by
  refine ⟨?_, by decide, by decide, by decide, by decide⟩
  unfold createCairo
  split_ifs <;> rfl

/-- C23. When `cairo_create` fails after the surface was created, `create`
calls `cairo_surface_destroy` and then `delete ret`, whose destructor gives
back layout, context and surface: the surface is released twice, and layout
and context are released without having been acquired.  The GDI branch
releases the device context twice when `SetMapMode` fails. -/
theorem create_failure_releases_twice :
    (createCairo ⟨true, true, false, true, true, true, true⟩ 12 "").events
        = [.acquire .surface, .release .surface, .release .layout, .release .context,
           .release .surface]
      ∧ acquireCount .surface
          (createCairo ⟨true, true, false, true, true, true, true⟩ 12 "").events = 1
      ∧ releaseCount .surface
          (createCairo ⟨true, true, false, true, true, true, true⟩ 12 "").events = 2
      ∧ acquireCount .layout
          (createCairo ⟨true, true, false, true, true, true, true⟩ 12 "").events = 0
      ∧ releaseCount .layout
          (createCairo ⟨true, true, false, true, true, true, true⟩ 12 "").events = 1
      ∧ releaseCount .dc (createGdi ⟨true, 5, true, false, true, true⟩ 12 "").events = 2 := by
  refine ⟨by decide, by decide, by decide, by decide, by decide, by decide⟩

/-- C24. Once a call of `upgradeDialogs` has returned, a further call returns
too, whatever `parseDialogs` would do (it is not run), and returns the very
same state: the dialog lines with their sub-spans and the values of
`dialogIsUpgraded`, `isSylAvailable`, `isWordAvailable`, `isCharAvailable`
are those left by the first call. -/
theorem upgradeDialogs_idempotent {Dialog : Type}
    (parseDialogs other : ParserState Dialog → Except Error (ParserState Dialog))
    (s s1 : ParserState Dialog) (h : upgradeDialogs parseDialogs s = .ok s1) :
    dialogIsUpgraded s1 = true
      ∧ upgradeDialogs other s1 = .ok s1
      ∧ (∀ s2, upgradeDialogs other s1 = .ok s2 →
          s2.dialogData = s1.dialogData
            ∧ dialogIsUpgraded s2 = dialogIsUpgraded s1
            ∧ isSylAvailable s2 = isSylAvailable s1
            ∧ isWordAvailable s2 = isWordAvailable s1
            ∧ isCharAvailable s2 = isCharAvailable s1) := by
  have hflag : s1.dialogParsed = true := by
    unfold upgradeDialogs at h
    by_cases hs : s.dialogParsed = true
    · rw [if_pos hs] at h
      injection h with h
      rw [← h]
      exact hs
    · rw [if_neg hs] at h
      cases hp : parseDialogs s with
      | error e =>
        rw [hp] at h
        cases h
      | ok upgraded =>
        rw [hp] at h
        injection h with h
        rw [← h]
  have hsecond : upgradeDialogs other s1 = .ok s1 := by
    unfold upgradeDialogs
    rw [if_pos hflag]
  refine ⟨hflag, hsecond, ?_⟩
  intro s2 h2
  rw [hsecond] at h2
  injection h2 with h2
  rw [← h2]
  exact ⟨rfl, rfl, rfl, rfl, rfl⟩

/-- Witness of C24: a parser with two lines (numbers standing for dialog
lines) whose upgrade marks syllables and characters as available. -/
theorem upgradeDialogs_idempotent_witness :
    upgradeDialogs (fun _ => .error .bad_access)
        (⟨true, [1, 2], true, false, true⟩ : ParserState ℕ)
      = .ok ⟨true, [1, 2], true, false, true⟩ :=
  (upgradeDialogs_idempotent
    (fun st => .ok { st with sylReady := true, charReady := true })
    (fun _ => .error .bad_access)
    (⟨false, [1, 2], false, false, false⟩ : ParserState ℕ)
    ⟨true, [1, 2], true, false, true⟩ rfl).2.1

/-- In exact arithmetic, for `pct` in `[0,1]` and 2, 3 or 4 control points, `bezier` with
`is3D = true` returns a point each coordinate of which lies within every
interval `[lo, hi]` that holds that coordinate of all control points, hence
between their minimum and maximum: the blending weights are non-negative and
sum to 1. -/
theorem bezier_within_control_points (pct : ℚ) (pts : List Point3)
    (h0 : 0 ≤ pct) (h1 : pct ≤ 1)
    (hlen : pts.length = 2 ∨ pts.length = 3 ∨ pts.length = 4) :
    ∃ r, bezier pct pts true = .ok r
      ∧ (∀ lo hi, (∀ p ∈ pts, lo ≤ p.1 ∧ p.1 ≤ hi) → lo ≤ r.1 ∧ r.1 ≤ hi)
      ∧ (∀ lo hi, (∀ p ∈ pts, lo ≤ p.2.1 ∧ p.2.1 ≤ hi) → lo ≤ r.2.1 ∧ r.2.1 ≤ hi)
      ∧ (∀ lo hi, (∀ p ∈ pts, lo ≤ p.2.2 ∧ p.2.2 ≤ hi) → lo ≤ r.2.2 ∧ r.2.2 ≤ hi) := by
  have hn0 : ¬ (pct < 0 ∨ pct > 1) := by
    intro h; rcases h with h | h <;> linarith
  rcases hlen with h | h | h
  · obtain ⟨a, b, rfl⟩ := List.length_eq_two.mp h
    refine ⟨((1 - pct) * a.1 + pct * b.1, (1 - pct) * a.2.1 + pct * b.2.1,
      (1 - pct) * a.2.2 + pct * b.2.2), ?_, ?_, ?_, ?_⟩
    · simp [bezier, hn0, bezier2, vecAt, bind, Except.bind, pure, Except.pure]
    · intro lo hi hb
      exact blend2_bounds pct a.1 b.1 lo hi h0 h1 (hb a (by simp)) (hb b (by simp))
    · intro lo hi hb
      exact blend2_bounds pct a.2.1 b.2.1 lo hi h0 h1 (hb a (by simp)) (hb b (by simp))
    · intro lo hi hb
      exact blend2_bounds pct a.2.2 b.2.2 lo hi h0 h1 (hb a (by simp)) (hb b (by simp))
  · obtain ⟨a, b, c, rfl⟩ := List.length_eq_three.mp h
    refine ⟨((1 - pct) * (1 - pct) * a.1 + 2 * (1 - pct) * pct * b.1 + pct * pct * c.1,
      (1 - pct) * (1 - pct) * a.2.1 + 2 * (1 - pct) * pct * b.2.1 + pct * pct * c.2.1,
      (1 - pct) * (1 - pct) * a.2.2 + 2 * (1 - pct) * pct * b.2.2 + pct * pct * c.2.2),
      ?_, ?_, ?_, ?_⟩
    · simp [bezier, hn0, bezier3, vecAt, bind, Except.bind, pure, Except.pure]
    · intro lo hi hb
      exact blend3_bounds pct a.1 b.1 c.1 lo hi h0 h1 (hb a (by simp)) (hb b (by simp))
        (hb c (by simp))
    · intro lo hi hb
      exact blend3_bounds pct a.2.1 b.2.1 c.2.1 lo hi h0 h1 (hb a (by simp)) (hb b (by simp))
        (hb c (by simp))
    · intro lo hi hb
      exact blend3_bounds pct a.2.2 b.2.2 c.2.2 lo hi h0 h1 (hb a (by simp)) (hb b (by simp))
        (hb c (by simp))
  · obtain ⟨a, b, c, d, rfl⟩ : ∃ a b c d, pts = [a, b, c, d] := by
      match pts, h with
      | [a, b, c, d], _ => exact ⟨a, b, c, d, rfl⟩
    refine ⟨((1 - pct) * (1 - pct) * (1 - pct) * a.1 + 3 * (1 - pct) * (1 - pct) * pct * b.1
        + 3 * (1 - pct) * pct * pct * c.1 + pct * pct * pct * d.1,
      (1 - pct) * (1 - pct) * (1 - pct) * a.2.1 + 3 * (1 - pct) * (1 - pct) * pct * b.2.1
        + 3 * (1 - pct) * pct * pct * c.2.1 + pct * pct * pct * d.2.1,
      (1 - pct) * (1 - pct) * (1 - pct) * a.2.2 + 3 * (1 - pct) * (1 - pct) * pct * b.2.2
        + 3 * (1 - pct) * pct * pct * c.2.2 + pct * pct * pct * d.2.2), ?_, ?_, ?_, ?_⟩
    · simp [bezier, hn0, bezier4, vecAt, bind, Except.bind, pure, Except.pure]
    · intro lo hi hb
      exact blend4_bounds pct a.1 b.1 c.1 d.1 lo hi h0 h1 (hb a (by simp)) (hb b (by simp))
        (hb c (by simp)) (hb d (by simp))
    · intro lo hi hb
      exact blend4_bounds pct a.2.1 b.2.1 c.2.1 d.2.1 lo hi h0 h1 (hb a (by simp))
        (hb b (by simp)) (hb c (by simp)) (hb d (by simp))
    · intro lo hi hb
      exact blend4_bounds pct a.2.2 b.2.2 c.2.2 d.2.2 lo hi h0 h1 (hb a (by simp))
        (hb b (by simp)) (hb c (by simp)) (hb d (by simp))

/-- Example in exact arithmetic: a quadratic curve at its middle stays within the bounds
of its control points in every coordinate. -/
theorem bezier_within_control_points_witness :
    ∃ r, bezier (1 / 2) [(0, 0, 1), (2, 4, 1), (4, 0, 3)] true = .ok r
      ∧ (0 ≤ r.1 ∧ r.1 ≤ 4) ∧ (0 ≤ r.2.1 ∧ r.2.1 ≤ 4) ∧ (1 ≤ r.2.2 ∧ r.2.2 ≤ 3) := by
  obtain ⟨r, hr, hx, hy, hz⟩ := bezier_within_control_points (1 / 2)
    [(0, 0, 1), (2, 4, 1), (4, 0, 3)] (by norm_num) (by norm_num) (Or.inr (Or.inl rfl))
  refine ⟨r, hr, hx 0 4 ?_, hy 0 4 ?_, hz 1 3 ?_⟩
  · intro p hp
    simp only [List.mem_cons, List.mem_singleton, List.not_mem_nil, or_false] at hp
    rcases hp with rfl | rfl | rfl <;> norm_num
  · intro p hp
    simp only [List.mem_cons, List.mem_singleton, List.not_mem_nil, or_false] at hp
    rcases hp with rfl | rfl | rfl <;> norm_num
  · intro p hp
    simp only [List.mem_cons, List.mem_singleton, List.not_mem_nil, or_false] at hp
    rcases hp with rfl | rfl | rfl <;> norm_num

/-- C29. The pair `(0, 0)` that `line_intersect` returns for parallel lines
is also what it returns for the x axis and the y axis, two non-parallel lines
of non-zero length that cross in the origin: the two results are the same
value, for both values of `strict`. -/
theorem line_intersect_parallel_looks_like_origin (strict : Bool) :
    line_intersect 0 0 1 0 0 1 1 1 strict = .ok (((0 : ℚ) : Double), ((0 : ℚ) : Double))
      ∧ line_intersect (-1) 0 1 0 0 (-1) 0 1 strict
          = .ok (((0 : ℚ) : Double), ((0 : ℚ) : Double))
      ∧ ((0 : ℚ) - 1) * (1 - 1) - (0 - 0) * (0 - 1) = 0
      ∧ ((-1 : ℚ) - 1) * (-1 - 1) - (0 - 0) * (0 - 0) ≠ 0
      ∧ line_intersect 0 0 1 0 0 1 1 1 strict = line_intersect (-1) 0 1 0 0 (-1) 0 1 strict := by
  have hpar : line_intersect 0 0 1 0 0 1 1 1 strict
      = .ok (((0 : ℚ) : Double), ((0 : ℚ) : Double)) := by
    unfold line_intersect
    norm_num
  have hcross : line_intersect (-1) 0 1 0 0 (-1) 0 1 strict
      = .ok (((0 : ℚ) : Double), ((0 : ℚ) : Double)) := by
    cases strict <;>
    · unfold line_intersect
      norm_num [fdiv, bind, Except.bind, pure, Except.pure]
  exact ⟨hpar, hcross, by norm_num, by norm_num, hpar.trans hcross.symm⟩

/-- C30, as stated, fails.  For the types `[PT_MOVETO, PT_BEZIERTO,
PT_BEZIERTO]` with `points_n = 3` the loop processes the curve entry at index
1 and reads `points[3]`, outside the arrays: the index `i + 2` is not
`< points_n`.  The same happens for the single entry `[PT_BEZIERTO]`. -/
theorem gdi_truncated_curve_reads_outside :
    gdiShape 1 1 1 [(0, 0), (1, 0), (1, 1)] [6, 4, 4] 3 = .error .bad_access
      ∧ gdiShape 1 1 1 [(0, 0)] [4] 1 = .error .bad_access
      ∧ ¬ (1 + 2 < 3)
      ∧ ¬ gdiCurvesComplete [6, 4, 4] 3 3 0 := by
  refine ⟨?_, ?_, by decide, by simp [gdiCurvesComplete, PT_BEZIERTO, PT_CLOSEFIGURE]⟩
  · unfold gdiShape
    rw [gdiLoop]
    simp only [arrAt, PT_MOVETO, PT_LINETO, PT_BEZIERTO, PT_CLOSEFIGURE]
    norm_num
    rw [gdiLoop]
    simp [arrAt, PT_MOVETO, PT_LINETO, PT_BEZIERTO, PT_CLOSEFIGURE]
  · unfold gdiShape
    rw [gdiLoop]
    simp [arrAt, PT_MOVETO, PT_LINETO, PT_BEZIERTO, PT_CLOSEFIGURE]

/-- In exact arithmetic `line_intersect` is symmetric in its geometric arguments: exchanging
the two lines, or the two end points of the first or of the second line,
gives the same result, for both values of `strict`; on the inputs on which it
throws, the exchanged call throws the same exception. -/
theorem line_intersect_symmetric (x0 y0 x1 y1 x2 y2 x3 y3 : ℚ) (strict : Bool) :
    line_intersect x2 y2 x3 y3 x0 y0 x1 y1 strict
        = line_intersect x0 y0 x1 y1 x2 y2 x3 y3 strict
      ∧ line_intersect x1 y1 x0 y0 x2 y2 x3 y3 strict
        = line_intersect x0 y0 x1 y1 x2 y2 x3 y3 strict
      ∧ line_intersect x0 y0 x1 y1 x3 y3 x2 y2 strict
        = line_intersect x0 y0 x1 y1 x2 y2 x3 y3 strict := by
  refine ⟨line_intersect_swap_lines x0 y0 x1 y1 x2 y2 x3 y3 strict,
    line_intersect_swap_ends x0 y0 x1 y1 x2 y2 x3 y3 strict, ?_⟩
  rw [line_intersect_swap_lines x3 y3 x2 y2 x0 y0 x1 y1 strict,
    line_intersect_swap_ends x2 y2 x3 y3 x0 y0 x1 y1 strict,
    line_intersect_swap_lines x0 y0 x1 y1 x2 y2 x3 y3 strict]

/-- In exact arithmetic, for `0 < angle <= 360` and all start and centre points, the pairs
`arc_curve` returns form one connected path from the start point: the first
pair is `(x, y)`, and the first control point of every curve after the first
(index `4 * (k + 1)`) is the last control point of the curve before it (index
`4 * k + 3`). -/
theorem arc_curve_connected (sqrt : ℚ → ℚ) (rotate2d : ℚ → ℚ → ℚ → Point2)
    (x y cx cy angle : ℚ) (hpos : 0 < angle) (hle : angle ≤ 360) :
    ∃ curves, arc_curve sqrt rotate2d x y cx cy angle = .ok curves
      ∧ curves[0]? = some (x, y)
      ∧ ∀ k, 4 * (k + 1) < curves.length → curves[4 * (k + 1)]? = curves[4 * k + 3]? := by
  have hg1 : ¬ (angle < -360 ∨ angle > 360) := by
    intro h; rcases h with h | h <;> linarith
  have hg2 : ¬ angle = 0 := ne_of_gt hpos
  obtain ⟨ext, hout, _, hfirst, hchain⟩ := arcLoop_chain sqrt rotate2d cx cy angle
    (if angle > 0 then 1 else -1) (4 * (sqrt 2 - 1) / 3) _ (x - cx) (y - cy) 0 [] rfl
  have hn : 0 < (⌈(angle - 0) / 90⌉).toNat := by
    have : 0 < ⌈(angle - 0) / 90⌉ := Int.ceil_pos.mpr (by
      rw [sub_zero]
      exact div_pos hpos (by norm_num))
    omega
  refine ⟨ext, ?_, ?_, hchain⟩
  · rw [arc_curve, if_neg hg1, if_neg hg2]
    simpa using hout
  · rw [hfirst hn]
    congr 1
    ext <;> simp

/-- Example in exact arithmetic at three quarters of a circle around `(1, 1)` from `(2, 1)`. -/
theorem arc_curve_connected_witness :
    ∃ curves, arc_curve sampleSqrt sampleRotate2d 2 1 1 1 270 = .ok curves
      ∧ curves[0]? = some (2, 1)
      ∧ ∀ k, 4 * (k + 1) < curves.length → curves[4 * (k + 1)]? = curves[4 * k + 3]? :=
  arc_curve_connected sampleSqrt sampleRotate2d 2 1 1 1 270 (by norm_num) (by norm_num)

/-- C30, amended.  For all arrays `points` and `types` of length `points_n`
in which every curve entry the loop processes at an index `i` has
`i + 2 < points_n`, whatever the other entries hold (invalid type codes
included), the conversion loop reads inside the arrays only and returns the
shape.  This is the case for the arrays of every list of complete commands
(moves, lines and curves of three points). -/
theorem gdi_reads_in_bounds (ds xs ys : ℚ) (points : List (ℤ × ℤ)) (types : List ℕ)
    (points_n : ℕ) (hT : types.length = points_n) (hP : points.length = points_n)
    (hcurves : gdiCurvesComplete types points_n points_n 0) :
    (∃ toks, gdiShape ds xs ys points types points_n = .ok toks)
      ∧ gdiShape ds xs ys points types points_n ≠ .error .bad_access
      ∧ (∀ cmds : List GdiCmd, ∃ toks,
          gdiShape ds xs ys (gdiPoints cmds) (gdiTypes cmds) (gdiTypes cmds).length
            = .ok toks) := by
  obtain ⟨toks, h⟩ := gdiLoop_in_bounds ds xs ys points types points_n hT hP points_n 0 0xff []
    (by omega) hcurves
  refine ⟨⟨toks, h⟩, ?_, fun cmds => ⟨_, gdiShape_cmds ds xs ys cmds⟩⟩
  intro hbad
  rw [gdiShape] at hbad
  rw [h] at hbad
  cases hbad

/-- Witness of C30 (amended): a move, a complete curve whose last point
closes the figure, and an entry with an invalid type code. -/
theorem gdi_reads_in_bounds_witness :
    (∃ toks, gdiShape 1 1 1 [(0, 0), (1, 0), (1, 1), (0, 1), (5, 5)] [6, 4, 4, 5, 9] 5
        = .ok toks)
      ∧ gdiShape 1 1 1 [(0, 0), (1, 0), (1, 1), (0, 1), (5, 5)] [6, 4, 4, 5, 9] 5
          ≠ .error .bad_access :=
  let h := gdi_reads_in_bounds 1 1 1 [(0, 0), (1, 0), (1, 1), (0, 1), (5, 5)] [6, 4, 4, 5, 9] 5
    rfl rfl (by simp [gdiCurvesComplete, PT_BEZIERTO, PT_CLOSEFIGURE])
  ⟨h.1, h.2.1⟩

/-- C31 fails for the empty text. With `textLen = 0` the bound `textLen - 1`
is the largest `size_t` value for every width `w`, so the condition
`i <= textLen - 1` holds for every `i`: the first loop body runs and, when
the width of the character at index 0 is measured, writes `charWidths[0]` of
an array of length 0; when it is not measured the pass is left with the
failure of `GetTextExtentPoint32W`. Neither is "zero iterations". -/
theorem width_loop_empty_text_enters_body (w fuel : ℕ) (space cx : ℤ) :
    sizeSub w 0 1 + 1 = 2 ^ w
    ∧ 0 ≤ sizeSub w 0 1
    ∧ charWidthsPass w (fun _ => some cx) space 0 (fuel + 1) = some (.error .bad_access)
    ∧ charWidthsPass w (fun _ => none) space 0 (fuel + 1)
        = some (.ok (.extent_failed, ⟨[], 0⟩))
    ∧ charWidthsPass 64 (fun _ => some 7) 3 0 1 = some (.error .bad_access) := by
  refine ⟨sizeSub_zero_one w, Nat.zero_le _, ?_, ?_, ?_⟩
  · unfold charWidthsPass
    rw [if_neg (by decide), widthLoop, if_pos (Nat.zero_le _)]
    simp
  · unfold charWidthsPass
    rw [if_neg (by decide), widthLoop, if_pos (Nat.zero_le _)]
    simp
  · unfold charWidthsPass
    rw [if_neg (by decide), widthLoop, if_pos (Nat.zero_le _)]
    simp

/-- C3, as stated, fails.  With `is3D = false`, the default, `bezier` on five
control points with z = 1 returns z = 0, while the sum
`sum_i P_i * (C(4,i) * pct^i + (1-pct)^(4-i))` of the z coordinates at
`pct = 1/2` is 7.  And in binary64 `fac(170)` is `7.257415615307994e306`
while `fac(171)` is `+inf`, so that for 172 or more control points
`fac(n) / (fac(i) * fac(n-i))` is not a binomial coefficient. -/
theorem bezier_generic_flat_has_zero_z :
    bezier (1 / 2) [(0, 0, 1), (0, 0, 1), (0, 0, 1), (0, 0, 1), (0, 0, 1)] false = .ok (0, 0, 0)
      ∧ addedBernsteinSum (fun p => p.2.2) (1 / 2)
          [(0, 0, 1), (0, 0, 1), (0, 0, 1), (0, 0, 1), (0, 0, 1)] = 7
      ∧ F64.fac (F64.ofInt 170) 200
          = some (F64.lit ((7257415615307994 * 10 ^ 291 : ℕ) : ℤ) 1)
      ∧ F64.fac (F64.ofInt 171) 200 = some (F64.inf false) := by
  refine ⟨?_, ?_, by decide, by decide⟩
  · rw [bezier_of_five _ _ _ (by norm_num) (by norm_num) (by simp),
      bezierN_eq _ _ _ (by simp)]
    norm_num [addedBernsteinSum, Finset.sum_range_succ]
  · norm_num [addedBernsteinSum, Finset.sum_range_succ, Nat.choose]

/-- C10, as stated, fails.  The segments `(0,0)-(0.7,0.7)` and
`(0.7,0.7)-(1.3,0.1)` share the end point `(0.7,0.7)`, which is where their
lines meet: in exact arithmetic `line_intersect` returns this point for
`strict = true`.  In binary64 the computed point is
`(0.6999999999999998, 0.6999999999999998)` and the strict call returns
`(+inf, +inf)`. -/
theorem line_intersect_strict_misses_shared_end_point :
    F64.line_intersect F64.zero F64.zero (F64.lit 7 10) (F64.lit 7 10)
        (F64.lit 7 10) (F64.lit 7 10) (F64.lit 13 10) (F64.lit 1 10) true
      = .ok (F64.inf false, F64.inf false)
    ∧ F64.line_intersect F64.zero F64.zero (F64.lit 7 10) (F64.lit 7 10)
        (F64.lit 7 10) (F64.lit 7 10) (F64.lit 13 10) (F64.lit 1 10) false
      = .ok (F64.lit 6999999999999998 10000000000000000,
          F64.lit 6999999999999998 10000000000000000)
    ∧ line_intersect 0 0 (F64.toRat (F64.lit 7 10)) (F64.toRat (F64.lit 7 10))
        (F64.toRat (F64.lit 7 10)) (F64.toRat (F64.lit 7 10))
        (F64.toRat (F64.lit 13 10)) (F64.toRat (F64.lit 1 10)) true
      = .ok (((F64.toRat (F64.lit 7 10) : ℚ) : Double), ((F64.toRat (F64.lit 7 10) : ℚ) : Double)) := by
  refine ⟨ok_of_toOption (by decide), ok_of_toOption (by decide), ?_⟩
  have ha : F64.toRat (F64.lit 7 10) = 3152519739159347 / 4503599627370496 := by
    have hlit : F64.lit 7 10
        = F64.fin ((3152519739159347 * 2 ^ 1022 : ℕ) : ℤ) := by decide
    rw [hlit]
    norm_num [F64.toRat]
  have hb : F64.toRat (F64.lit 13 10) = 5854679515581645 / 4503599627370496 := by
    have hlit : F64.lit 13 10
        = F64.fin ((5854679515581645 * 2 ^ 1022 : ℕ) : ℤ) := by decide
    rw [hlit]
    norm_num [F64.toRat]
  have hc : F64.toRat (F64.lit 1 10) = 3602879701896397 / 36028797018963968 := by
    have hlit : F64.lit 1 10
        = F64.fin ((3602879701896397 * 2 ^ 1019 : ℕ) : ℤ) := by decide
    rw [hlit]
    norm_num [F64.toRat]
  rw [ha, hb, hc]
  rw [line_intersect_strict_eq _ _ _ _ _ _ _ _ (by norm_num)]
  norm_num [crossX, crossY, segParam]

/-- C10, amended.  Binary64: on segments of non-zero length with a non-zero
determinant `line_intersect` returns for `strict = false` the computed point
`(ix, iy)`; for `strict = true` it returns `(+inf, +inf)` exactly when one of
the parameters `s`, `t` that the code computes from `(ix, iy)` is below 0 or
above 1, and `(ix, iy)` otherwise; no division has the divisor zero.  Exact
arithmetic: `s` and `t` are the parameters of the intersection point of the
lines along the two segments, so `(+inf, +inf)` is returned if and only if
that point lies outside one of the segments, end points included. -/
theorem line_intersect_strict_by_computed_parameters (X0 Y0 X1 Y1 X2 Y2 X3 Y3 : F64)
    (x0 y0 x1 y1 x2 y2 x3 y3 : ℚ)
    (hlen : (F64.eq (F64.sub X0 X1) F64.zero && F64.eq (F64.sub Y0 Y1) F64.zero
        || F64.eq (F64.sub X2 X3) F64.zero && F64.eq (F64.sub Y2 Y3) F64.zero) = false)
    (hdet : F64.eq (F64.sub (F64.mul (F64.sub X0 X1) (F64.sub Y2 Y3))
        (F64.mul (F64.sub Y0 Y1) (F64.sub X2 X3))) F64.zero = false)
    (hdetQ : (x0 - x1) * (y2 - y3) - (y0 - y1) * (x2 - x3) ≠ 0) :
    (∃ ix iy s t,
      F64.line_intersect X0 Y0 X1 Y1 X2 Y2 X3 Y3 false = .ok (ix, iy)
      ∧ s = F64.segParam ix iy X1 Y1 (F64.sub X0 X1) (F64.sub Y0 Y1)
      ∧ t = F64.segParam ix iy X3 Y3 (F64.sub X2 X3) (F64.sub Y2 Y3)
      ∧ ((F64.lt s F64.zero || F64.lt (F64.ofInt 1) s || F64.lt t F64.zero
            || F64.lt (F64.ofInt 1) t) = true →
          F64.line_intersect X0 Y0 X1 Y1 X2 Y2 X3 Y3 true = .ok (F64.inf false, F64.inf false))
      ∧ ((F64.lt s F64.zero || F64.lt (F64.ofInt 1) s || F64.lt t F64.zero
            || F64.lt (F64.ofInt 1) t) = false →
          F64.line_intersect X0 Y0 X1 Y1 X2 Y2 X3 Y3 true = .ok (ix, iy))
      ∧ (∃ num d, F64.eq d F64.zero = false ∧ ix = F64.div num d)
      ∧ (∃ num d, F64.eq d F64.zero = false ∧ iy = F64.div num d)
      ∧ (∃ num d, F64.eq d F64.zero = false ∧ s = F64.div num d)
      ∧ (∃ num d, F64.eq d F64.zero = false ∧ t = F64.div num d))
    ∧ (∃ ix iy s t : ℚ,
      line_intersect x0 y0 x1 y1 x2 y2 x3 y3 false = .ok ((ix : Double), (iy : Double))
      ∧ (ix = x1 + s * (x0 - x1) ∧ iy = y1 + s * (y0 - y1))
      ∧ (ix = x3 + t * (x2 - x3) ∧ iy = y3 + t * (y2 - y3))
      ∧ (line_intersect x0 y0 x1 y1 x2 y2 x3 y3 true = .ok ((⊤ : Double), (⊤ : Double))
          ↔ (s < 0 ∨ s > 1 ∨ t < 0 ∨ t > 1))
      ∧ (¬ (s < 0 ∨ s > 1 ∨ t < 0 ∨ t > 1) →
          line_intersect x0 y0 x1 y1 x2 y2 x3 y3 true = .ok ((ix : Double), (iy : Double)))
      ∧ (∀ e, line_intersect x0 y0 x1 y1 x2 y2 x3 y3 true ≠ .error e)) :=
  ⟨F64.line_intersect_strict_cases X0 Y0 X1 Y1 X2 Y2 X3 Y3 hlen hdet,
    line_intersect_strict_iff x0 y0 x1 y1 x2 y2 x3 y3 hdetQ⟩

/-- Witness of C10 (amended): the segment `(-1,0)-(1,0)` and the segment
`(0,1)-(0,2)`, in binary64 and in exact arithmetic. -/
theorem line_intersect_strict_by_computed_parameters_witness :
    (∃ ix iy, F64.line_intersect (F64.ofInt (-1)) F64.zero (F64.ofInt 1) F64.zero
        F64.zero (F64.ofInt 1) F64.zero (F64.ofInt 2) false = .ok (ix, iy))
      ∧ (∃ ix iy : ℚ, line_intersect (-1) 0 1 0 0 1 0 2 false
          = .ok ((ix : Double), (iy : Double))) := by
  obtain ⟨⟨ix, iy, _, _, h, _⟩, ⟨jx, jy, _, _, hq, _⟩⟩ :=
    line_intersect_strict_by_computed_parameters (F64.ofInt (-1)) F64.zero (F64.ofInt 1)
      F64.zero F64.zero (F64.ofInt 1) F64.zero (F64.ofInt 2) (-1) 0 1 0 0 1 0 2
      (by decide) (by decide) (by norm_num)
  exact ⟨⟨ix, iy, h⟩, ⟨jx, jy, hq⟩⟩

/-- C12, as stated, fails.  In binary64 `round(0.49999999999999994)` is 1,
above `x + 0.5`; and `round(1.45, 1)` is 1.5 although the double `1.45` lies
below 1.45, so that the formula evaluated exactly gives 1.4. -/
theorem round_crosses_half :
    F64.round (F64.lit 49999999999999994 100000000000000000) F64.zero = F64.ofInt 1
      ∧ F64.toRat (F64.lit 49999999999999994 100000000000000000) + 1 / 2 < 1
      ∧ F64.round (F64.lit 145 100) (F64.ofInt 1) = F64.lit 15 10
      ∧ round (F64.toRat (F64.lit 145 100)) 1 = 14 / 10 := by
  have hx : F64.toRat (F64.lit 49999999999999994 100000000000000000)
      = 9007199254740991 / 18014398509481984 := by
    have hlit : F64.lit 49999999999999994 100000000000000000
        = F64.fin ((9007199254740991 * 2 ^ 1020 : ℕ) : ℤ) := by decide
    rw [hlit]
    norm_num [F64.toRat]
  have hy : F64.toRat (F64.lit 145 100) = 6530219459687219 / 4503599627370496 := by
    have hlit : F64.lit 145 100
        = F64.fin ((6530219459687219 * 2 ^ 1022 : ℕ) : ℤ) := by decide
    rw [hlit]
    norm_num [F64.toRat]
  refine ⟨by decide, ?_, by decide, ?_⟩
  · rw [hx]
    norm_num
  · rw [hy]
    have h := (round_half_up (6530219459687219 / 4503599627370496) 0 1).1 (le_refl 1)
    rw [show ((1 : ℕ) : ℚ) = 1 by norm_num] at h
    rw [h]
    have hfl : ⌊(6530219459687219 / 4503599627370496 : ℚ) * 10 ^ 1 + 1 / 2⌋ = 14 := by
      rw [Int.floor_eq_iff]
      constructor <;> norm_num
    rw [hfl]
    norm_num

/-- C12, amended.  Binary64: for `dec >= 1` `round` returns
`floor(x * p + 0.5) / p` with `p = pow(10, floor(dec))`, and for `dec < 1`
`floor(x + 0.5)`, a value that `floor` leaves unchanged, every operation
rounded to a double; `round(2.345, 2)` is `2.35`.  Exact arithmetic: the formula gives the multiple of `10^-k` nearest
to `x`, exact ties upward, `x - 0.5 * 10^-k < round x k <= x + 0.5 * 10^-k`. -/
theorem round_formula_in_doubles (X D : F64) (x dec : ℚ) (k : ℕ) :
    ((F64.eq D F64.zero = false → F64.le (F64.ofInt 1) D = true →
        F64.round X D = F64.div (F64.floor (F64.add (F64.mul X (F64.pow10 (F64.floor D)))
          (F64.lit 1 2))) (F64.pow10 (F64.floor D)))
      ∧ (F64.le (F64.ofInt 1) D = false → F64.round X D = F64.floor (F64.add X (F64.lit 1 2)))
      ∧ (F64.le (F64.ofInt 1) D = false → F64.floor (F64.round X D) = F64.round X D)
      ∧ F64.round (F64.lit 2345 1000) (F64.ofInt 2) = F64.lit 235 100)
    ∧ ((1 ≤ k → round x (k : ℚ) = (⌊x * 10 ^ k + 1 / 2⌋ : ℚ) / 10 ^ k)
      ∧ (dec < 1 → round x dec = (⌊x + 1 / 2⌋ : ℚ))
      ∧ (∃ m : ℤ, round x (k : ℚ) = (m : ℚ) / 10 ^ k)
      ∧ x - 1 / 2 / 10 ^ k < round x (k : ℚ)
      ∧ round x (k : ℚ) ≤ x + 1 / 2 / 10 ^ k
      ∧ round (2345 / 1000) 2 = 235 / 100) :=
  ⟨⟨(F64.round_cases X D).1, (F64.round_cases X D).2, F64.round_whole X D, by decide⟩,
    round_half_up x dec k⟩

/-- C14, as stated, fails.  In binary64 the non-zero vector `(2^-600, 0, 0)`
is returned as `(0, 0, 0)` for the length 5, its square being rounded to 0;
and `(1, 1, 0)` stretched to the length 1 gives twice `0.7071067811865475`,
at the distance `0.9999999999999999`, below 1. -/
theorem stretch_misses_length :
    F64.stretch (F64.fin ((2 ^ 474 : ℕ) : ℤ)) F64.zero F64.zero (F64.ofInt 5)
        = (F64.zero, F64.zero, F64.zero)
      ∧ F64.toRat (F64.fin ((2 ^ 474 : ℕ) : ℤ)) = 1 / 2 ^ 600
      ∧ F64.stretch (F64.ofInt 1) (F64.ofInt 1) F64.zero (F64.ofInt 1)
        = (F64.lit 7071067811865475 10000000000000000,
           F64.lit 7071067811865475 10000000000000000, F64.zero)
      ∧ F64.distance (F64.lit 7071067811865475 10000000000000000)
          (F64.lit 7071067811865475 10000000000000000) F64.zero
        = F64.lit 9999999999999999 10000000000000000
      ∧ F64.lt (F64.lit 9999999999999999 10000000000000000) (F64.ofInt 1) = true := by
  refine ⟨by decide, ?_, by decide, by decide, by decide⟩
  norm_num [F64.toRat]

/-- C14, amended.  Binary64: `stretch` returns `(0, 0, 0)` when the computed
length `sqrt(x*x + y*y + z*z)` is 0, as for the zero vector, and otherwise
the coordinates times the factor `length / cur_length`, a division by a
number other than zero, the factor not being negative when `length` is not.
Exact arithmetic: for a non-zero vector and `L >= 0` the result has the
distance `L` exactly and is a non-negative multiple of `(x, y, z)`. -/
theorem stretch_scales_by_factor (X Y Z Len : F64) (x y z L : ℝ)
    (hv : x ≠ 0 ∨ y ≠ 0 ∨ z ≠ 0) (hL : 0 ≤ L) :
    ((F64.eq (F64.distance X Y Z) F64.zero = true →
          F64.stretch X Y Z Len = (F64.zero, F64.zero, F64.zero))
      ∧ (F64.eq (F64.distance X Y Z) F64.zero = false →
          F64.stretch X Y Z Len
            = (F64.mul X (F64.div Len (F64.distance X Y Z)),
               F64.mul Y (F64.div Len (F64.distance X Y Z)),
               F64.mul Z (F64.div Len (F64.distance X Y Z))))
      ∧ (F64.lt Len F64.zero = false →
          F64.lt (F64.div Len (F64.distance X Y Z)) F64.zero = false)
      ∧ F64.stretch F64.zero F64.zero F64.zero Len = (F64.zero, F64.zero, F64.zero))
    ∧ ((∃ p : ℝ × ℝ × ℝ, ∃ c : ℝ, stretch Real.sqrt x y z L = .ok p
        ∧ distance Real.sqrt p.1 p.2.1 p.2.2 = L
        ∧ 0 ≤ c ∧ p = (c * x, c * y, c * z))
      ∧ (∀ L' : ℝ, stretch Real.sqrt 0 0 0 L' = .ok (0, 0, 0))
      ∧ (∀ a b c L' : ℝ, ∃ q, stretch Real.sqrt a b c L' = .ok q)) :=
  ⟨⟨(F64.stretch_cases X Y Z Len).1, (F64.stretch_cases X Y Z Len).2.1,
      (F64.stretch_cases X Y Z Len).2.2, F64.stretch_zero Len⟩,
    stretch_has_length x y z L hv hL⟩

/-- Witness of C14 (amended): `(3, 4, 0)` stretched to the length 10, which
binary64 computes without rounding. -/
theorem stretch_scales_by_factor_witness :
    F64.stretch (F64.ofInt 3) (F64.ofInt 4) F64.zero (F64.ofInt 10)
        = (F64.ofInt 6, F64.ofInt 8, F64.zero)
      ∧ (∃ p : ℝ × ℝ × ℝ, stretch Real.sqrt 3 4 0 10 = .ok p
          ∧ distance Real.sqrt p.1 p.2.1 p.2.2 = 10) := by
  have h := stretch_scales_by_factor (F64.ofInt 3) (F64.ofInt 4) F64.zero (F64.ofInt 10)
    3 4 0 10 (Or.inl (by norm_num)) (by norm_num)
  obtain ⟨⟨_, hs, _, _⟩, ⟨⟨p, c, hp, hd, _, _⟩, _, _⟩⟩ := h
  refine ⟨?_, ⟨p, hp, hd⟩⟩
  rw [hs (by decide)]
  decide

/-- C15, as stated, fails.  For `v1 = v2 = (1, 5, 0)` binary64 computes the
quotient `26 / (sqrt(26) * sqrt(26))` as `1.0000000000000002`, above 1, and
`acos` returns a NaN; so does `degree`, here with stand-ins for `acos` on
`[-1, 1]` and for `deg` that return their argument. -/
theorem degree_of_parallel_vectors_is_nan :
    F64.degreeArg (F64.ofInt 1) (F64.ofInt 5) F64.zero (F64.ofInt 1) (F64.ofInt 5) F64.zero
        = F64.lit 10000000000000002 10000000000000000
      ∧ F64.lt (F64.ofInt 1) (F64.lit 10000000000000002 10000000000000000) = true
      ∧ F64.degree (fun a => a) (fun a => a)
          (F64.ofInt 1) (F64.ofInt 5) F64.zero (F64.ofInt 1) (F64.ofInt 5) F64.zero = F64.nan := by
  refine ⟨by decide, by decide, by decide⟩

/-- C15, amended.  Binary64: `degree` returns `deg(acos(q))` for the computed
quotient `q = (v1 . v2) / (|v1| * |v2|)`, times -1 exactly when the computed
`x1*y2 - y1*x2` is below zero; when `q` is above 1, `acos` returns a NaN.
Exact arithmetic: for non-zero vectors `q` lies in `[-1, 1]` and the result
lies in `[-180, 180]`, `<= 0` when the 2D cross product is negative and
`>= 0` otherwise. -/
theorem degree_by_computed_quotient (acos dg : F64 → F64) (X1 Y1 Z1 X2 Y2 Z2 : F64)
    (deg : ℝ → ℝ) (x1 y1 z1 x2 y2 z2 : ℝ)
    (hdeg : ∀ t, deg t = t * 180 / Real.pi)
    (h1 : x1 ≠ 0 ∨ y1 ≠ 0 ∨ z1 ≠ 0) (h2 : x2 ≠ 0 ∨ y2 ≠ 0 ∨ z2 ≠ 0) :
    ((F64.lt (F64.sub (F64.mul X1 Y2) (F64.mul Y1 X2)) F64.zero = true →
        F64.degree acos dg X1 Y1 Z1 X2 Y2 Z2
          = F64.mul (dg (F64.acosC acos (F64.degreeArg X1 Y1 Z1 X2 Y2 Z2))) (F64.ofInt (-1)))
      ∧ (F64.lt (F64.sub (F64.mul X1 Y2) (F64.mul Y1 X2)) F64.zero = false →
        F64.degree acos dg X1 Y1 Z1 X2 Y2 Z2
          = dg (F64.acosC acos (F64.degreeArg X1 Y1 Z1 X2 Y2 Z2)))
      ∧ (F64.lt (F64.ofInt 1) (F64.degreeArg X1 Y1 Z1 X2 Y2 Z2) = true →
        F64.acosC acos (F64.degreeArg X1 Y1 Z1 X2 Y2 Z2) = F64.nan))
    ∧ (∃ r : ℝ, degree Real.sqrt Real.arccos deg x1 y1 z1 x2 y2 z2 = .ok r
      ∧ r = (if x1 * y2 - y1 * x2 < 0 then
              -(Real.arccos ((x1 * x2 + y1 * y2 + z1 * z2)
                  / (Real.sqrt (x1 * x1 + y1 * y1 + z1 * z1)
                      * Real.sqrt (x2 * x2 + y2 * y2 + z2 * z2))) * 180 / Real.pi)
            else
              Real.arccos ((x1 * x2 + y1 * y2 + z1 * z2)
                  / (Real.sqrt (x1 * x1 + y1 * y1 + z1 * z1)
                      * Real.sqrt (x2 * x2 + y2 * y2 + z2 * z2))) * 180 / Real.pi)
      ∧ -1 ≤ (x1 * x2 + y1 * y2 + z1 * z2)
            / (Real.sqrt (x1 * x1 + y1 * y1 + z1 * z1)
                * Real.sqrt (x2 * x2 + y2 * y2 + z2 * z2))
      ∧ (x1 * x2 + y1 * y2 + z1 * z2)
            / (Real.sqrt (x1 * x1 + y1 * y1 + z1 * z1)
                * Real.sqrt (x2 * x2 + y2 * y2 + z2 * z2)) ≤ 1
      ∧ -180 ≤ r ∧ r ≤ 180
      ∧ (x1 * y2 - y1 * x2 < 0 → r ≤ 0)
      ∧ (¬ (x1 * y2 - y1 * x2 < 0) → 0 ≤ r)) :=
  ⟨F64.degree_cases acos dg X1 Y1 Z1 X2 Y2 Z2,
    degree_signed_angle deg x1 y1 z1 x2 y2 z2 hdeg h1 h2⟩

/-- Witness of C15 (amended): the angle from the x axis to the y axis; the
binary64 quotient is 0 and the computed cross product 1, not below zero. -/
theorem degree_by_computed_quotient_witness :
    F64.degree (fun a => a) (fun a => a)
        (F64.ofInt 1) F64.zero F64.zero F64.zero (F64.ofInt 1) F64.zero = F64.zero
      ∧ (∃ r : ℝ, degree Real.sqrt Real.arccos (fun t => t * 180 / Real.pi) 1 0 0 0 1 0 = .ok r
          ∧ -180 ≤ r ∧ r ≤ 180 ∧ 0 ≤ r) := by
  obtain ⟨⟨_, hf, _⟩, ⟨r, hr, _, _, _, hlo, hhi, _, hpos⟩⟩ :=
    degree_by_computed_quotient (fun a => a) (fun a => a)
      (F64.ofInt 1) F64.zero F64.zero F64.zero (F64.ofInt 1) F64.zero
      (fun t => t * 180 / Real.pi) 1 0 0 0 1 0 (fun _ => rfl)
      (Or.inl (by norm_num)) (Or.inr (Or.inl (by norm_num)))
  refine ⟨?_, ⟨r, hr, hlo, hhi, hpos (by norm_num)⟩⟩
  rw [hf (by decide)]
  decide

/-- C20.  A glyph outline of two figures, the first closed by a curve, as GDI
stores it: the types `[6, 4, 4, 5, 6, 2, 3]`, the close-figure bit of the
curve on its third point.  The GDI loop pushes
`m x y b x y x y x y m x y l x y x y c`: the close of the first figure, a
command whose kind differs from the curve before it, gets no marker.  The
cairo loop on the same path (move, curve, close, move, line, line, close)
pushes the tokens of the marker rule, `c` after the curve included. -/
theorem gdi_closed_curve_breaks_marker_rule :
    gdiShape 1 1 1 [(0, 0), (1, 0), (1, 1), (0, 1), (5, 5), (6, 5), (6, 6)]
        [6, 4, 4, 5, 6, 2, 3] 7
      = .ok ([Token.marker "m"] ++ gdiXY 1 1 1 (0, 0) ++ [Token.marker "b"]
          ++ gdiXY 1 1 1 (1, 0) ++ gdiXY 1 1 1 (1, 1) ++ gdiXY 1 1 1 (0, 1)
          ++ [Token.marker "m"] ++ gdiXY 1 1 1 (5, 5) ++ [Token.marker "l"]
          ++ gdiXY 1 1 1 (6, 5) ++ gdiXY 1 1 1 (6, 6) ++ [Token.marker "c"])
    ∧ cairoShape (cairoData [CairoCmd.move_to 0 0, CairoCmd.curve_to 1 0 1 1 0 1,
          CairoCmd.close_path, CairoCmd.move_to 5 5, CairoCmd.line_to 6 5, CairoCmd.line_to 6 6,
          CairoCmd.close_path]) 7
      = some (.ok (markedTokens CairoCmd.kind CairoCmd.payload none
          [CairoCmd.move_to 0 0, CairoCmd.curve_to 1 0 1 1 0 1,
            CairoCmd.close_path, CairoCmd.move_to 5 5, CairoCmd.line_to 6 5, CairoCmd.line_to 6 6,
            CairoCmd.close_path]))
    ∧ markedTokens CairoCmd.kind CairoCmd.payload none
          [CairoCmd.move_to 0 0, CairoCmd.curve_to 1 0 1 1 0 1,
            CairoCmd.close_path, CairoCmd.move_to 5 5, CairoCmd.line_to 6 5, CairoCmd.line_to 6 6,
            CairoCmd.close_path]
      = [Token.marker "m"] ++ gdiXY 1 1 1 (0, 0) ++ [Token.marker "b"]
          ++ gdiXY 1 1 1 (1, 0) ++ gdiXY 1 1 1 (1, 1) ++ gdiXY 1 1 1 (0, 1)
          ++ [Token.marker "c", Token.marker "m"] ++ gdiXY 1 1 1 (5, 5) ++ [Token.marker "l"]
          ++ gdiXY 1 1 1 (6, 5) ++ gdiXY 1 1 1 (6, 6) ++ [Token.marker "c"]
    ∧ gdiShape 1 1 1 [(0, 0), (1, 0), (1, 1), (0, 1), (5, 5), (6, 5), (6, 6)]
        [6, 4, 4, 5, 6, 2, 3] 7
      ≠ .ok (markedTokens CairoCmd.kind CairoCmd.payload none
          [CairoCmd.move_to 0 0, CairoCmd.curve_to 1 0 1 1 0 1,
            CairoCmd.close_path, CairoCmd.move_to 5 5, CairoCmd.line_to 6 5, CairoCmd.line_to 6 6,
            CairoCmd.close_path]) := by
  have h1 : gdiShape 1 1 1 [(0, 0), (1, 0), (1, 1), (0, 1), (5, 5), (6, 5), (6, 6)]
        [6, 4, 4, 5, 6, 2, 3] 7
      = .ok ([Token.marker "m"] ++ gdiXY 1 1 1 (0, 0) ++ [Token.marker "b"]
          ++ gdiXY 1 1 1 (1, 0) ++ gdiXY 1 1 1 (1, 1) ++ gdiXY 1 1 1 (0, 1)
          ++ [Token.marker "m"] ++ gdiXY 1 1 1 (5, 5) ++ [Token.marker "l"]
          ++ gdiXY 1 1 1 (6, 5) ++ gdiXY 1 1 1 (6, 6) ++ [Token.marker "c"]) := by
    have h := gdiShape_cmds 1 1 1 [GdiCmd.move (0, 0), GdiCmd.curve false (1, 0) (1, 1) (0, 1) 4 5,
      GdiCmd.move (5, 5), GdiCmd.line false (6, 5), GdiCmd.line true (6, 6)]
    have hp : gdiPoints [GdiCmd.move (0, 0), GdiCmd.curve false (1, 0) (1, 1) (0, 1) 4 5,
        GdiCmd.move (5, 5), GdiCmd.line false (6, 5), GdiCmd.line true (6, 6)]
        = [(0, 0), (1, 0), (1, 1), (0, 1), (5, 5), (6, 5), (6, 6)] := rfl
    have ht : gdiTypes [GdiCmd.move (0, 0), GdiCmd.curve false (1, 0) (1, 1) (0, 1) 4 5,
        GdiCmd.move (5, 5), GdiCmd.line false (6, 5), GdiCmd.line true (6, 6)]
        = [6, 4, 4, 5, 6, 2, 3] := rfl
    rw [hp, ht] at h
    rw [show ([6, 4, 4, 5, 6, 2, 3] : List ℕ).length = 7 from rfl] at h
    rw [h]
    simp [gdiTrace, gdiEmit, gdiNext, GdiCmd.base, GdiCmd.code, GdiCmd.closed, GdiCmd.kind,
      GdiCmd.payload, Kind.letter, PT_MOVETO, PT_LINETO, PT_BEZIERTO, PT_CLOSEFIGURE]
  have h2 : markedTokens CairoCmd.kind CairoCmd.payload none
          [CairoCmd.move_to 0 0, CairoCmd.curve_to 1 0 1 1 0 1,
            CairoCmd.close_path, CairoCmd.move_to 5 5, CairoCmd.line_to 6 5, CairoCmd.line_to 6 6,
            CairoCmd.close_path]
      = [Token.marker "m"] ++ gdiXY 1 1 1 (0, 0) ++ [Token.marker "b"]
          ++ gdiXY 1 1 1 (1, 0) ++ gdiXY 1 1 1 (1, 1) ++ gdiXY 1 1 1 (0, 1)
          ++ [Token.marker "c", Token.marker "m"] ++ gdiXY 1 1 1 (5, 5) ++ [Token.marker "l"]
          ++ gdiXY 1 1 1 (6, 5) ++ gdiXY 1 1 1 (6, 6) ++ [Token.marker "c"] := by
    simp [markedTokens, CairoCmd.kind, CairoCmd.payload, Kind.letter, gdiXY]
  refine ⟨h1, ?_, h2, ?_⟩
  · have h := cairoLoop_marked [CairoCmd.move_to 0 0, CairoCmd.curve_to 1 0 1 1 0 1,
      CairoCmd.close_path, CairoCmd.move_to 5 5, CairoCmd.line_to 6 5, CairoCmd.line_to 6 6,
      CairoCmd.close_path] [] none [] 7 (by decide)
    simpa [cairoShape, cairoLast] using h
  · rw [h1, h2]
    intro h
    injection h with h
    have hlen := congrArg List.length h
    simp [gdiXY_length] at hlen

/-- C26, as stated, fails for `strict = true`.  The line through
`(0.1, 0.4)` and `(0.9, 0.7)` meets the vertical line `x = 0.1` in its end
point `(0.1, 0.4)`: binary64 returns `(0.09999999999999998, 0.4)` for these
arguments and `(+inf, +inf)` when the two end points of the first line are
exchanged. -/
theorem line_intersect_strict_depends_on_end_order :
    F64.line_intersect (F64.lit 1 10) (F64.lit 4 10) (F64.lit 9 10) (F64.lit 7 10)
        (F64.lit 1 10) (F64.ofInt 1) (F64.lit 1 10) (F64.lit 1 10) true
      = .ok (F64.lit 9999999999999998 100000000000000000, F64.lit 4 10)
    ∧ F64.line_intersect (F64.lit 9 10) (F64.lit 7 10) (F64.lit 1 10) (F64.lit 4 10)
        (F64.lit 1 10) (F64.ofInt 1) (F64.lit 1 10) (F64.lit 1 10) true
      = .ok (F64.inf false, F64.inf false) :=
  ⟨ok_of_toOption (by decide), ok_of_toOption (by decide)⟩

/-- C26, amended.  Binary64: exchanging the two lines leaves the result of
`line_intersect` unchanged for both values of `strict`, and exchanging the two
end points of the first or of the second line leaves it unchanged for
`strict = false` (a zero is returned without its sign).  Exact arithmetic:
each of the three exchanges leaves the result unchanged for both values of
`strict`, the thrown exception included. -/
theorem line_intersect_exchange_symmetry (X0 Y0 X1 Y1 X2 Y2 X3 Y3 : F64)
    (x0 y0 x1 y1 x2 y2 x3 y3 : ℚ) (strict : Bool) :
    (F64.line_intersect X2 Y2 X3 Y3 X0 Y0 X1 Y1 strict
        = F64.line_intersect X0 Y0 X1 Y1 X2 Y2 X3 Y3 strict
      ∧ F64.line_intersect X1 Y1 X0 Y0 X2 Y2 X3 Y3 false
        = F64.line_intersect X0 Y0 X1 Y1 X2 Y2 X3 Y3 false
      ∧ F64.line_intersect X0 Y0 X1 Y1 X3 Y3 X2 Y2 false
        = F64.line_intersect X0 Y0 X1 Y1 X2 Y2 X3 Y3 false)
    ∧ (line_intersect x2 y2 x3 y3 x0 y0 x1 y1 strict
        = line_intersect x0 y0 x1 y1 x2 y2 x3 y3 strict
      ∧ line_intersect x1 y1 x0 y0 x2 y2 x3 y3 strict
        = line_intersect x0 y0 x1 y1 x2 y2 x3 y3 strict
      ∧ line_intersect x0 y0 x1 y1 x3 y3 x2 y2 strict
        = line_intersect x0 y0 x1 y1 x2 y2 x3 y3 strict) :=
  ⟨⟨F64.line_intersect_lines_exchanged X0 Y0 X1 Y1 X2 Y2 X3 Y3 strict,
      F64.line_intersect_swap_first X0 Y0 X1 Y1 X2 Y2 X3 Y3,
      F64.line_intersect_swap_second X0 Y0 X1 Y1 X2 Y2 X3 Y3⟩,
    line_intersect_symmetric x0 y0 x1 y1 x2 y2 x3 y3 strict⟩

/-- C27, as stated, fails.  In binary64 `bezier2` at `pct = 0.18` on two
control points with all coordinates `0.1` returns `0.10000000000000002` in
each coordinate, above the maximum `0.1` of the control points. -/
theorem bezier_leaves_control_range :
    F64.bezier2 (F64.lit 18 100)
        [(F64.lit 1 10, F64.lit 1 10, F64.lit 1 10), (F64.lit 1 10, F64.lit 1 10, F64.lit 1 10)]
        true
      = .ok (F64.lit 10000000000000002 100000000000000000,
          F64.lit 10000000000000002 100000000000000000,
          F64.lit 10000000000000002 100000000000000000)
    ∧ F64.lt (F64.lit 1 10) (F64.lit 10000000000000002 100000000000000000) = true :=
  ⟨ok_of_toOption (by decide), by decide⟩

/-- C27, amended.  Exact arithmetic: for `pct` in `[0,1]` and 2, 3 or 4
control points each coordinate of `bezier(pct, pts, true)` lies within every
interval that holds that coordinate of all control points, the blending
weights being non-negative with sum 1.  Binary64: every weight the closed
forms compute is non-negative, so that no coordinate of the result is below
zero when none of a control point is; the sum of the rounded weights need not
be 1 and a coordinate may leave the range of the control points by rounding. -/
theorem bezier_convex_up_to_rounding (pct : ℚ) (pts : List Point3)
    (P : F64) (Pts : List (F64 × F64 × F64)) (is3D : Bool) (R : F64 × F64 × F64)
    (h0 : 0 ≤ pct) (h1 : pct ≤ 1)
    (hlen : pts.length = 2 ∨ pts.length = 3 ∨ pts.length = 4)
    (H0 : F64.lt P F64.zero = false) (H1 : F64.lt (F64.ofInt 1) P = false)
    (Hpts : ∀ p ∈ Pts, F64.lt p.1 F64.zero = false ∧ F64.lt p.2.1 F64.zero = false
      ∧ F64.lt p.2.2 F64.zero = false)
    (HR : F64.bezier2 P Pts is3D = .ok R ∨ F64.bezier3 P Pts is3D = .ok R
      ∨ F64.bezier4 P Pts is3D = .ok R) :
    (∃ r, bezier pct pts true = .ok r
      ∧ (∀ lo hi, (∀ p ∈ pts, lo ≤ p.1 ∧ p.1 ≤ hi) → lo ≤ r.1 ∧ r.1 ≤ hi)
      ∧ (∀ lo hi, (∀ p ∈ pts, lo ≤ p.2.1 ∧ p.2.1 ≤ hi) → lo ≤ r.2.1 ∧ r.2.1 ≤ hi)
      ∧ (∀ lo hi, (∀ p ∈ pts, lo ≤ p.2.2 ∧ p.2.2 ≤ hi) → lo ≤ r.2.2 ∧ r.2.2 ≤ hi))
    ∧ (F64.lt R.1 F64.zero = false ∧ F64.lt R.2.1 F64.zero = false
      ∧ F64.lt R.2.2 F64.zero = false) :=
  ⟨bezier_within_control_points pct pts h0 h1 hlen,
    F64.bezier_closed_not_neg P Pts is3D H0 H1 Hpts R HR⟩

/-- Witness of C27 (amended): a quadratic curve at its middle in exact
arithmetic, and the two control points `0.1` at `pct = 0.18` in binary64. -/
theorem bezier_convex_up_to_rounding_witness :
    (∃ r, bezier (1 / 2) [(0, 0, 1), (2, 4, 1), (4, 0, 3)] true = .ok r
      ∧ (0 ≤ r.1 ∧ r.1 ≤ 4))
    ∧ F64.lt (F64.lit 10000000000000002 100000000000000000) F64.zero = false := by
  obtain ⟨⟨r, hr, hx, _, _⟩, ⟨hR, _, _⟩⟩ := bezier_convex_up_to_rounding (1 / 2)
    [(0, 0, 1), (2, 4, 1), (4, 0, 3)] (F64.lit 18 100)
    [(F64.lit 1 10, F64.lit 1 10, F64.lit 1 10), (F64.lit 1 10, F64.lit 1 10, F64.lit 1 10)]
    true
    (F64.lit 10000000000000002 100000000000000000,
      F64.lit 10000000000000002 100000000000000000,
      F64.lit 10000000000000002 100000000000000000)
    (by norm_num) (by norm_num) (Or.inr (Or.inl rfl)) (by decide) (by decide)
    (by
      intro p hp
      simp only [List.mem_cons, List.mem_singleton, List.not_mem_nil, or_false, or_self] at hp
      subst hp
      exact ⟨by decide, by decide, by decide⟩)
    (Or.inl (ok_of_toOption (by decide)))
  refine ⟨⟨r, hr, hx 0 4 ?_⟩, hR⟩
  intro p hp
  simp only [List.mem_cons, List.mem_singleton, List.not_mem_nil, or_false] at hp
  rcases hp with rfl | rfl | rfl <;> norm_num

/-- C28, as stated, fails in the first pair.  In binary64 the arc that starts
at `(2.9, 0)` with the centre `(46.6, 0)` and the angle 90 has the first pair
`(2.8999999999999986, 0)`, the value of `cx + (x - cx)`; here with a
stand-in for `rotate2d` that returns its vector and with `kappa = 0`. -/
theorem arc_curve_first_pair_off_start :
    (F64.arc_curve (fun a b _ => (a, b)) F64.zero (F64.lit 29 10) F64.zero
        (F64.lit 466 10) F64.zero (F64.ofInt 90) 5)
      = some (.ok [(F64.lit 28999999999999986 10000000000000000, F64.zero),
          (F64.lit 28999999999999986 10000000000000000, F64.zero),
          (F64.lit 28999999999999986 10000000000000000, F64.zero),
          (F64.lit 28999999999999986 10000000000000000, F64.zero)])
    ∧ F64.lt (F64.lit 28999999999999986 10000000000000000) (F64.lit 29 10) = true :=
  ⟨some_ok_of_bind (by decide), by decide⟩

/-- C28, amended.  Binary64: for an angle above 0 and at most 360 and all
start and centre points `arc_curve` returns a list of pairs whose first pair
is `(cx + (x - cx), cy + (y - cy))`, each operation rounded, and in which the
first control point of every curve after the first is the very pair that ends
the curve before it.  Exact arithmetic: the first pair is `(x, y)`. -/
theorem arc_curve_joined_path (Rot : F64 → F64 → F64 → F64 × F64) (Kappa X Y CX CY A : F64)
    (sqrt : ℚ → ℚ) (rotate2d : ℚ → ℚ → ℚ → Point2) (x y cx cy angle : ℚ)
    (Hpos : F64.lt F64.zero A = true) (Hmax : F64.lt (F64.ofInt 360) A = false)
    (hpos : 0 < angle) (hle : angle ≤ 360) :
    (∃ curves, F64.arc_curve Rot Kappa X Y CX CY A 5 = some (.ok curves)
      ∧ curves[0]? = some (F64.add CX (F64.sub X CX), F64.add CY (F64.sub Y CY))
      ∧ ∀ k, 4 * (k + 1) < curves.length → curves[4 * (k + 1)]? = curves[4 * k + 3]?)
    ∧ (∃ curves, arc_curve sqrt rotate2d x y cx cy angle = .ok curves
      ∧ curves[0]? = some (x, y)
      ∧ ∀ k, 4 * (k + 1) < curves.length → curves[4 * (k + 1)]? = curves[4 * k + 3]?) :=
  ⟨F64.arc_curve_chain Rot Kappa X Y CX CY A Hpos Hmax,
    arc_curve_connected sqrt rotate2d x y cx cy angle hpos hle⟩

/-- Witness of C28 (amended): a quarter of a circle around the origin from
`(1, 0)` in binary64, three quarters around `(1, 1)` from `(2, 1)` in exact
arithmetic. -/
theorem arc_curve_joined_path_witness :
    (∃ curves, F64.arc_curve (fun a b _ => (a, b)) F64.zero (F64.ofInt 1) F64.zero
          F64.zero F64.zero (F64.ofInt 90) 5 = some (.ok curves)
      ∧ curves[0]? = some (F64.ofInt 1, F64.zero))
    ∧ (∃ curves, arc_curve sampleSqrt sampleRotate2d 2 1 1 1 270 = .ok curves
      ∧ curves[0]? = some (2, 1)) := by
  obtain ⟨⟨cs, hcs, hfirst, _⟩, ⟨ds, hds, hd0, _⟩⟩ :=
    arc_curve_joined_path (fun a b _ => (a, b)) F64.zero (F64.ofInt 1) F64.zero
      F64.zero F64.zero (F64.ofInt 90) sampleSqrt sampleRotate2d 2 1 1 1 270
      (by decide) (by decide) (by norm_num) (by norm_num)
  refine ⟨⟨cs, hcs, ?_⟩, ⟨ds, hds, hd0⟩⟩
  rw [hfirst]
  decide

end TCFX
